import Mathlib

/-!
# phosh-osk-stub: the input surface and the style manager

A shallow embedding of the control logic of `PosInputSurface`
(`src/pos-input-surface.c`):

* the key handler `on_osk_key_symbol`,
* the layout bookkeeping `insert_osk`, `insert_layout`, `on_input_setting_changed`
  and `select_layout_change_state`,
* the fold/unfold animation `pos_input_surface_set_visible`, `animate_cb`,
  `pos_input_surface_move`, with the frames of the GTK frame clock that run the
  registered tick callbacks,

and of the provider bookkeeping of `PosStyleManager` (`src/pos-style-manager.c`):
`on_accent_color_changed` and `on_gtk_theme_name_changed`.

Calls into collaborators (virtual keyboard driver, input method, GTK, libhandy) are
recorded as a list of `Effect`s in call order; what the code reads back later is kept
in the `PosInputSurface` record.  C strings are `String`s, a nullable `char *` is an
`Option String`, `gboolean` fields that the code compares as integers are `Int`s, and
`double` arithmetic is exact arithmetic in a linear ordered field (rounding is not
modelled), with the libm function `cbrt` as a parameter.
-/

namespace PhoshOsk

/-! ## Data -/

/-- The fields of a `PosOskWidget` that the input surface reads back
(`pos_osk_widget_get_name`, `pos_osk_widget_get_display_name`). -/
structure PosOskWidget where
  name : String
  display_name : String
  layout : String
  variant : Option String
  deriving DecidableEq, Repr

/-- A child of `self->deck` that this file makes visible: the template child
`self->osk_terminal`, or a widget owned by the hash table `self->osks`. -/
inductive DeckChild where
  | terminal
  | osk (w : PosOskWidget)
  deriving DecidableEq, Repr

/-- Calls into collaborators, in the order the code makes them. -/
inductive Effect where
  /-- The call `pos_vk_driver_key_down (self->keyboard_driver, symbol)`. -/
  | vk_key_down (symbol : String)
  /-- The call `pos_vk_driver_key_up (self->keyboard_driver, symbol)`. -/
  | vk_key_up (symbol : String)
  /-- The call `pos_input_method_send_string (self->input_method, symbol, commit)`. -/
  | im_send_string (symbol : String) (commit : Bool)
  /-- The calls `pos_osk_widget_new` and `pos_osk_widget_set_layout` on the new widget. -/
  | osk_load (display_name layout : String) (variant : Option String)
  /-- The call `g_hash_table_insert (self->osks, name, widget)` (with the deck insertion). -/
  | osks_insert (name : String)
  /-- The call `g_hash_table_remove (self->osks, name)`; destroys the widget. -/
  | osks_remove (name : String)
  /-- The call `hdy_deck_set_visible_child (self->deck, child)`. -/
  | deck_set_visible_child (child : DeckChild)
  /-- The call `g_simple_action_set_state (action, parameter)` of `select-layout`. -/
  | action_set_state (layout : String)
  /-- The call `gtk_popover_popdown (self->menu_popup)`. -/
  | popover_popdown
  /-- A `g_warning`. -/
  | warning (about : String)
  /-- The call `g_object_notify_by_pspec` for `surface-visible`. -/
  | notify_surface_visible
  /-- The call `gtk_widget_add_tick_callback (self, animate_cb, NULL, NULL)`. -/
  | add_tick_callback
  /-- The call `phosh_layer_surface_set_margins (self, 0, 0, margin, 0)`. -/
  | set_margins (margin : Int)
  /-- The call `phosh_layer_surface_set_exclusive_zone (self, zone)`. -/
  | set_exclusive_zone (zone : Int)
  /-- The call `gtk_widget_show (self)`. -/
  | widget_show
  /-- The call `gtk_widget_hide (self)`. -/
  | widget_hide
  /-- The call `pos_osk_widget_set_layer (child, POS_OSK_WIDGET_LAYER_NORMAL)` on the
  visible child of the deck, made when that child is a `PosOskWidget`. -/
  | visible_child_set_layer_normal
  /-- The call `phosh_layer_surface_wl_surface_commit (self)`. -/
  | wl_surface_commit
  deriving DecidableEq, Repr

/-- The type `PosInputSurfaceAnimation`; `R` stands for `double`. -/
structure PosInputSurfaceAnimation (R : Type) where
  show_ : Int
  progress : R
  last_frame : Int

/-- The fields of `struct _PosInputSurface` that the modelled functions use.
`osks` is the hash table as an association list, `visible_child` the visible child of
`deck` (`none`: a child this file did not choose), `select_layout_state` the state of
the `select-layout` action, `tick_callbacks` the number of registered `animate_cb`
tick callbacks. -/
structure PosInputSurface (R : Type) where
  surface_visible : Int
  animation : PosInputSurfaceAnimation R
  osks : List (String × PosOskWidget)
  osk_terminal : PosOskWidget
  visible_child : Option DeckChild
  select_layout_state : String
  tick_callbacks : Nat

/-! ## Key handling -/

/-- The GLib function `g_str_has_prefix`: `str` begins with `pre`. -/
def g_str_has_prefix (str pre : String) : Bool :=
  pre.data.isPrefixOf str.data

/-- The handler `on_osk_key_symbol`; `active` is what
`pos_input_method_get_active (self->input_method)` returns.  The two `g_return_if_fail`
type checks hold of every well-typed call. -/
def on_osk_key_symbol (active : Bool) (symbol : String) : List Effect :=
  if g_str_has_prefix symbol "KEY_" || !active then
    [Effect.vk_key_down symbol, Effect.vk_key_up symbol]
  else
    [Effect.im_send_string symbol true]

/-- The action handler `clipboard_copy_activated`. -/
def clipboard_copy_activated : List Effect :=
  [Effect.vk_key_down "KEY_COPY", Effect.vk_key_up "KEY_COPY"]

/-- The action handler `clipboard_paste_activated`. -/
def clipboard_paste_activated : List Effect :=
  [Effect.vk_key_down "KEY_PASTE", Effect.vk_key_up "KEY_PASTE"]

/-! ## Layouts -/

/-- What `gnome_xkb_info_get_layout_info` stores through its out-parameters. -/
structure XkbLayoutInfo where
  display_name : String
  layout : String
  variant : Option String
  deriving DecidableEq, Repr

/-- The collaborators the layout code queries, as parameters: `xkb_info id` is `none`
when `gnome_xkb_info_get_layout_info (self->xkbinfo, id, ...)` returns `FALSE`, and
`layout_loads display_name layout variant` tells whether `pos_osk_widget_set_layout`
succeeds on these arguments. -/
structure Collaborators where
  xkb_info : String → Option XkbLayoutInfo
  layout_loads : String → String → Option String → Bool

/-- Modelled from the spec: the macro `STR_IS_NULL_OR_EMPTY` of `util.h`, which is not
among the sources; the canonical id carries the variant only "when the variant is
non-empty", so the macro holds of `NULL` and of the empty string. -/
def STR_IS_NULL_OR_EMPTY (s : Option String) : Bool :=
  match s with
  | none => true
  | some v => decide (v = "")

/-- The name `insert_layout` computes: `g_strdup (layout)` or
`g_strdup_printf ("%s+%s", layout, variant)`. -/
def layout_name (layout : String) (variant : Option String) : String :=
  if STR_IS_NULL_OR_EMPTY variant then layout
  else layout ++ "+" ++ variant.getD ""

/-- Modelled from the spec: `pos_osk_widget_new` followed by
`pos_osk_widget_set_layout` (`pos-osk-widget.c` is not among the sources).  `none` is a
failed load; a loaded widget carries the display name it was given and is named by its
canonical id `(base-layout[+variant])`. -/
def pos_osk_widget_set_layout (c : Collaborators) (display_name layout : String)
    (variant : Option String) : Option PosOskWidget :=
  if c.layout_loads display_name layout variant then
    some { name := layout_name layout variant, display_name := display_name,
           layout := layout, variant := variant }
  else none

/-- The accessor `pos_osk_widget_get_name`. -/
def pos_osk_widget_get_name (w : PosOskWidget) : String := w.name

/-- The GLib function `g_hash_table_lookup` on the association list. -/
def g_hash_table_lookup {α : Type} : List (String × α) → String → Option α
  | [], _ => none
  | (k, v) :: t, key => if k = key then some v else g_hash_table_lookup t key

/-- The entries left by `g_hash_table_remove`. -/
def g_hash_table_remove {α : Type} (t : List (String × α)) (key : String) :
    List (String × α) :=
  t.filter (fun e => decide (e.1 ≠ key))

/-- The GLib function `g_hash_table_insert`: an entry with an equal key is replaced. -/
def g_hash_table_insert {α : Type} (t : List (String × α)) (key : String) (v : α) :
    List (String × α) :=
  (key, v) :: g_hash_table_remove t key

/-- The GLib function `g_hash_table_get_keys_as_array`. -/
def g_hash_table_get_keys_as_array {α : Type} (t : List (String × α)) : List String :=
  t.map Prod.fst

/-- The GLib function `g_hash_table_size`. -/
def g_hash_table_size {α : Type} (t : List (String × α)) : Nat := t.length

/-- The GLib function `g_hash_table_add` on a table used as a set of strings. -/
def g_hash_table_add (set : List String) (key : String) : List String :=
  if key ∈ set then set else key :: set

/-- The GLib function `g_hash_table_contains` on a table used as a set of strings. -/
def g_hash_table_contains (set : List String) (key : String) : Bool :=
  decide (key ∈ set)

/-- The libhandy function `hdy_deck_set_visible_child`. -/
def hdy_deck_set_visible_child {R : Type} (self : PosInputSurface R) (child : DeckChild) :
    PosInputSurface R :=
  { self with visible_child := some child }

/-- The call `g_hash_table_remove (self->osks, key)`: the table was created with
`gtk_widget_destroy` as value destructor, so the removed widget is destroyed and leaves
the deck; when it was the visible child the deck shows a child of its own choice. -/
def osks_remove {R : Type} (self : PosInputSurface R) (key : String) : PosInputSurface R :=
  match g_hash_table_lookup self.osks key with
  | none => self
  | some w =>
    { self with
      osks := g_hash_table_remove self.osks key
      visible_child :=
        if self.visible_child = some (DeckChild.osk w) then none else self.visible_child }

/-- The function `insert_osk`: the widget found or loaded (`none` for `NULL`). -/
def insert_osk {R : Type} (c : Collaborators) (self : PosInputSurface R)
    (name display_name layout : String) (variant : Option String) :
    PosInputSurface R × Option PosOskWidget × List Effect :=
  match g_hash_table_lookup self.osks name with
  | some osk_widget => (self, some osk_widget, [])
  | none =>
    match pos_osk_widget_set_layout c display_name layout variant with
    | none =>
      (self, none, [Effect.osk_load display_name layout variant, Effect.warning name])
    | some osk_widget =>
      ({ self with osks := g_hash_table_insert self.osks name osk_widget },
       some osk_widget,
       [Effect.osk_load display_name layout variant, Effect.osks_insert name])

/-- The function `insert_layout`. -/
def insert_layout {R : Type} (c : Collaborators) (self : PosInputSurface R)
    (type id : String) : PosInputSurface R × Option PosOskWidget × List Effect :=
  if type ≠ "xkb" then (self, none, [])
  else
    match c.xkb_info id with
    | none => (self, none, [Effect.warning id])
    | some info =>
      insert_osk c self (layout_name info.layout info.variant) info.display_name
        info.layout info.variant

/-- The local variables of `on_input_setting_changed` that its `while` loop updates,
with the effects so far. -/
structure SourcesLoop (R : Type) where
  self : PosInputSurface R
  new : List String
  first_set : Bool
  effects : List Effect

/-- One iteration of the `while (g_variant_iter_next (...))` loop of
`on_input_setting_changed`, on the source `(type, id)`. -/
def sources_loop_body {R : Type} (c : Collaborators) (st : SourcesLoop R)
    (src : String × String) : SourcesLoop R :=
  match insert_layout c st.self src.1 src.2 with
  | (self1, none, eff) => { st with self := self1, effects := st.effects ++ eff }
  | (self1, some osk_widget, eff) =>
    if st.first_set then
      { self := self1
        new := g_hash_table_add st.new (pos_osk_widget_get_name osk_widget)
        first_set := true
        effects := st.effects ++ eff }
    else
      { self := hdy_deck_set_visible_child self1 (DeckChild.osk osk_widget)
        new := g_hash_table_add st.new (pos_osk_widget_get_name osk_widget)
        first_set := true
        effects := st.effects ++ eff ++
          [Effect.deck_set_visible_child (DeckChild.osk osk_widget)] }

/-- The `while` loop of `on_input_setting_changed` over the sources. -/
def sources_loop {R : Type} (c : Collaborators) (self : PosInputSurface R)
    (sources : List (String × String)) : SourcesLoop R :=
  sources.foldl (sources_loop_body c)
    { self := self, new := [], first_set := false, effects := [] }

/-- One iteration of the `for` loop of `on_input_setting_changed` over `old`. -/
def drop_removed_body {R : Type} (new : List String)
    (acc : PosInputSurface R × List Effect) (key : String) :
    PosInputSurface R × List Effect :=
  if !g_hash_table_contains new key then
    (osks_remove acc.1 key, acc.2 ++ [Effect.osks_remove key])
  else acc

/-- The `for` loop of `on_input_setting_changed` that drops removed layouts. -/
def drop_removed {R : Type} (new old : List String) (self : PosInputSurface R) :
    PosInputSurface R × List Effect :=
  old.foldl (drop_removed_body new) (self, [])

/-- The end of `on_input_setting_changed`: if nothing is left add a default. -/
def add_default {R : Type} (c : Collaborators) (self : PosInputSurface R) :
    PosInputSurface R × List Effect :=
  if g_hash_table_size self.osks = 0 then
    let r := insert_osk c self "us" "English (USA)" "us" none
    (r.1, r.2.2)
  else (self, [])

/-- The handler `on_input_setting_changed`; `sources` is the value of the `sources`
setting, a list of `(type, id)`. -/
def on_input_setting_changed {R : Type} (c : Collaborators) (self : PosInputSurface R)
    (sources : List (String × String)) : PosInputSurface R × List Effect :=
  let old := g_hash_table_get_keys_as_array self.osks
  let st := sources_loop c self sources
  let dropped := drop_removed st.new old st.self
  let final := add_default c dropped.1
  (final.1, st.effects ++ dropped.2 ++ final.2)

/-- The change-state handler `select_layout_change_state` of the `select-layout`
action, for the parameter `layout`. -/
def select_layout_change_state {R : Type} (self : PosInputSurface R) (layout : String) :
    PosInputSurface R × List Effect :=
  match g_hash_table_lookup self.osks layout with
  | some osk_widget =>
    ({ hdy_deck_set_visible_child self (DeckChild.osk osk_widget) with
       select_layout_state := layout },
     [Effect.popover_popdown, Effect.deck_set_visible_child (DeckChild.osk osk_widget),
      Effect.action_set_state layout])
  | none =>
    if layout = "terminal" then
      ({ hdy_deck_set_visible_child self DeckChild.terminal with
         select_layout_state := layout },
       [Effect.popover_popdown, Effect.deck_set_visible_child DeckChild.terminal,
        Effect.action_set_state layout])
    else (self, [Effect.popover_popdown, Effect.warning layout])

/-- The names `menu_activated` lists in the layout menu: the keys of `self->osks`, then
the name of `self->osk_terminal`. -/
def menu_layouts {R : Type} (self : PosInputSurface R) : List String :=
  g_hash_table_get_keys_as_array self.osks ++ [pos_osk_widget_get_name self.osk_terminal]

/-! ## Animation -/

/-- The value a `gint64` holds after an operation whose exact result is `x`
(two's complement wrap-around). -/
def gint64_wrap (x : Int) : Int :=
  (x + 2 ^ 63) % 2 ^ 64 - 2 ^ 63

/-- The conversion of a `double` to `int`: the fractional part is discarded. -/
def double_to_int {R : Type} [LinearOrderedField R] [FloorRing R] (x : R) : Int :=
  if 0 ≤ x then Int.floor x else Int.ceil x

/-- The libhandy function `hdy_ease_out_cubic`: `p = t - 1; return p * p * p + 1;`. -/
def hdy_ease_out_cubic {R : Type} [LinearOrderedField R] (t : R) : R :=
  let p := t - 1
  p * p * p + 1

/-- The function `reverse_ease_out_cubic`; `cbrt` is the libm function. -/
def reverse_ease_out_cubic {R : Type} [LinearOrderedField R] (cbrt : R → R) (t : R) : R :=
  cbrt (t - 1) + 1

/-- The function `pos_input_surface_move`; `height` is the property
`configured-height`.  It changes no field of the surface. -/
def pos_input_surface_move {R : Type} [LinearOrderedField R] [FloorRing R] (height : Int)
    (self : PosInputSurface R) : List Effect :=
  let eased := hdy_ease_out_cubic self.animation.progress
  let progress := if self.animation.show_ ≠ 0 then 1.0 - eased else eased
  let margin := double_to_int (((-height : Int) : R) * progress)
  [Effect.set_margins margin]
  ++ (if self.animation.progress ≥ 1.0 ∧ self.animation.show_ ≠ 0 then
        [Effect.set_exclusive_zone height]
      else if self.animation.progress < 1.0 ∧ self.animation.show_ = 0 then
        [Effect.set_exclusive_zone 0]
      else [])
  ++ (if self.animation.show_ ≠ 0 then [Effect.widget_show]
      else if self.animation.progress ≥ 1.0 ∧ self.animation.show_ = 0 then
        [Effect.widget_hide, Effect.visible_child_set_layer_normal]
      else [])
  ++ [Effect.wl_surface_commit]

/-- The tick callback `animate_cb`; `frame_time` is what
`gdk_frame_clock_get_frame_time (frame_clock)` returns.  The `Bool` is the return value:
`true` for `G_SOURCE_CONTINUE`, `false` for `G_SOURCE_REMOVE`. -/
def animate_cb {R : Type} [LinearOrderedField R] [FloorRing R] (height : Int)
    (self : PosInputSurface R) (frame_time : Int) : PosInputSurface R × Bool × List Effect :=
  let time : Int :=
    if self.animation.last_frame < 0 then 0
    else gint64_wrap (frame_time - self.animation.last_frame)
  let progress : R := self.animation.progress + 0.06666 * (time : R) / 16666.00
  let finished : Bool := decide (progress ≥ 1.0)
  let self1 : PosInputSurface R :=
    { self with
      animation :=
        { self.animation with
          progress := if progress ≥ 1.0 then 1.0 else progress
          last_frame := frame_time } }
  (self1, !finished, pos_input_surface_move height self1)

/-- The function `pos_input_surface_set_visible`; `visible` is the `gboolean`
argument. -/
def pos_input_surface_set_visible {R : Type} [LinearOrderedField R] (cbrt : R → R)
    (self : PosInputSurface R) (visible : Int) : PosInputSurface R × List Effect :=
  if visible = self.surface_visible then (self, [])
  else
    ({ self with
       surface_visible := visible
       animation :=
         { show_ := visible
           last_frame := -1
           progress :=
             reverse_ease_out_cubic cbrt (1.0 - hdy_ease_out_cubic self.animation.progress) }
       tick_callbacks := self.tick_callbacks + 1 },
     [Effect.notify_surface_visible, Effect.add_tick_callback])

/-- The name `menu_activated` reads off the visible child of the deck
(`pos_osk_widget_get_name (hdy_deck_get_visible_child (self->deck))`), when that child
is one this file chose. -/
def presented_layout {R : Type} (self : PosInputSurface R) : Option String :=
  match self.visible_child with
  | none => none
  | some DeckChild.terminal => some (pos_osk_widget_get_name self.osk_terminal)
  | some (DeckChild.osk w) => some (pos_osk_widget_get_name w)

/-- The representation invariant of the layout fields: the keys of `self->osks` are
distinct, every widget in the table is stored under its own name, and the terminal
widget is named `terminal` (`pos_input_surface_init` sets its layout so). -/
def well_formed {R : Type} (self : PosInputSurface R) : Bool :=
  decide (g_hash_table_get_keys_as_array self.osks).Nodup
  && self.osks.all (fun e => decide (pos_osk_widget_get_name e.2 = e.1))
  && decide (pos_osk_widget_get_name self.osk_terminal = "terminal")

/-- The fields as `pos_input_surface_init` leaves them before it reads the input
settings: `surface_visible` is -1, the progress 1.0, the other animation fields zero,
the table empty, the `select-layout` state `terminal`; the terminal widget carries the
layout `terminal` the function gives it. -/
def init_surface {R : Type} [LinearOrderedField R] : PosInputSurface R where
  surface_visible := -1
  animation := { show_ := 0, progress := 1.0, last_frame := 0 }
  osks := []
  osk_terminal :=
    { name := "terminal", display_name := "Terminal", layout := "terminal", variant := none }
  visible_child := none
  select_layout_state := "terminal"
  tick_callbacks := 0

/-- The widget of the first source that resolves against the table of `self`
(`insert_layout` returns it), if any source does. -/
def first_resolved {R : Type} (c : Collaborators) (self : PosInputSurface R)
    (sources : List (String × String)) : Option PosOskWidget :=
  sources.findSome? (fun src => (insert_layout c self src.1 src.2).2.1)

/-- The name a source stands for: the name `insert_layout` computes for an `xkb` source
whose layout info is found, `none` for a source it ignores. -/
def source_name (c : Collaborators) (src : String × String) : Option String :=
  if src.1 ≠ "xkb" then none
  else (c.xkb_info src.2).map (fun info => layout_name info.layout info.variant)

/-- Whether the source is an `xkb` source with layout info whose layout loads. -/
def source_loads (c : Collaborators) (src : String × String) : Bool :=
  if src.1 ≠ "xkb" then false
  else
    match c.xkb_info src.2 with
    | none => false
    | some info => c.layout_loads info.display_name info.layout info.variant

/-- The sources of the list that resolve in the loop of `on_input_setting_changed`
started in `st`: the list with the skipped sources deleted. -/
def resolved_sources {R : Type} (c : Collaborators) :
    SourcesLoop R → List (String × String) → List (String × String)
  | _, [] => []
  | st, src :: rest =>
    if (insert_layout c st.self src.1 src.2).2.1.isSome then
      src :: resolved_sources c (sources_loop_body c st src) rest
    else resolved_sources c (sources_loop_body c st src) rest

/-- Whether the effect inserts into or removes from `self->osks`. -/
def Effect.mutates_osks : Effect → Bool
  | Effect.osks_insert _ => true
  | Effect.osks_remove _ => true
  | _ => false

/-- Whether the effect is a call of `hdy_deck_set_visible_child`. -/
def Effect.selects_child : Effect → Bool
  | Effect.deck_set_visible_child _ => true
  | _ => false

/-- Sample collaborators: the layout info of `us`, `de`, `de+neo` and `fr`, and a
loader that loads every layout but `fr`. -/
def sample_collaborators : Collaborators where
  xkb_info := fun id =>
    if id = "us" then some ⟨"English (US)", "us", some ""⟩
    else if id = "de" then some ⟨"German", "de", none⟩
    else if id = "de+neo" then some ⟨"German (Neo 2)", "de", some "neo"⟩
    else if id = "fr" then some ⟨"French", "fr", none⟩
    else none
  layout_loads := fun _ layout _ => decide (layout ≠ "fr")

/-- A sample surface whose table holds the layouts `us` and `de`. -/
def sample_surface_us_de : PosInputSurface ℚ :=
  { (init_surface : PosInputSurface ℚ) with
    osks := [("us", ⟨"us", "English (US)", "us", some ""⟩),
             ("de", ⟨"de", "German", "de", none⟩)] }

/-- A sample surface in the middle of unfolding: progress 0, last frame at 5000. -/
def sample_surface_showing : PosInputSurface ℚ :=
  { (init_surface : PosInputSurface ℚ) with
    surface_visible := 1
    animation := { show_ := 1, progress := 0, last_frame := 5000 }
    tick_callbacks := 1 }

/-! ## Animation: frames and traces -/

/-- The fraction of the height by which `pos_input_surface_move` moves the surface
down: its local variable `progress`, the eased progress when folding and one minus it
when unfolding. -/
def offset_fraction {R : Type} [LinearOrderedField R] (self : PosInputSurface R) : R :=
  if self.animation.show_ ≠ 0 then 1.0 - hdy_ease_out_cubic self.animation.progress
  else hdy_ease_out_cubic self.animation.progress

/-- The surfaces after each of a sequence of calls of `animate_cb`, at the given frame
times, with no other call in between. -/
def animate_cb_run {R : Type} [LinearOrderedField R] [FloorRing R] (height : Int) :
    PosInputSurface R → List Int → List (PosInputSurface R)
  | _, [] => []
  | self, t :: ts =>
    (animate_cb height self t).1 :: animate_cb_run height (animate_cb height self t).1 ts

/-- One registered tick callback in a frame: GTK calls `animate_cb` and unregisters the
callback when it returns `G_SOURCE_REMOVE`. -/
def run_tick_callback {R : Type} [LinearOrderedField R] [FloorRing R] (height : Int)
    (frame_time : Int) (acc : PosInputSurface R × List Effect) :
    PosInputSurface R × List Effect :=
  match animate_cb height acc.1 frame_time with
  | (self1, true, eff) => (self1, acc.2 ++ eff)
  | (self1, false, eff) =>
    ({ self1 with tick_callbacks := self1.tick_callbacks - 1 }, acc.2 ++ eff)

/-- The given number of tick callbacks run one after the other in a frame. -/
def run_tick_callbacks {R : Type} [LinearOrderedField R] [FloorRing R] (height : Int)
    (frame_time : Int) :
    Nat → PosInputSurface R × List Effect → PosInputSurface R × List Effect
  | 0, acc => acc
  | n + 1, acc =>
    run_tick_callbacks height frame_time n (run_tick_callback height frame_time acc)

/-- A frame of the GTK frame clock for the surface: every tick callback registered with
`gtk_widget_add_tick_callback` at the start of the frame runs once, with the same
frame time. -/
def frame_clock_update {R : Type} [LinearOrderedField R] [FloorRing R] (height : Int)
    (self : PosInputSurface R) (frame_time : Int) : PosInputSurface R × List Effect :=
  run_tick_callbacks height frame_time self.tick_callbacks (self, [])

/-- What happens to the surface from outside: a visibility request
`pos_input_surface_set_visible (self, TRUE)` or `(self, FALSE)`, or a frame of the
frame clock. -/
inductive SurfaceEvent where
  | set_visible (visible : Bool)
  | frame_tick (frame_time : Int)
  deriving DecidableEq, Repr

/-- The `gboolean` values `TRUE` and `FALSE`. -/
def gboolean (b : Bool) : Int := if b then 1 else 0

/-- One event on the surface; the effects are appended to the log. -/
def surface_event {R : Type} [LinearOrderedField R] [FloorRing R] (cbrt : R → R)
    (height : Int) (acc : PosInputSurface R × List Effect) :
    SurfaceEvent → PosInputSurface R × List Effect
  | SurfaceEvent.set_visible visible =>
    ((pos_input_surface_set_visible cbrt acc.1 (gboolean visible)).1,
     acc.2 ++ (pos_input_surface_set_visible cbrt acc.1 (gboolean visible)).2)
  | SurfaceEvent.frame_tick frame_time =>
    ((frame_clock_update height acc.1 frame_time).1,
     acc.2 ++ (frame_clock_update height acc.1 frame_time).2)

/-- A sequence of events on the surface, with the log of all effects. -/
def surface_run {R : Type} [LinearOrderedField R] [FloorRing R] (cbrt : R → R)
    (height : Int) (self : PosInputSurface R) (events : List SurfaceEvent) :
    PosInputSurface R × List Effect :=
  events.foldl (surface_event cbrt height) (self, [])

/-- The zone of the most recent `phosh_layer_surface_set_exclusive_zone` call in a
log, if there is one. -/
def last_exclusive_zone : List Effect → Option Int
  | [] => none
  | Effect.set_exclusive_zone zone :: rest =>
    match last_exclusive_zone rest with
    | some z => some z
    | none => some zone
  | _ :: rest => last_exclusive_zone rest

/-- The zone of the most recent `phosh_layer_surface_set_exclusive_zone` call after the
log, when it was `zone` before. -/
def zone_after (zone : Option Int) (log : List Effect) : Option Int :=
  match last_exclusive_zone log with
  | some z => some z
  | none => zone

/-- Whether at every `gtk_widget_hide` of the log the most recent exclusive zone, `zone`
before the log, is 0 or was never set. -/
def hides_released : Option Int → List Effect → Bool
  | _, [] => true
  | _, Effect.set_exclusive_zone z :: rest => hides_released (some z) rest
  | zone, Effect.widget_hide :: rest =>
    (decide (zone = none) || decide (zone = some 0)) && hides_released zone rest
  | zone, _ :: rest => hides_released zone rest

/-- The invariant that ties the surface to the zone `zone` set last: the direction is
0 or 1, and 1 only with `surface_visible` 1; and when the zone set last is not 0, the
surface is fully unfolded (progress 1, and no tick callback left or no frame since the
last request), or a request to fold it has just been made (progress 0, last frame time
cleared). -/
def zone_invariant {R : Type} [LinearOrderedField R] (self : PosInputSurface R)
    (zone : Option Int) : Prop :=
  (self.animation.show_ = 0 ∨ (self.animation.show_ = 1 ∧ self.surface_visible = 1))
  ∧ ∀ z, zone = some z → z ≠ 0 →
      self.surface_visible = self.animation.show_
      ∧ ((self.animation.show_ = 1 ∧ self.animation.progress = 1
            ∧ (self.tick_callbacks = 0 ∨ self.animation.last_frame < 0))
          ∨ (self.animation.show_ = 0 ∧ self.animation.progress = 0
            ∧ self.animation.last_frame < 0))

/-- Whether the effect is a call of `phosh_layer_surface_set_margins`. -/
def Effect.sets_margins : Effect → Bool
  | Effect.set_margins _ => true
  | _ => false

/-- The libm function `cbrt` on the rational cubes -1, 0 and 1, the only arguments it
gets in the sample traces (elsewhere the identity, which is not a cube root). -/
def sample_cbrt (x : ℚ) : ℚ := x

/-- A sample surface half-way through unfolding: progress 1/2. -/
def sample_surface_unfolding : PosInputSurface ℚ :=
  { (init_surface : PosInputSurface ℚ) with
    surface_visible := 1
    animation := { show_ := 1, progress := 1 / 2, last_frame := 5000 }
    tick_callbacks := 1 }

/-- A sample surface half-way through folding: progress 1/2. -/
def sample_surface_folding : PosInputSurface ℚ :=
  { (init_surface : PosInputSurface ℚ) with
    surface_visible := 0
    animation := { show_ := 0, progress := 1 / 2, last_frame := 5000 }
    tick_callbacks := 1 }

/-- A sample surface whose table holds `us` and `de`, with `de` presented. -/
def sample_surface_de_presented : PosInputSurface ℚ :=
  { sample_surface_us_de with
    visible_child := some (DeckChild.osk ⟨"de", "German", "de", none⟩)
    select_layout_state := "de" }

/-! ## Style manager (`src/pos-style-manager.c`) -/

/-- What a `GtkCssProvider` was loaded from: `gtk_css_provider_load_from_resource` or
`gtk_css_provider_load_from_data`. -/
inductive CssSource where
  | resource (path : String)
  | data (css : String)
  deriving DecidableEq, Repr

/-- A `GtkCssProvider` object; `id` stands for its address, given out in order by
`gtk_css_provider_new`. -/
structure GtkCssProvider where
  id : Nat
  source : CssSource
  deriving DecidableEq, Repr

/-- The enum `GDesktopAccentColor` of `gdesktop-enums.h`, the value of the
`accent-color` setting. -/
inductive GDesktopAccentColor where
  | blue | teal | green | yellow | orange | red | pink | purple | slate
  deriving DecidableEq, Repr

/-- The fields of `struct _PosStyleManager` (a `NULL` pointer is `none`). -/
structure PosStyleManager where
  theme_name : Option String
  css_provider : Option GtkCssProvider
  accent_css_provider : Option GtkCssProvider
  deriving DecidableEq, Repr

/-- The GTK side: the style providers added for the default screen, each with its
priority, the number of providers created so far, and the number of `theme-name`
notifications. -/
structure GtkScreen where
  providers : List (GtkCssProvider × Nat)
  created : Nat
  theme_name_notified : Nat
  deriving DecidableEq, Repr

/-- The constant `GTK_STYLE_PROVIDER_PRIORITY_APPLICATION` of GTK. -/
def GTK_STYLE_PROVIDER_PRIORITY_APPLICATION : Nat := 600

/-- The GTK function `gtk_style_context_remove_provider_for_screen`. -/
def gtk_style_context_remove_provider_for_screen (screen : GtkScreen)
    (provider : GtkCssProvider) : GtkScreen :=
  { screen with providers := screen.providers.filter (fun e => decide (e.1 ≠ provider)) }

/-- The GTK function `gtk_style_context_add_provider_for_screen`. -/
def gtk_style_context_add_provider_for_screen (screen : GtkScreen)
    (provider : GtkCssProvider) (priority : Nat) : GtkScreen :=
  { screen with providers := screen.providers ++ [(provider, priority)] }

/-- The colour `on_accent_color_changed` picks in its `switch`. -/
def accent_color (accent : GDesktopAccentColor) : String :=
  match accent with
  | GDesktopAccentColor.teal => "#2190a4"
  | GDesktopAccentColor.green => "#3a944a"
  | GDesktopAccentColor.yellow => "#c88800"
  | GDesktopAccentColor.orange => "#ed5b00"
  | GDesktopAccentColor.red => "#e62d42"
  | GDesktopAccentColor.pink => "#d56199"
  | GDesktopAccentColor.purple => "#9141ac"
  | GDesktopAccentColor.slate => "#6f8396"
  | GDesktopAccentColor.blue => "#3584e4"

/-- The function `pos_style_manager_get_stylesheet`. -/
def pos_style_manager_get_stylesheet (theme_name : Option String) : String :=
  if theme_name = some "HighContrast" then
    "/mobi/phosh/osk-stub/stylesheet/adwaita-hc-light.css"
  else "/mobi/phosh/osk-stub/stylesheet/adwaita-dark.css"

/-- The handler `on_accent_color_changed`; `accent` is what
`g_settings_get_enum (self->interface_settings, "accent-color")` returns. -/
def on_accent_color_changed (self : PosStyleManager) (screen : GtkScreen)
    (accent : GDesktopAccentColor) : PosStyleManager × GtkScreen :=
  let id := screen.created
  let screen1 := { screen with created := screen.created + 1 }
  let screen2 :=
    match self.accent_css_provider with
    | some old => gtk_style_context_remove_provider_for_screen screen1 old
    | none => screen1
  if self.theme_name ≠ some "Adwaita" ∧ self.theme_name ≠ some "adw-gtk3" then
    (self, screen2)
  else
    let css := "@define-color theme_selected_bg_color " ++ accent_color accent ++ ";\n"
      ++ "@define-color theme_selected_fg_color " ++ "#ffffff" ++ ";"
    let provider : GtkCssProvider := { id := id, source := CssSource.data css }
    ({ self with css_provider := some provider },
     gtk_style_context_add_provider_for_screen screen2 provider
       (GTK_STYLE_PROVIDER_PRIORITY_APPLICATION + 1))

/-- The handler `on_gtk_theme_name_changed`; `name` is the `gtk-theme-name` property of
the settings. -/
def on_gtk_theme_name_changed (self : PosStyleManager) (screen : GtkScreen)
    (name : Option String) (accent : GDesktopAccentColor) : PosStyleManager × GtkScreen :=
  let id := screen.created
  let screen1 := { screen with created := screen.created + 1 }
  if self.theme_name = name then (self, screen1)
  else
    let self1 := { self with theme_name := name }
    let screen2 :=
      match self1.css_provider with
      | some old => gtk_style_context_remove_provider_for_screen screen1 old
      | none => screen1
    let style := pos_style_manager_get_stylesheet self1.theme_name
    let provider : GtkCssProvider := { id := id, source := CssSource.resource style }
    let screen3 := gtk_style_context_add_provider_for_screen screen2 provider
      GTK_STYLE_PROVIDER_PRIORITY_APPLICATION
    let self2 := { self1 with css_provider := some provider }
    let r := on_accent_color_changed self2 screen3 accent
    (r.1, { r.2 with theme_name_notified := r.2.theme_name_notified + 1 })

/-- The function `pos_style_manager_init`: all fields start as `NULL`, and the handler
`on_gtk_theme_name_changed` runs once. -/
def pos_style_manager_init (screen : GtkScreen) (name : Option String)
    (accent : GDesktopAccentColor) : PosStyleManager × GtkScreen :=
  on_gtk_theme_name_changed
    { theme_name := none, css_provider := none, accent_css_provider := none } screen name
    accent

/-- The providers on the screen that hold accent colours (priority above the
application priority). -/
def accent_providers (screen : GtkScreen) : List GtkCssProvider :=
  (screen.providers.filter
    (fun e => decide (e.2 = GTK_STYLE_PROVIDER_PRIORITY_APPLICATION + 1))).map Prod.fst

/-- The providers on the screen that hold a theme stylesheet (application
priority). -/
def theme_providers (screen : GtkScreen) : List GtkCssProvider :=
  (screen.providers.filter
    (fun e => decide (e.2 = GTK_STYLE_PROVIDER_PRIORITY_APPLICATION))).map Prod.fst

/-- The empty screen. -/
def empty_screen : GtkScreen := { providers := [], created := 0, theme_name_notified := 0 }

/-- The style manager after `pos_style_manager_init` on the empty screen with the theme
`Adwaita` and the accent colour blue. -/
def sample_style_init : PosStyleManager × GtkScreen :=
  pos_style_manager_init empty_screen (some "Adwaita") GDesktopAccentColor.blue

/-- The sample style manager after the accent colour changes to teal. -/
def sample_style_accent : PosStyleManager × GtkScreen :=
  on_accent_color_changed sample_style_init.1 sample_style_init.2 GDesktopAccentColor.teal

/-- The sample style manager after the theme then changes to `HighContrast`. -/
def sample_style_theme : PosStyleManager × GtkScreen :=
  on_gtk_theme_name_changed sample_style_accent.1 sample_style_accent.2
    (some "HighContrast") GDesktopAccentColor.teal

/-! ## Key handling: theorems -/

theorem g_str_has_prefix_iff (str pre : String) :
    g_str_has_prefix str pre = true ↔ pre.data <+: str.data := by
  unfold g_str_has_prefix
  exact List.isPrefixOf_iff_prefix

/-- C1: `on_osk_key_symbol` emits exactly a key-down followed by a key-up of the symbol
if and only if the symbol starts with `KEY_` or the input method is not active, and
exactly one committed string (commit flag true) in every other case; `KEY_COPY` is a
raw key whatever the session state. -/
theorem on_osk_key_symbol_routing (active : Bool) (symbol : String) :
    (on_osk_key_symbol active symbol = [Effect.vk_key_down symbol, Effect.vk_key_up symbol]
      ↔ ("KEY_".data <+: symbol.data ∨ active = false)) ∧
    (on_osk_key_symbol active symbol = [Effect.im_send_string symbol true]
      ↔ ¬ ("KEY_".data <+: symbol.data ∨ active = false)) ∧
    on_osk_key_symbol active "KEY_COPY"
      = [Effect.vk_key_down "KEY_COPY", Effect.vk_key_up "KEY_COPY"] := by
  have hp := g_str_has_prefix_iff symbol "KEY_"
  refine ⟨?_, ?_, ?_⟩
  · unfold on_osk_key_symbol
    by_cases h : ( g_str_has_prefix symbol "KEY_" || !active) = true
    · rw [if_pos h]
      simp only [Bool.or_eq_true, Bool.not_eq_true', hp] at h
      simp [h]
    · rw [if_neg h]
      simp only [Bool.or_eq_true, Bool.not_eq_true', hp] at h
      simp [h]
  · unfold on_osk_key_symbol
    by_cases h : ( g_str_has_prefix symbol "KEY_" || !active) = true
    · rw [if_pos h]
      simp only [Bool.or_eq_true, Bool.not_eq_true', hp] at h
      simp [h]
    · rw [if_neg h]
      simp only [Bool.or_eq_true, Bool.not_eq_true', hp] at h
      simp [h]
  · cases active <;> decide

/-- C8, as the code has it: `KEY_A` goes out as a raw key down and up also while the
input method is active; no string is committed for it. -/
theorem on_osk_key_symbol_KEY_A_active_is_raw :
    on_osk_key_symbol true "KEY_A" = [Effect.vk_key_down "KEY_A", Effect.vk_key_up "KEY_A"]
    ∧ on_osk_key_symbol true "KEY_A" ≠ [Effect.im_send_string "KEY_A" true] := by
  decide

/-- C8, amended: `KEY_A` is dispatched as a raw key when the input method is inactive
and when it is active; a symbol without the `KEY_` prefix, such as `a`, is dispatched
as a raw key when inactive and committed as text when active. -/
theorem on_osk_key_symbol_router_cases :
    on_osk_key_symbol false "KEY_A" = [Effect.vk_key_down "KEY_A", Effect.vk_key_up "KEY_A"]
    ∧ on_osk_key_symbol true "KEY_A" = [Effect.vk_key_down "KEY_A", Effect.vk_key_up "KEY_A"]
    ∧ on_osk_key_symbol false "a" = [Effect.vk_key_down "a", Effect.vk_key_up "a"]
    ∧ on_osk_key_symbol true "a" = [Effect.im_send_string "a" true] := by
  decide

/-! ## Animation: theorems -/

theorem gint64_wrap_of_range (x : Int) (hlo : -2 ^ 63 ≤ x) (hhi : x < 2 ^ 63) :
    gint64_wrap x = x := by
  unfold gint64_wrap
  omega

/-- C9: `pos_input_surface_set_visible` with the recorded visibility as target changes
no field and makes no call; with any other target it records the target, sets the
animation direction to it, clears the last frame time (to -1), replaces the progress
`p` by `reverse_ease_out_cubic (1 - hdy_ease_out_cubic p)`, registers one more tick
callback, and leaves the layout fields alone. -/
theorem pos_input_surface_set_visible_request {R : Type} [LinearOrderedField R]
    (cbrt : R → R) (self : PosInputSurface R) (visible : Int) :
    (visible = self.surface_visible →
      pos_input_surface_set_visible cbrt self visible = (self, [])) ∧
    (visible ≠ self.surface_visible →
      (pos_input_surface_set_visible cbrt self visible).1.surface_visible = visible ∧
      (pos_input_surface_set_visible cbrt self visible).1.animation.show_ = visible ∧
      (pos_input_surface_set_visible cbrt self visible).1.animation.last_frame = -1 ∧
      (pos_input_surface_set_visible cbrt self visible).1.animation.progress
        = reverse_ease_out_cubic cbrt (1 - hdy_ease_out_cubic self.animation.progress) ∧
      (pos_input_surface_set_visible cbrt self visible).1.tick_callbacks
        = self.tick_callbacks + 1 ∧
      (pos_input_surface_set_visible cbrt self visible).2
        = [Effect.notify_surface_visible, Effect.add_tick_callback] ∧
      (pos_input_surface_set_visible cbrt self visible).1.osks = self.osks ∧
      (pos_input_surface_set_visible cbrt self visible).1.visible_child = self.visible_child ∧
      (pos_input_surface_set_visible cbrt self visible).1.select_layout_state
        = self.select_layout_state) := by
  constructor
  · intro h
    simp [pos_input_surface_set_visible, h]
  · intro h
    have h1 : (1.0 : R) = 1 := by norm_num
    simp [pos_input_surface_set_visible, h, h1]

/-- C10: a tick of `animate_cb` with the last frame time cleared (negative) leaves a
progress of at most 1 unchanged whatever the timestamp; a later tick at `now`, with
`now - last_frame` in the range of `gint64`, sets the progress to
`min 1 (progress + 0.06666 * (now - last_frame) / 16666)`, which for a frame of 16666
microseconds is `min 1 (progress + 0.06666)`; in both cases `last_frame` becomes
`now`. -/
theorem animate_cb_progress {R : Type} [LinearOrderedField R] [FloorRing R] (height : Int)
    (self : PosInputSurface R) (now : Int) :
    (self.animation.last_frame < 0 →
      (animate_cb height self now).1.animation.progress = min 1 self.animation.progress ∧
      (self.animation.progress ≤ 1 →
        (animate_cb height self now).1.animation.progress = self.animation.progress)) ∧
    (0 ≤ self.animation.last_frame →
      -2 ^ 63 ≤ now - self.animation.last_frame → now - self.animation.last_frame < 2 ^ 63 →
      (animate_cb height self now).1.animation.progress
        = min 1 (self.animation.progress
            + 0.06666 * ((now - self.animation.last_frame : Int) : R) / 16666)) ∧
    (0 ≤ self.animation.last_frame → now - self.animation.last_frame = 16666 →
      (animate_cb height self now).1.animation.progress
        = min 1 (self.animation.progress + 0.06666)) ∧
    (animate_cb height self now).1.animation.last_frame = now := by
  have key : ∀ x : R, (if x ≥ 1.0 then (1.0 : R) else x) = min 1 x := by
    intro x
    by_cases hx : (1 : R) ≤ x
    · have h1 : x ≥ (1.0 : R) := by norm_num; exact hx
      rw [if_pos h1, min_eq_left hx]; norm_num
    · have h1 : ¬ x ≥ (1.0 : R) := by norm_num; exact lt_of_not_le hx
      rw [if_neg h1, min_eq_right (le_of_lt (lt_of_not_le hx))]
  refine ⟨?_, ?_, ?_, ?_⟩
  · intro hlast
    have hp : (animate_cb height self now).1.animation.progress
        = min 1 self.animation.progress := by
      simp only [animate_cb, if_pos hlast, key]
      norm_num
    refine ⟨hp, ?_⟩
    intro hle
    rw [hp, min_eq_right hle]
  · intro hlast hlo hhi
    have hnot : ¬ self.animation.last_frame < 0 := not_lt.mpr hlast
    simp only [animate_cb, if_neg hnot, key, gint64_wrap_of_range _ hlo hhi]
    norm_num
  · intro hlast hframe
    have hnot : ¬ self.animation.last_frame < 0 := not_lt.mpr hlast
    have hw : gint64_wrap (now - self.animation.last_frame) = 16666 := by
      rw [hframe]; decide
    simp only [animate_cb, if_neg hnot, key, hw]
    norm_num
  · simp [animate_cb]

/-! ## Layouts: the hash table -/

section Table

variable {α : Type}

theorem lookup_eq_none_iff (t : List (String × α)) (key : String) :
    g_hash_table_lookup t key = none ↔ key ∉ g_hash_table_get_keys_as_array t := by
  induction t with
  | nil => simp [g_hash_table_lookup, g_hash_table_get_keys_as_array]
  | cons e t ih =>
    obtain ⟨k, v⟩ := e
    unfold g_hash_table_get_keys_as_array at ih
    by_cases hk : k = key
    · simp [g_hash_table_lookup, g_hash_table_get_keys_as_array, hk]
    · have hk2 : ¬ key = k := fun h => hk h.symm
      simp [g_hash_table_lookup, g_hash_table_get_keys_as_array, hk, hk2, ih]

theorem lookup_some_mem (t : List (String × α)) (key : String) (v : α)
    (h : g_hash_table_lookup t key = some v) : (key, v) ∈ t := by
  induction t with
  | nil => simp [g_hash_table_lookup] at h
  | cons e t ih =>
    obtain ⟨k, w⟩ := e
    by_cases hk : k = key
    · simp [g_hash_table_lookup, hk] at h
      simp [hk, h]
    · simp [g_hash_table_lookup, hk] at h
      exact List.mem_cons_of_mem _ (ih h)

theorem lookup_some_mem_keys (t : List (String × α)) (key : String) (v : α)
    (h : g_hash_table_lookup t key = some v) : key ∈ g_hash_table_get_keys_as_array t := by
  have := lookup_some_mem t key v h
  unfold g_hash_table_get_keys_as_array
  exact List.mem_map.mpr ⟨(key, v), this, rfl⟩

theorem mem_keys_remove (t : List (String × α)) (key n : String) :
    n ∈ g_hash_table_get_keys_as_array (g_hash_table_remove t key)
      ↔ n ∈ g_hash_table_get_keys_as_array t ∧ n ≠ key := by
  unfold g_hash_table_get_keys_as_array g_hash_table_remove
  simp only [List.mem_map, List.mem_filter, decide_eq_true_eq]
  constructor
  · rintro ⟨e, ⟨he, hne⟩, rfl⟩
    exact ⟨⟨e, he, rfl⟩, hne⟩
  · rintro ⟨⟨e, he, rfl⟩, hne⟩
    exact ⟨e, ⟨he, hne⟩, rfl⟩

theorem remove_of_not_mem (t : List (String × α)) (key : String)
    (h : key ∉ g_hash_table_get_keys_as_array t) : g_hash_table_remove t key = t := by
  unfold g_hash_table_remove
  rw [List.filter_eq_self]
  intro e he
  simp only [decide_eq_true_eq]
  intro hk
  apply h
  unfold g_hash_table_get_keys_as_array
  exact List.mem_map.mpr ⟨e, he, hk⟩

theorem remove_cons (k : String) (v : α) (t : List (String × α)) (key : String) :
    g_hash_table_remove ((k, v) :: t) key
      = if k = key then g_hash_table_remove t key else (k, v) :: g_hash_table_remove t key := by
  unfold g_hash_table_remove
  by_cases hk : k = key
  · simp [List.filter_cons, hk]
  · simp [List.filter_cons, hk]

theorem lookup_cons (k : String) (v : α) (t : List (String × α)) (key : String) :
    g_hash_table_lookup ((k, v) :: t) key
      = if k = key then some v else g_hash_table_lookup t key := rfl

theorem lookup_remove_ne (t : List (String × α)) (key n : String) (h : n ≠ key) :
    g_hash_table_lookup (g_hash_table_remove t key) n = g_hash_table_lookup t n := by
  induction t with
  | nil => rfl
  | cons e t ih =>
    obtain ⟨k, v⟩ := e
    rw [remove_cons, lookup_cons]
    by_cases hk : k = key
    · have hkn : ¬ k = n := fun h2 => h (h2.symm.trans hk)
      rw [if_pos hk, if_neg hkn, ih]
    · rw [if_neg hk, lookup_cons, ih]

theorem lookup_remove_self (t : List (String × α)) (key : String) :
    g_hash_table_lookup (g_hash_table_remove t key) key = none := by
  rw [lookup_eq_none_iff, mem_keys_remove]
  simp

theorem keys_remove_nodup (t : List (String × α)) (key : String)
    (h : (g_hash_table_get_keys_as_array t).Nodup) :
    (g_hash_table_get_keys_as_array (g_hash_table_remove t key)).Nodup := by
  unfold g_hash_table_get_keys_as_array g_hash_table_remove at *
  exact List.Nodup.sublist (List.Sublist.map _ (List.filter_sublist t)) h

end Table

/-! ## Layouts: one source -/

section Layouts

variable {R : Type}

theorem well_formed_iff (self : PosInputSurface R) :
    well_formed self = true ↔
      (g_hash_table_get_keys_as_array self.osks).Nodup
      ∧ (∀ e ∈ self.osks, pos_osk_widget_get_name e.2 = e.1)
      ∧ pos_osk_widget_get_name self.osk_terminal = "terminal" := by
  unfold well_formed
  simp only [Bool.and_eq_true, decide_eq_true_eq, List.all_eq_true, and_assoc]

/-- The four ways `insert_layout` ends: the source is ignored (not `xkb`, or no layout
info); its layout is found in the table; its layout is absent and fails to load; its
layout is absent, loads and is inserted. -/
theorem insert_layout_cases (c : Collaborators) (self : PosInputSurface R)
    (src : String × String) :
    (∃ eff, source_name c src = none ∧ source_loads c src = false
      ∧ insert_layout c self src.1 src.2 = (self, none, eff)
      ∧ (eff = [] ∨ eff = [Effect.warning src.2]))
    ∨ (∃ n w, source_name c src = some n ∧ g_hash_table_lookup self.osks n = some w
      ∧ insert_layout c self src.1 src.2 = (self, some w, []))
    ∨ (∃ n d l v, source_name c src = some n ∧ g_hash_table_lookup self.osks n = none
      ∧ source_loads c src = false ∧ c.layout_loads d l v = false ∧ layout_name l v = n
      ∧ insert_layout c self src.1 src.2
          = (self, none, [Effect.osk_load d l v, Effect.warning n]))
    ∨ (∃ n d l v, source_name c src = some n ∧ g_hash_table_lookup self.osks n = none
      ∧ source_loads c src = true ∧ c.layout_loads d l v = true ∧ layout_name l v = n
      ∧ insert_layout c self src.1 src.2
          = ({ self with osks := (n, ⟨n, d, l, v⟩) :: self.osks }, some ⟨n, d, l, v⟩,
             [Effect.osk_load d l v, Effect.osks_insert n])) := by
  obtain ⟨type, id⟩ := src
  by_cases ht : type ≠ "xkb"
  · left
    exact ⟨[], by simp [source_name, source_loads, insert_layout, ht]⟩
  · cases hinfo : c.xkb_info id with
    | none =>
      left
      exact ⟨[Effect.warning id],
        by simp [source_name, source_loads, insert_layout, ht, hinfo]⟩
    | some info =>
      right
      cases hl : g_hash_table_lookup self.osks (layout_name info.layout info.variant) with
      | some w =>
        left
        refine ⟨layout_name info.layout info.variant, w, ?_, hl, ?_⟩
        · simp [source_name, ht, hinfo]
        · simp [insert_layout, ht, hinfo, insert_osk, hl]
      | none =>
        right
        by_cases hload : c.layout_loads info.display_name info.layout info.variant = true
        · right
          refine ⟨layout_name info.layout info.variant, info.display_name, info.layout,
            info.variant, ?_, hl, ?_, hload, rfl, ?_⟩
          · simp [source_name, ht, hinfo]
          · simp [source_loads, ht, hinfo, hload]
          · have hnot := (lookup_eq_none_iff _ _).mp hl
            simp [insert_layout, ht, hinfo, insert_osk, hl, pos_osk_widget_set_layout, hload,
              g_hash_table_insert, remove_of_not_mem _ _ hnot]
        · left
          have hload2 : c.layout_loads info.display_name info.layout info.variant = false := by
            simpa using hload
          refine ⟨layout_name info.layout info.variant, info.display_name, info.layout,
            info.variant, ?_, hl, ?_, hload2, rfl, ?_⟩
          · simp [source_name, ht, hinfo]
          · simp [source_loads, ht, hinfo, hload2]
          · simp [insert_layout, ht, hinfo, insert_osk, hl, pos_osk_widget_set_layout, hload2]

theorem sources_loop_body_none (c : Collaborators) (st : SourcesLoop R)
    (src : String × String) (eff : List Effect)
    (h : insert_layout c st.self src.1 src.2 = (st.self, none, eff)) :
    sources_loop_body c st src = { st with effects := st.effects ++ eff } := by
  simp [sources_loop_body, h]

theorem sources_loop_body_some (c : Collaborators) (st : SourcesLoop R)
    (src : String × String) (self1 : PosInputSurface R) (w : PosOskWidget)
    (eff : List Effect) (h : insert_layout c st.self src.1 src.2 = (self1, some w, eff)) :
    sources_loop_body c st src =
      if st.first_set then
        { self := self1, new := g_hash_table_add st.new w.name, first_set := true,
          effects := st.effects ++ eff }
      else
        { self := hdy_deck_set_visible_child self1 (DeckChild.osk w),
          new := g_hash_table_add st.new w.name, first_set := true,
          effects := st.effects ++ eff ++ [Effect.deck_set_visible_child (DeckChild.osk w)] } := by
  simp [sources_loop_body, h, pos_osk_widget_get_name]

/-- What one iteration of the loop does to the table: nothing, or one entry is put in
front, stored under its own name, absent before, for a source whose layout loads. -/
theorem sources_loop_body_osks (c : Collaborators) (st : SourcesLoop R)
    (src : String × String) :
    (sources_loop_body c st src).self.osks = st.self.osks
    ∨ ∃ w : PosOskWidget, (sources_loop_body c st src).self.osks = (w.name, w) :: st.self.osks
        ∧ w.name ∉ g_hash_table_get_keys_as_array st.self.osks
        ∧ source_name c src = some w.name ∧ source_loads c src = true := by
  rcases insert_layout_cases c st.self src with
    ⟨eff, -, -, h, -⟩ | ⟨n, w, -, -, h⟩ | ⟨n, d, l, v, -, -, -, -, -, h⟩
      | ⟨n, d, l, v, hn, hl, hld, -, -, h⟩
  · left; rw [sources_loop_body_none c st src _ h]
  · left; rw [sources_loop_body_some c st src _ _ _ h]
    cases st.first_set <;> simp [hdy_deck_set_visible_child]
  · left; rw [sources_loop_body_none c st src _ h]
  · right
    refine ⟨⟨n, d, l, v⟩, ?_, (lookup_eq_none_iff _ _).mp hl, hn, hld⟩
    rw [sources_loop_body_some c st src _ _ _ h]
    cases st.first_set <;> simp [hdy_deck_set_visible_child]

/-- The loop changes only the table and the visible child of the surface. -/
theorem sources_loop_body_frame (c : Collaborators) (st : SourcesLoop R)
    (src : String × String) :
    (sources_loop_body c st src).self.osk_terminal = st.self.osk_terminal
    ∧ (sources_loop_body c st src).self.surface_visible = st.self.surface_visible
    ∧ (sources_loop_body c st src).self.animation = st.self.animation
    ∧ (sources_loop_body c st src).self.select_layout_state = st.self.select_layout_state
    ∧ (sources_loop_body c st src).self.tick_callbacks = st.self.tick_callbacks := by
  rcases insert_layout_cases c st.self src with
    ⟨eff, -, -, h, -⟩ | ⟨n, w, -, -, h⟩ | ⟨n, d, l, v, -, -, -, -, -, h⟩
      | ⟨n, d, l, v, -, -, -, -, -, h⟩
  · rw [sources_loop_body_none c st src _ h]; simp
  · rw [sources_loop_body_some c st src _ _ _ h]
    cases st.first_set <;> simp [hdy_deck_set_visible_child]
  · rw [sources_loop_body_none c st src _ h]; simp
  · rw [sources_loop_body_some c st src _ _ _ h]
    cases st.first_set <;> simp [hdy_deck_set_visible_child]

end Layouts

/-! ## Layouts: the loop over the sources -/

section Loop

variable {R : Type}

theorem mem_g_hash_table_add (set : List String) (key m : String) :
    m ∈ g_hash_table_add set key ↔ m ∈ set ∨ m = key := by
  unfold g_hash_table_add
  by_cases h : key ∈ set
  · rw [if_pos h]
    constructor
    · intro hm; exact Or.inl hm
    · rintro (hm | rfl)
      · exact hm
      · exact h
  · rw [if_neg h, List.mem_cons]
    tauto

theorem sources_loop_body_new (c : Collaborators) (st : SourcesLoop R)
    (src : String × String) (hnamed : ∀ e ∈ st.self.osks, e.2.name = e.1) (m : String) :
    m ∈ (sources_loop_body c st src).new ↔
      m ∈ st.new ∨ (source_name c src = some m
        ∧ (m ∈ g_hash_table_get_keys_as_array st.self.osks ∨ source_loads c src = true)) := by
  rcases insert_layout_cases c st.self src with
    ⟨eff, hn, hld, h, -⟩ | ⟨n, w, hn, hl, h⟩ | ⟨n, d, l, v, hn, hl, hld, -, -, h⟩
      | ⟨n, d, l, v, hn, hl, hld, -, -, h⟩
  · rw [sources_loop_body_none c st src _ h]
    simp [hn]
  · rw [sources_loop_body_some c st src _ _ _ h]
    have hw : w.name = n := hnamed _ (lookup_some_mem _ _ _ hl)
    have hk := lookup_some_mem_keys _ _ _ hl
    have hnew : (if st.first_set = true then
        ({ self := st.self, new := g_hash_table_add st.new w.name, first_set := true,
           effects := st.effects ++ [] } : SourcesLoop R)
      else
        { self := hdy_deck_set_visible_child st.self (DeckChild.osk w),
          new := g_hash_table_add st.new w.name, first_set := true,
          effects := st.effects ++ [] ++ [Effect.deck_set_visible_child (DeckChild.osk w)] }).new
        = g_hash_table_add st.new w.name := by
      cases st.first_set <;> rfl
    rw [hnew, mem_g_hash_table_add, hn, hw]
    constructor
    · rintro (hm | rfl)
      · exact Or.inl hm
      · exact Or.inr ⟨rfl, Or.inl hk⟩
    · rintro (hm | ⟨hmn, -⟩)
      · exact Or.inl hm
      · exact Or.inr (Option.some.inj hmn).symm
  · rw [sources_loop_body_none c st src _ h]
    have hk := (lookup_eq_none_iff _ _).mp hl
    simp only [hn, hld]
    constructor
    · intro hm; exact Or.inl hm
    · rintro (hm | ⟨hmn, hmk | hf⟩)
      · exact hm
      · exact absurd ((Option.some.inj hmn) ▸ hmk) hk
      · exact absurd hf (by simp)
  · rw [sources_loop_body_some c st src _ _ _ h]
    have hnew : (if st.first_set = true then
        ({ self := { st.self with osks := (n, ⟨n, d, l, v⟩) :: st.self.osks },
           new := g_hash_table_add st.new (PosOskWidget.mk n d l v).name, first_set := true,
           effects := st.effects ++ [Effect.osk_load d l v, Effect.osks_insert n] } :
            SourcesLoop R)
      else
        { self := hdy_deck_set_visible_child
            { st.self with osks := (n, ⟨n, d, l, v⟩) :: st.self.osks }
            (DeckChild.osk ⟨n, d, l, v⟩),
          new := g_hash_table_add st.new (PosOskWidget.mk n d l v).name, first_set := true,
          effects := st.effects ++ [Effect.osk_load d l v, Effect.osks_insert n]
            ++ [Effect.deck_set_visible_child (DeckChild.osk ⟨n, d, l, v⟩)] }).new
        = g_hash_table_add st.new n := by
      cases st.first_set <;> rfl
    rw [hnew, mem_g_hash_table_add, hn, hld]
    constructor
    · rintro (hm | rfl)
      · exact Or.inl hm
      · exact Or.inr ⟨rfl, Or.inr rfl⟩
    · rintro (hm | ⟨hmn, -⟩)
      · exact Or.inl hm
      · exact Or.inr (Option.some.inj hmn).symm

theorem sources_loop_body_keys (c : Collaborators) (st : SourcesLoop R)
    (src : String × String) (m : String) :
    m ∈ g_hash_table_get_keys_as_array (sources_loop_body c st src).self.osks ↔
      m ∈ g_hash_table_get_keys_as_array st.self.osks
        ∨ (source_name c src = some m ∧ source_loads c src = true) := by
  rcases sources_loop_body_osks c st src with h | ⟨w, h, hk, hn, hld⟩
  · rw [h]
    constructor
    · intro hm; exact Or.inl hm
    · rintro (hm | ⟨hn, hld⟩)
      · exact hm
      · rcases insert_layout_cases c st.self src with
          ⟨eff, hn2, hld2, -, -⟩ | ⟨n, w, hn2, hl, -⟩ | ⟨n, d, l, v, hn2, hl, hld2, -, -, -⟩
            | ⟨n, d, l, v, hn2, hl, hld2, -, -, h2⟩
        · rw [hld2] at hld; exact absurd hld (by simp)
        · rw [hn] at hn2
          rw [Option.some.inj hn2]
          exact lookup_some_mem_keys _ _ _ hl
        · rw [hld2] at hld; exact absurd hld (by simp)
        · exfalso
          have h3 := sources_loop_body_some c st src _ _ _ h2
          have h4 : (sources_loop_body c st src).self.osks
              = (n, ⟨n, d, l, v⟩) :: st.self.osks := by
            rw [h3]; cases st.first_set <;> rfl
          rw [h] at h4
          exact absurd h4 (by simp)
  · rw [h, hn, hld]
    unfold g_hash_table_get_keys_as_array
    simp only [List.map_cons, List.mem_cons, Option.some.injEq, and_true]
    constructor
    · rintro (hm | hm)
      · exact Or.inr hm.symm
      · exact Or.inl hm
    · rintro (hm | hm)
      · exact Or.inr hm
      · exact Or.inl hm.symm

theorem sources_loop_body_lookup (c : Collaborators) (st : SourcesLoop R)
    (src : String × String) (m : String)
    (hm : m ∈ g_hash_table_get_keys_as_array st.self.osks) :
    g_hash_table_lookup (sources_loop_body c st src).self.osks m
      = g_hash_table_lookup st.self.osks m := by
  rcases sources_loop_body_osks c st src with h | ⟨w, h, hk, -, -⟩
  · rw [h]
  · rw [h, lookup_cons, if_neg]
    intro hw
    exact hk (hw ▸ hm)

theorem sources_loop_body_named (c : Collaborators) (st : SourcesLoop R)
    (src : String × String) (hnamed : ∀ e ∈ st.self.osks, e.2.name = e.1) :
    ∀ e ∈ (sources_loop_body c st src).self.osks, e.2.name = e.1 := by
  rcases sources_loop_body_osks c st src with h | ⟨w, h, -, -, -⟩
  · rw [h]; exact hnamed
  · rw [h]
    intro e he
    rcases List.mem_cons.mp he with rfl | he
    · rfl
    · exact hnamed e he

theorem sources_loop_body_nodup (c : Collaborators) (st : SourcesLoop R)
    (src : String × String)
    (hnodup : (g_hash_table_get_keys_as_array st.self.osks).Nodup) :
    (g_hash_table_get_keys_as_array (sources_loop_body c st src).self.osks).Nodup := by
  rcases sources_loop_body_osks c st src with h | ⟨w, h, hk, -, -⟩
  · rw [h]; exact hnodup
  · rw [h]
    unfold g_hash_table_get_keys_as_array at *
    exact List.nodup_cons.mpr ⟨hk, hnodup⟩

end Loop

section LoopAll

variable {R : Type}

theorem sources_loop_keys (c : Collaborators) (sources : List (String × String)) :
    ∀ (st : SourcesLoop R) (m : String),
      m ∈ g_hash_table_get_keys_as_array (sources.foldl (sources_loop_body c) st).self.osks ↔
        m ∈ g_hash_table_get_keys_as_array st.self.osks
          ∨ ∃ src ∈ sources, source_name c src = some m ∧ source_loads c src = true := by
  induction sources with
  | nil => intro st m; simp
  | cons src rest ih =>
    intro st m
    rw [List.foldl_cons, ih, sources_loop_body_keys]
    simp only [List.mem_cons, exists_eq_or_imp]
    tauto

theorem sources_loop_named (c : Collaborators) (sources : List (String × String)) :
    ∀ (st : SourcesLoop R), (∀ e ∈ st.self.osks, e.2.name = e.1) →
      ∀ e ∈ (sources.foldl (sources_loop_body c) st).self.osks, e.2.name = e.1 := by
  induction sources with
  | nil => intro st h; exact h
  | cons src rest ih =>
    intro st h
    rw [List.foldl_cons]
    exact ih _ (sources_loop_body_named c st src h)

theorem sources_loop_nodup (c : Collaborators) (sources : List (String × String)) :
    ∀ (st : SourcesLoop R), (g_hash_table_get_keys_as_array st.self.osks).Nodup →
      (g_hash_table_get_keys_as_array
        (sources.foldl (sources_loop_body c) st).self.osks).Nodup := by
  induction sources with
  | nil => intro st h; exact h
  | cons src rest ih =>
    intro st h
    rw [List.foldl_cons]
    exact ih _ (sources_loop_body_nodup c st src h)

theorem sources_loop_frame (c : Collaborators) (sources : List (String × String)) :
    ∀ (st : SourcesLoop R),
      (sources.foldl (sources_loop_body c) st).self.osk_terminal = st.self.osk_terminal
      ∧ (sources.foldl (sources_loop_body c) st).self.surface_visible
          = st.self.surface_visible
      ∧ (sources.foldl (sources_loop_body c) st).self.animation = st.self.animation
      ∧ (sources.foldl (sources_loop_body c) st).self.select_layout_state
          = st.self.select_layout_state
      ∧ (sources.foldl (sources_loop_body c) st).self.tick_callbacks
          = st.self.tick_callbacks := by
  induction sources with
  | nil => intro st; simp
  | cons src rest ih =>
    intro st
    rw [List.foldl_cons]
    obtain ⟨h1, h2, h3, h4, h5⟩ := ih (sources_loop_body c st src)
    obtain ⟨g1, g2, g3, g4, g5⟩ := sources_loop_body_frame c st src
    exact ⟨h1.trans g1, h2.trans g2, h3.trans g3, h4.trans g4, h5.trans g5⟩

theorem sources_loop_lookup (c : Collaborators) (sources : List (String × String)) :
    ∀ (st : SourcesLoop R) (m : String),
      m ∈ g_hash_table_get_keys_as_array st.self.osks →
      g_hash_table_lookup (sources.foldl (sources_loop_body c) st).self.osks m
        = g_hash_table_lookup st.self.osks m := by
  induction sources with
  | nil => intro st m _; rfl
  | cons src rest ih =>
    intro st m hm
    rw [List.foldl_cons, ih _ m ((sources_loop_body_keys c st src m).mpr (Or.inl hm))]
    exact sources_loop_body_lookup c st src m hm

/-- The set NEW after the loop: a name is in it when it was in it before, or a source
stands for it and it is a key of the table, or a source stands for it whose layout
loads. -/
theorem sources_loop_new (c : Collaborators) (sources : List (String × String)) :
    ∀ (st : SourcesLoop R), (∀ e ∈ st.self.osks, e.2.name = e.1) → ∀ m : String,
      m ∈ (sources.foldl (sources_loop_body c) st).new ↔
        m ∈ st.new
          ∨ ((∃ src ∈ sources, source_name c src = some m)
              ∧ m ∈ g_hash_table_get_keys_as_array st.self.osks)
          ∨ ∃ src ∈ sources, source_name c src = some m ∧ source_loads c src = true := by
  induction sources with
  | nil => intro st _ m; simp
  | cons src rest ih =>
    intro st hnamed m
    rw [List.foldl_cons, ih _ (sources_loop_body_named c st src hnamed),
      sources_loop_body_new c st src hnamed, sources_loop_body_keys]
    simp only [List.mem_cons, exists_eq_or_imp]
    generalize (∃ a ∈ rest, source_name c a = some m) = A
    generalize (∃ a ∈ rest, source_name c a = some m ∧ source_loads c a = true) = B
    tauto

end LoopAll

section Selection

variable {R : Type}

/-- A skipped source changes nothing but the effects, and selects no child. -/
theorem sources_loop_body_skipped (c : Collaborators) (st : SourcesLoop R)
    (src : String × String) (h : (insert_layout c st.self src.1 src.2).2.1 = none) :
    (sources_loop_body c st src).self = st.self
    ∧ (sources_loop_body c st src).new = st.new
    ∧ (sources_loop_body c st src).first_set = st.first_set
    ∧ (sources_loop_body c st src).effects.filter Effect.selects_child
        = st.effects.filter Effect.selects_child := by
  rcases insert_layout_cases c st.self src with
    ⟨eff, -, -, h2, he⟩ | ⟨n, w, -, -, h2⟩ | ⟨n, d, l, v, -, -, -, -, -, h2⟩
      | ⟨n, d, l, v, -, -, -, -, -, h2⟩
  · rw [sources_loop_body_none c st src _ h2]
    rcases he with rfl | rfl <;> simp [Effect.selects_child]
  · rw [h2] at h; simp at h
  · rw [sources_loop_body_none c st src _ h2]
    simp [Effect.selects_child]
  · rw [h2] at h; simp at h

/-- A source that resolves sets `first_set`; it makes its widget the visible child, by
one call, exactly when `first_set` was not set before. -/
theorem sources_loop_body_resolved (c : Collaborators) (st : SourcesLoop R)
    (src : String × String) (w : PosOskWidget)
    (h : (insert_layout c st.self src.1 src.2).2.1 = some w) :
    (sources_loop_body c st src).first_set = true
    ∧ (sources_loop_body c st src).self.visible_child
        = (if st.first_set then st.self.visible_child else some (DeckChild.osk w))
    ∧ (sources_loop_body c st src).effects.filter Effect.selects_child
        = st.effects.filter Effect.selects_child
          ++ (if st.first_set then []
              else [Effect.deck_set_visible_child (DeckChild.osk w)]) := by
  rcases insert_layout_cases c st.self src with
    ⟨eff, -, -, h2, he⟩ | ⟨n, w2, -, -, h2⟩ | ⟨n, d, l, v, -, -, -, -, -, h2⟩
      | ⟨n, d, l, v, -, -, -, -, -, h2⟩
  · rw [h2] at h; simp at h
  · rw [sources_loop_body_some c st src _ _ _ h2]
    rw [h2] at h
    simp only [Option.some.injEq] at h
    subst h
    cases st.first_set <;> simp [Effect.selects_child, hdy_deck_set_visible_child]
  · rw [h2] at h; simp at h
  · rw [sources_loop_body_some c st src _ _ _ h2]
    rw [h2] at h
    simp only [Option.some.injEq] at h
    subst h
    cases st.first_set <;> simp [Effect.selects_child, hdy_deck_set_visible_child]

theorem sources_loop_first_set (c : Collaborators) (sources : List (String × String)) :
    ∀ (st : SourcesLoop R), st.first_set = true →
      (sources.foldl (sources_loop_body c) st).self.visible_child = st.self.visible_child
      ∧ (sources.foldl (sources_loop_body c) st).effects.filter Effect.selects_child
          = st.effects.filter Effect.selects_child := by
  induction sources with
  | nil => intro st _; simp
  | cons src rest ih =>
    intro st hfs
    rw [List.foldl_cons]
    cases hr : (insert_layout c st.self src.1 src.2).2.1 with
    | none =>
      obtain ⟨h1, -, h3, h4⟩ := sources_loop_body_skipped c st src hr
      obtain ⟨g1, g2⟩ := ih (sources_loop_body c st src) (h3.trans hfs)
      rw [g1, g2, h1, h4]
      exact ⟨rfl, rfl⟩
    | some w =>
      obtain ⟨h1, h2, h3⟩ := sources_loop_body_resolved c st src w hr
      obtain ⟨g1, g2⟩ := ih (sources_loop_body c st src) h1
      rw [g1, g2, h2, h3, hfs]
      simp

/-- The selection made by the loop: started with `first_set` unset, it makes the widget
of the first source that resolves the visible child, by exactly one call, and makes no
call when no source resolves. -/
theorem sources_loop_selection (c : Collaborators) (sources : List (String × String)) :
    ∀ (st : SourcesLoop R), st.first_set = false →
      (sources.foldl (sources_loop_body c) st).self.visible_child
        = (match first_resolved c st.self sources with
            | some w => some (DeckChild.osk w)
            | none => st.self.visible_child)
      ∧ (sources.foldl (sources_loop_body c) st).effects.filter Effect.selects_child
        = st.effects.filter Effect.selects_child
          ++ (match first_resolved c st.self sources with
              | some w => [Effect.deck_set_visible_child (DeckChild.osk w)]
              | none => []) := by
  induction sources with
  | nil => intro st _; simp [first_resolved]
  | cons src rest ih =>
    intro st hfs
    rw [List.foldl_cons]
    cases hr : (insert_layout c st.self src.1 src.2).2.1 with
    | none =>
      obtain ⟨h1, -, h3, h4⟩ := sources_loop_body_skipped c st src hr
      obtain ⟨g1, g2⟩ := ih (sources_loop_body c st src) (h3.trans hfs)
      have hf : first_resolved c st.self (src :: rest) = first_resolved c st.self rest := by
        simp [first_resolved, List.findSome?_cons, hr]
      rw [g1, g2, h1, h4, hf]
      exact ⟨rfl, rfl⟩
    | some w =>
      obtain ⟨h1, h2, h3⟩ := sources_loop_body_resolved c st src w hr
      obtain ⟨g1, g2⟩ := sources_loop_first_set c rest (sources_loop_body c st src) h1
      have hf : first_resolved c st.self (src :: rest) = some w := by
        simp [first_resolved, List.findSome?_cons, hr]
      rw [g1, g2, h2, h3, hf, hfs]
      simp

end Selection

section LoopEffects

variable {R : Type}

/-- The calls one iteration adds: never a removal; an insertion or a load only for a
name that is not a key of the table, the name of the source; the load succeeds exactly
when the source is one whose layout loads. -/
theorem sources_loop_body_effects (c : Collaborators) (st : SourcesLoop R)
    (src : String × String) :
    ∃ E, (sources_loop_body c st src).effects = st.effects ++ E ∧ ∀ e ∈ E,
      (∀ n, e ≠ Effect.osks_remove n)
      ∧ (∀ n, e = Effect.osks_insert n →
          n ∉ g_hash_table_get_keys_as_array st.self.osks
          ∧ source_name c src = some n ∧ source_loads c src = true)
      ∧ (∀ d l v, e = Effect.osk_load d l v →
          layout_name l v ∉ g_hash_table_get_keys_as_array st.self.osks
          ∧ source_name c src = some (layout_name l v)
          ∧ source_loads c src = c.layout_loads d l v) := by
  rcases insert_layout_cases c st.self src with
    ⟨eff, -, -, h, he⟩ | ⟨n, w, -, -, h⟩ | ⟨n, d, l, v, hn, hl, hld, hld2, hnm, h⟩
      | ⟨n, d, l, v, hn, hl, hld, hld2, hnm, h⟩
  · refine ⟨eff, by rw [sources_loop_body_none c st src _ h], ?_⟩
    intro e hmem
    rcases he with rfl | rfl
    · simp at hmem
    · simp only [List.mem_singleton] at hmem
      subst hmem
      simp
  · rw [sources_loop_body_some c st src _ _ _ h]
    cases st.first_set
    · refine ⟨[Effect.deck_set_visible_child (DeckChild.osk w)], by simp, ?_⟩
      intro e hmem
      simp only [List.mem_singleton] at hmem
      subst hmem
      simp
    · exact ⟨[], by simp, by simp⟩
  · have hk := (lookup_eq_none_iff _ _).mp hl
    refine ⟨[Effect.osk_load d l v, Effect.warning n],
      by rw [sources_loop_body_none c st src _ h], ?_⟩
    intro e hmem
    simp only [List.mem_cons, List.mem_singleton, List.not_mem_nil, or_false] at hmem
    rcases hmem with rfl | rfl
    · refine ⟨by simp, by simp, ?_⟩
      intro d2 l2 v2 heq
      simp only [Effect.osk_load.injEq] at heq
      obtain ⟨rfl, rfl, rfl⟩ := heq
      rw [hnm, hld, hld2]
      exact ⟨hk, hn, rfl⟩
    · simp
  · have hk := (lookup_eq_none_iff _ _).mp hl
    have key : ∀ e ∈ [Effect.osk_load d l v, Effect.osks_insert n],
        (∀ n2, e ≠ Effect.osks_remove n2)
        ∧ (∀ n2, e = Effect.osks_insert n2 →
            n2 ∉ g_hash_table_get_keys_as_array st.self.osks
            ∧ source_name c src = some n2 ∧ source_loads c src = true)
        ∧ (∀ d2 l2 v2, e = Effect.osk_load d2 l2 v2 →
            layout_name l2 v2 ∉ g_hash_table_get_keys_as_array st.self.osks
            ∧ source_name c src = some (layout_name l2 v2)
            ∧ source_loads c src = c.layout_loads d2 l2 v2) := by
      intro e hmem
      simp only [List.mem_cons, List.mem_singleton, List.not_mem_nil, or_false] at hmem
      rcases hmem with rfl | rfl
      · refine ⟨by simp, by simp, ?_⟩
        intro d2 l2 v2 heq
        simp only [Effect.osk_load.injEq] at heq
        obtain ⟨rfl, rfl, rfl⟩ := heq
        rw [hnm, hld, hld2]
        exact ⟨hk, hn, rfl⟩
      · refine ⟨by simp, ?_, by simp⟩
        intro n2 heq
        simp only [Effect.osks_insert.injEq] at heq
        subst heq
        exact ⟨hk, hn, hld⟩
    rw [sources_loop_body_some c st src _ _ _ h]
    cases st.first_set
    · refine ⟨[Effect.osk_load d l v, Effect.osks_insert n,
        Effect.deck_set_visible_child (DeckChild.osk ⟨n, d, l, v⟩)], by simp, ?_⟩
      intro e hmem
      simp only [List.mem_cons, List.mem_singleton, List.not_mem_nil, or_false] at hmem
      rcases hmem with rfl | rfl | rfl
      · exact key _ (by simp)
      · exact key _ (by simp)
      · simp
    · exact ⟨[Effect.osk_load d l v, Effect.osks_insert n], by simp, key⟩

theorem sources_loop_effects (c : Collaborators) (sources : List (String × String)) :
    ∀ (st : SourcesLoop R),
      ∃ E, (sources.foldl (sources_loop_body c) st).effects = st.effects ++ E ∧ ∀ e ∈ E,
        (∀ n, e ≠ Effect.osks_remove n)
        ∧ (∀ n, e = Effect.osks_insert n →
            n ∉ g_hash_table_get_keys_as_array st.self.osks
            ∧ ∃ src ∈ sources, source_name c src = some n ∧ source_loads c src = true)
        ∧ (∀ d l v, e = Effect.osk_load d l v →
            layout_name l v ∉ g_hash_table_get_keys_as_array st.self.osks
            ∧ ∃ src ∈ sources, source_name c src = some (layout_name l v)
                ∧ source_loads c src = c.layout_loads d l v) := by
  induction sources with
  | nil => intro st; exact ⟨[], by simp, by simp⟩
  | cons src rest ih =>
    intro st
    rw [List.foldl_cons]
    obtain ⟨E1, hE1, h1⟩ := sources_loop_body_effects c st src
    obtain ⟨E2, hE2, h2⟩ := ih (sources_loop_body c st src)
    refine ⟨E1 ++ E2, by rw [hE2, hE1, List.append_assoc], ?_⟩
    intro e hmem
    rcases List.mem_append.mp hmem with hmem | hmem
    · obtain ⟨a1, a2, a3⟩ := h1 e hmem
      refine ⟨a1, ?_, ?_⟩
      · intro n he
        obtain ⟨b1, b2, b3⟩ := a2 n he
        exact ⟨b1, src, List.mem_cons_self _ _, b2, b3⟩
      · intro d l v he
        obtain ⟨b1, b2, b3⟩ := a3 d l v he
        exact ⟨b1, src, List.mem_cons_self _ _, b2, b3⟩
    · obtain ⟨a1, a2, a3⟩ := h2 e hmem
      refine ⟨a1, ?_, ?_⟩
      · intro n he
        obtain ⟨b1, s, hs, b2, b3⟩ := a2 n he
        exact ⟨fun hk => b1 ((sources_loop_body_keys c st src n).mpr (Or.inl hk)),
          s, List.mem_cons_of_mem _ hs, b2, b3⟩
      · intro d l v he
        obtain ⟨b1, s, hs, b2, b3⟩ := a3 d l v he
        exact ⟨fun hk => b1 ((sources_loop_body_keys c st src _).mpr (Or.inl hk)),
          s, List.mem_cons_of_mem _ hs, b2, b3⟩

/-- When every source whose layout loads stands for a key of the table, the loop leaves
the table as it is. -/
theorem sources_loop_osks_unchanged (c : Collaborators) (sources : List (String × String)) :
    ∀ (st : SourcesLoop R),
      (∀ src ∈ sources, ∀ n, source_name c src = some n → source_loads c src = true →
        n ∈ g_hash_table_get_keys_as_array st.self.osks) →
      (sources.foldl (sources_loop_body c) st).self.osks = st.self.osks := by
  induction sources with
  | nil => intro st _; rfl
  | cons src rest ih =>
    intro st H
    rw [List.foldl_cons]
    have hstep : (sources_loop_body c st src).self.osks = st.self.osks := by
      rcases sources_loop_body_osks c st src with h | ⟨w, -, hk, hn, hld⟩
      · exact h
      · exact absurd (H src (List.mem_cons_self _ _) _ hn hld) hk
    rw [ih (sources_loop_body c st src), hstep]
    intro s hs n hn hld
    rw [hstep]
    exact H s (List.mem_cons_of_mem _ hs) n hn hld

end LoopEffects

/-! ## Layouts: dropping removed layouts and the default -/

section Drop

variable {R : Type}

theorem osks_remove_osks (self : PosInputSurface R) (key : String) :
    (osks_remove self key).osks = g_hash_table_remove self.osks key := by
  unfold osks_remove
  cases h : g_hash_table_lookup self.osks key with
  | none => exact (remove_of_not_mem _ _ ((lookup_eq_none_iff _ _).mp h)).symm
  | some w => rfl

theorem osks_remove_frame (self : PosInputSurface R) (key : String) :
    (osks_remove self key).osk_terminal = self.osk_terminal
    ∧ (osks_remove self key).surface_visible = self.surface_visible
    ∧ (osks_remove self key).animation = self.animation
    ∧ (osks_remove self key).select_layout_state = self.select_layout_state
    ∧ (osks_remove self key).tick_callbacks = self.tick_callbacks := by
  unfold osks_remove
  cases h : g_hash_table_lookup self.osks key <;> simp

/-- Removing a key leaves a visible child of another name visible. -/
theorem osks_remove_visible_child (self : PosInputSurface R) (key : String)
    (w : PosOskWidget) (hnamed : ∀ e ∈ self.osks, e.2.name = e.1)
    (hv : self.visible_child = some (DeckChild.osk w)) (hne : w.name ≠ key) :
    (osks_remove self key).visible_child = some (DeckChild.osk w) := by
  unfold osks_remove
  cases h : g_hash_table_lookup self.osks key with
  | none => exact hv
  | some w2 =>
    have h2 : w2.name = key := hnamed _ (lookup_some_mem _ _ _ h)
    have h3 : w ≠ w2 := fun heq => hne (heq ▸ h2)
    simp [hv, h3]

theorem named_remove (t : List (String × PosOskWidget)) (key : String)
    (hnamed : ∀ e ∈ t, e.2.name = e.1) : ∀ e ∈ g_hash_table_remove t key, e.2.name = e.1 := by
  intro e he
  unfold g_hash_table_remove at he
  exact hnamed e (List.mem_filter.mp he).1

theorem drop_removed_body_osks (new : List String) (acc : PosInputSurface R × List Effect)
    (key : String) :
    (drop_removed_body new acc key).1.osks
      = if key ∈ new then acc.1.osks else g_hash_table_remove acc.1.osks key := by
  unfold drop_removed_body g_hash_table_contains
  by_cases h : key ∈ new
  · simp [h]
  · simp [h, osks_remove_osks]

theorem drop_removed_keys (new old : List String) :
    ∀ (acc : PosInputSurface R × List Effect) (m : String),
      m ∈ g_hash_table_get_keys_as_array (old.foldl (drop_removed_body new) acc).1.osks ↔
        m ∈ g_hash_table_get_keys_as_array acc.1.osks ∧ (m ∈ old → m ∈ new) := by
  induction old with
  | nil => intro acc m; simp
  | cons k rest ih =>
    intro acc m
    rw [List.foldl_cons, ih, drop_removed_body_osks]
    by_cases hk : k ∈ new
    · rw [if_pos hk]
      simp only [List.mem_cons]
      constructor
      · rintro ⟨h1, h2⟩
        refine ⟨h1, ?_⟩
        rintro (rfl | h3)
        · exact hk
        · exact h2 h3
      · rintro ⟨h1, h2⟩
        exact ⟨h1, fun h3 => h2 (Or.inr h3)⟩
    · rw [if_neg hk, mem_keys_remove]
      simp only [List.mem_cons]
      constructor
      · rintro ⟨⟨h1, h2⟩, h3⟩
        refine ⟨h1, ?_⟩
        rintro (rfl | h4)
        · exact absurd rfl h2
        · exact h3 h4
      · rintro ⟨h1, h2⟩
        refine ⟨⟨h1, ?_⟩, fun h3 => h2 (Or.inr h3)⟩
        intro hmk
        exact hk (hmk ▸ h2 (Or.inl hmk))

theorem drop_removed_lookup (new old : List String) :
    ∀ (acc : PosInputSurface R × List Effect) (m : String), (m ∈ old → m ∈ new) →
      g_hash_table_lookup (old.foldl (drop_removed_body new) acc).1.osks m
        = g_hash_table_lookup acc.1.osks m := by
  induction old with
  | nil => intro acc m _; rfl
  | cons k rest ih =>
    intro acc m hm
    rw [List.foldl_cons, ih _ m (fun h => hm (List.mem_cons_of_mem _ h)),
      drop_removed_body_osks]
    by_cases hk : k ∈ new
    · rw [if_pos hk]
    · rw [if_neg hk]
      apply lookup_remove_ne
      intro hmk
      exact hk (hmk ▸ hm (by simp [hmk]))

theorem drop_removed_named (new old : List String) :
    ∀ (acc : PosInputSurface R × List Effect), (∀ e ∈ acc.1.osks, e.2.name = e.1) →
      ∀ e ∈ (old.foldl (drop_removed_body new) acc).1.osks, e.2.name = e.1 := by
  induction old with
  | nil => intro acc h; exact h
  | cons k rest ih =>
    intro acc h
    rw [List.foldl_cons]
    apply ih
    rw [drop_removed_body_osks]
    by_cases hk : k ∈ new
    · rw [if_pos hk]; exact h
    · rw [if_neg hk]; exact named_remove _ _ h

theorem drop_removed_nodup (new old : List String) :
    ∀ (acc : PosInputSurface R × List Effect),
      (g_hash_table_get_keys_as_array acc.1.osks).Nodup →
      (g_hash_table_get_keys_as_array (old.foldl (drop_removed_body new) acc).1.osks).Nodup := by
  induction old with
  | nil => intro acc h; exact h
  | cons k rest ih =>
    intro acc h
    rw [List.foldl_cons]
    apply ih
    rw [drop_removed_body_osks]
    by_cases hk : k ∈ new
    · rw [if_pos hk]; exact h
    · rw [if_neg hk]; exact keys_remove_nodup _ _ h

theorem drop_removed_frame (new old : List String) :
    ∀ (acc : PosInputSurface R × List Effect),
      (old.foldl (drop_removed_body new) acc).1.osk_terminal = acc.1.osk_terminal
      ∧ (old.foldl (drop_removed_body new) acc).1.surface_visible = acc.1.surface_visible
      ∧ (old.foldl (drop_removed_body new) acc).1.animation = acc.1.animation
      ∧ (old.foldl (drop_removed_body new) acc).1.select_layout_state
          = acc.1.select_layout_state
      ∧ (old.foldl (drop_removed_body new) acc).1.tick_callbacks = acc.1.tick_callbacks := by
  induction old with
  | nil => intro acc; simp
  | cons k rest ih =>
    intro acc
    rw [List.foldl_cons]
    obtain ⟨h1, h2, h3, h4, h5⟩ := ih (drop_removed_body new acc k)
    have hb : (drop_removed_body new acc k).1.osk_terminal = acc.1.osk_terminal
        ∧ (drop_removed_body new acc k).1.surface_visible = acc.1.surface_visible
        ∧ (drop_removed_body new acc k).1.animation = acc.1.animation
        ∧ (drop_removed_body new acc k).1.select_layout_state = acc.1.select_layout_state
        ∧ (drop_removed_body new acc k).1.tick_callbacks = acc.1.tick_callbacks := by
      unfold drop_removed_body
      by_cases hk : g_hash_table_contains new k = true
      · simp [hk]
      · simp [hk, osks_remove_frame]
    obtain ⟨g1, g2, g3, g4, g5⟩ := hb
    exact ⟨h1.trans g1, h2.trans g2, h3.trans g3, h4.trans g4, h5.trans g5⟩

/-- The visible child survives the drop loop when its name is in NEW. -/
theorem drop_removed_visible_child (new old : List String) (w : PosOskWidget)
    (hw : w.name ∈ new) :
    ∀ (acc : PosInputSurface R × List Effect), (∀ e ∈ acc.1.osks, e.2.name = e.1) →
      acc.1.visible_child = some (DeckChild.osk w) →
      (old.foldl (drop_removed_body new) acc).1.visible_child = some (DeckChild.osk w) := by
  induction old with
  | nil => intro acc _ h; exact h
  | cons k rest ih =>
    intro acc hnamed hv
    rw [List.foldl_cons]
    by_cases hk : k ∈ new
    · have hb : drop_removed_body new acc k = acc := by
        simp [drop_removed_body, g_hash_table_contains, hk]
      rw [hb]
      exact ih acc hnamed hv
    · apply ih
      · rw [drop_removed_body_osks, if_neg hk]
        exact named_remove _ _ hnamed
      · have hb : (drop_removed_body new acc k).1 = osks_remove acc.1 k := by
          simp [drop_removed_body, g_hash_table_contains, hk]
        rw [hb]
        exact osks_remove_visible_child _ _ _ hnamed hv (fun h => hk (h ▸ hw))

/-- The calls of the drop loop: one removal for each old key that is not in NEW. -/
theorem drop_removed_effects (new old : List String) :
    ∀ (acc : PosInputSurface R × List Effect),
      (old.foldl (drop_removed_body new) acc).2
        = acc.2 ++ (old.filter (fun k => decide (k ∉ new))).map Effect.osks_remove := by
  induction old with
  | nil => intro acc; simp
  | cons k rest ih =>
    intro acc
    rw [List.foldl_cons, ih]
    by_cases hk : k ∈ new
    · simp [drop_removed_body, g_hash_table_contains, hk]
    · simp [drop_removed_body, g_hash_table_contains, hk]

/-- When every old key is in NEW the drop loop does nothing. -/
theorem drop_removed_nothing (new old : List String) (h : ∀ k ∈ old, k ∈ new)
    (self : PosInputSurface R) : drop_removed new old self = (self, []) := by
  unfold drop_removed
  induction old with
  | nil => rfl
  | cons k rest ih =>
    rw [List.foldl_cons]
    have hb : drop_removed_body new (self, []) k = (self, []) := by
      simp [drop_removed_body, g_hash_table_contains, h k (List.mem_cons_self _ _)]
    rw [hb]
    exact ih (fun k2 hk2 => h k2 (List.mem_cons_of_mem _ hk2))

theorem add_default_nonempty (c : Collaborators) (self : PosInputSurface R)
    (h : self.osks ≠ []) : add_default c self = (self, []) := by
  unfold add_default g_hash_table_size
  have : self.osks.length ≠ 0 := fun h0 => h (List.length_eq_zero.mp h0)
  simp [this]

theorem add_default_empty (c : Collaborators) (self : PosInputSurface R)
    (h : self.osks = []) (hus : c.layout_loads "English (USA)" "us" none = true) :
    add_default c self
      = ({ self with osks := [("us", ⟨"us", "English (USA)", "us", none⟩)] },
         [Effect.osk_load "English (USA)" "us" none, Effect.osks_insert "us"]) := by
  unfold add_default g_hash_table_size
  have hname : layout_name "us" none = "us" := by decide
  simp [h, insert_osk, g_hash_table_lookup, pos_osk_widget_set_layout, hus,
    g_hash_table_insert, g_hash_table_remove, hname]

end Drop

/-! ## Layouts: the first source that resolves -/

section FirstResolved

variable {R : Type}

theorem sources_loop_body_resolved_entry (c : Collaborators) (st : SourcesLoop R)
    (src : String × String) (w : PosOskWidget)
    (hnamed : ∀ e ∈ st.self.osks, e.2.name = e.1)
    (h : (insert_layout c st.self src.1 src.2).2.1 = some w) :
    w.name ∈ (sources_loop_body c st src).new
    ∧ g_hash_table_lookup (sources_loop_body c st src).self.osks w.name = some w
    ∧ source_name c src = some w.name := by
  rcases insert_layout_cases c st.self src with
    ⟨eff, -, -, h2, he⟩ | ⟨n, w2, hn, hl, h2⟩ | ⟨n, d, l, v, -, -, -, -, -, h2⟩
      | ⟨n, d, l, v, hn, hl, -, -, -, h2⟩
  · rw [h2] at h; simp at h
  · rw [h2] at h
    simp only [Option.some.injEq] at h
    subst h
    have hw : w2.name = n := hnamed _ (lookup_some_mem _ _ _ hl)
    rw [sources_loop_body_some c st src _ _ _ h2]
    cases st.first_set <;>
      simp [mem_g_hash_table_add, hdy_deck_set_visible_child, hw, hl, hn]
  · rw [h2] at h; simp at h
  · rw [h2] at h
    simp only [Option.some.injEq] at h
    subst h
    rw [sources_loop_body_some c st src _ _ _ h2]
    cases st.first_set <;>
      simp [mem_g_hash_table_add, hdy_deck_set_visible_child, lookup_cons, hn]

/-- When no source resolves the loop changes neither the surface nor NEW nor
`first_set`, and selects no child. -/
theorem sources_loop_of_first_resolved_none (c : Collaborators)
    (sources : List (String × String)) :
    ∀ (st : SourcesLoop R), first_resolved c st.self sources = none →
      (sources.foldl (sources_loop_body c) st).self = st.self
      ∧ (sources.foldl (sources_loop_body c) st).new = st.new
      ∧ (sources.foldl (sources_loop_body c) st).first_set = st.first_set := by
  induction sources with
  | nil => intro st _; simp
  | cons src rest ih =>
    intro st h
    rw [List.foldl_cons]
    cases hr : (insert_layout c st.self src.1 src.2).2.1 with
    | none =>
      obtain ⟨h1, h2, h3, -⟩ := sources_loop_body_skipped c st src hr
      have hrest : first_resolved c (sources_loop_body c st src).self rest = none := by
        rw [h1]
        simpa [first_resolved, List.findSome?_cons, hr] using h
      obtain ⟨g1, g2, g3⟩ := ih _ hrest
      exact ⟨g1.trans h1, g2.trans h2, g3.trans h3⟩
    | some w =>
      simp [first_resolved, List.findSome?_cons, hr] at h

/-- The widget of the first source that resolves is named in NEW after the loop and
stored in the table under its name. -/
theorem sources_loop_of_first_resolved_some (c : Collaborators)
    (sources : List (String × String)) (w : PosOskWidget) :
    ∀ (st : SourcesLoop R), (∀ e ∈ st.self.osks, e.2.name = e.1) →
      first_resolved c st.self sources = some w →
      w.name ∈ (sources.foldl (sources_loop_body c) st).new
      ∧ g_hash_table_lookup (sources.foldl (sources_loop_body c) st).self.osks w.name
          = some w := by
  induction sources with
  | nil => intro st _ h; simp [first_resolved] at h
  | cons src rest ih =>
    intro st hnamed h
    rw [List.foldl_cons]
    cases hr : (insert_layout c st.self src.1 src.2).2.1 with
    | none =>
      obtain ⟨h1, -, -, -⟩ := sources_loop_body_skipped c st src hr
      apply ih _ (sources_loop_body_named c st src hnamed)
      rw [h1]
      simpa [first_resolved, List.findSome?_cons, hr] using h
    | some w2 =>
      have hw : w2 = w := by
        simpa [first_resolved, List.findSome?_cons, hr] using h
      subst hw
      obtain ⟨h1, h2, -⟩ := sources_loop_body_resolved_entry c st src w2 hnamed hr
      have hnamed1 := sources_loop_body_named c st src hnamed
      constructor
      · exact (sources_loop_new c rest _ hnamed1 _).mpr (Or.inl h1)
      · rw [sources_loop_lookup c rest _ _ (lookup_some_mem_keys _ _ _ h2)]
        exact h2

end FirstResolved

/-! ## Layouts: reconciliation -/

section Reconcile

variable {R : Type}

theorem on_input_setting_changed_eq (c : Collaborators) (self : PosInputSurface R)
    (sources : List (String × String)) :
    on_input_setting_changed c self sources
      = ((add_default c (drop_removed (sources_loop c self sources).new
            (g_hash_table_get_keys_as_array self.osks) (sources_loop c self sources).self).1).1,
         (sources_loop c self sources).effects
          ++ (drop_removed (sources_loop c self sources).new
            (g_hash_table_get_keys_as_array self.osks) (sources_loop c self sources).self).2
          ++ (add_default c (drop_removed (sources_loop c self sources).new
            (g_hash_table_get_keys_as_array self.osks)
            (sources_loop c self sources).self).1).2) := rfl

/-- The set NEW of a pass: the names some source stands for that are keys of the table
or have a source whose layout loads. -/
theorem sources_loop_new_iff (c : Collaborators) (self : PosInputSurface R)
    (sources : List (String × String)) (hnamed : ∀ e ∈ self.osks, e.2.name = e.1)
    (n : String) :
    n ∈ (sources_loop c self sources).new ↔
      (∃ src ∈ sources, source_name c src = some n)
      ∧ (n ∈ g_hash_table_get_keys_as_array self.osks
          ∨ ∃ src ∈ sources, source_name c src = some n ∧ source_loads c src = true) := by
  unfold sources_loop
  rw [sources_loop_new c sources _ hnamed]
  simp only [List.not_mem_nil, false_or]
  constructor
  · rintro (⟨h1, h2⟩ | ⟨src, hs, hn, hl⟩)
    · exact ⟨h1, Or.inl h2⟩
    · exact ⟨⟨src, hs, hn⟩, Or.inr ⟨src, hs, hn, hl⟩⟩
  · rintro ⟨h1, h2 | h2⟩
    · exact Or.inl ⟨h1, h2⟩
    · exact Or.inr h2

/-- After the loop and the drop loop the keys of the table are the names in NEW. -/
theorem drop_removed_keys_eq_new (c : Collaborators) (self : PosInputSurface R)
    (sources : List (String × String)) (hnamed : ∀ e ∈ self.osks, e.2.name = e.1)
    (n : String) :
    n ∈ g_hash_table_get_keys_as_array
        (drop_removed (sources_loop c self sources).new
          (g_hash_table_get_keys_as_array self.osks) (sources_loop c self sources).self).1.osks
      ↔ n ∈ (sources_loop c self sources).new := by
  have hnew := sources_loop_new_iff c self sources hnamed n
  unfold drop_removed
  rw [drop_removed_keys]
  have hkeys : n ∈ g_hash_table_get_keys_as_array (sources_loop c self sources).self.osks ↔
      n ∈ g_hash_table_get_keys_as_array self.osks
        ∨ ∃ src ∈ sources, source_name c src = some n ∧ source_loads c src = true := by
    unfold sources_loop
    exact sources_loop_keys c sources _ n
  rw [hkeys]
  constructor
  · rintro ⟨h1 | ⟨src, hs, hn, hl⟩, h2⟩
    · exact h2 h1
    · exact hnew.mpr ⟨⟨src, hs, hn⟩, Or.inr ⟨src, hs, hn, hl⟩⟩
  · intro h
    obtain ⟨-, h2⟩ := hnew.mp h
    exact ⟨h2, fun _ => h⟩

/-- C2: after `on_input_setting_changed` on a well-formed surface with a source list
of which at least one source resolves, the keys of `self->osks` are exactly the names in
NEW, the names of the sources that resolved in the pass (so the layouts on offer are
those and `terminal`); a key that was in the table and is not in NEW is gone, by a
removal; a key in both keeps its entry, with no insertion, removal or load for it;
the terminal widget is untouched. -/
theorem on_input_setting_changed_store (c : Collaborators) (self : PosInputSurface R)
    (sources : List (String × String)) (hwf : well_formed self = true)
    (hres : (first_resolved c self sources).isSome = true) :
    (∀ n, n ∈ g_hash_table_get_keys_as_array (on_input_setting_changed c self sources).1.osks
        ↔ n ∈ (sources_loop c self sources).new)
    ∧ (∀ n, n ∈ (sources_loop c self sources).new ↔
        (∃ src ∈ sources, source_name c src = some n)
        ∧ (n ∈ g_hash_table_get_keys_as_array self.osks
            ∨ ∃ src ∈ sources, source_name c src = some n ∧ source_loads c src = true))
    ∧ (∀ n, n ∈ menu_layouts (on_input_setting_changed c self sources).1
        ↔ n ∈ (sources_loop c self sources).new ∨ n = "terminal")
    ∧ (∀ n ∈ g_hash_table_get_keys_as_array self.osks, n ∉ (sources_loop c self sources).new →
        g_hash_table_lookup (on_input_setting_changed c self sources).1.osks n = none
        ∧ Effect.osks_remove n ∈ (on_input_setting_changed c self sources).2)
    ∧ (∀ n ∈ g_hash_table_get_keys_as_array self.osks, n ∈ (sources_loop c self sources).new →
        g_hash_table_lookup (on_input_setting_changed c self sources).1.osks n
          = g_hash_table_lookup self.osks n
        ∧ Effect.osks_insert n ∉ (on_input_setting_changed c self sources).2
        ∧ Effect.osks_remove n ∉ (on_input_setting_changed c self sources).2
        ∧ ∀ d l v, Effect.osk_load d l v ∈ (on_input_setting_changed c self sources).2 →
            layout_name l v ≠ n)
    ∧ (on_input_setting_changed c self sources).1.osk_terminal = self.osk_terminal := by
  obtain ⟨-, hnamed, hterm⟩ := (well_formed_iff self).mp hwf
  have hnamed2 : ∀ e ∈ self.osks, e.2.name = e.1 := hnamed
  -- a name is in NEW
  obtain ⟨w, hw⟩ := Option.isSome_iff_exists.mp hres
  have hwnew : w.name ∈ (sources_loop c self sources).new :=
    (sources_loop_of_first_resolved_some c sources w
      ⟨self, [], false, []⟩ hnamed2 hw).1
  have hkeys := drop_removed_keys_eq_new c self sources hnamed2
  -- so the table is not empty and no default is added
  have hne : (drop_removed (sources_loop c self sources).new
      (g_hash_table_get_keys_as_array self.osks) (sources_loop c self sources).self).1.osks
        ≠ [] := by
    intro h0
    have := (hkeys w.name).mpr hwnew
    rw [h0] at this
    simp [g_hash_table_get_keys_as_array] at this
  have hdef := add_default_nonempty c _ hne
  have hstate : (on_input_setting_changed c self sources).1
      = (drop_removed (sources_loop c self sources).new
          (g_hash_table_get_keys_as_array self.osks) (sources_loop c self sources).self).1 := by
    rw [on_input_setting_changed_eq, hdef]
  have heff : (on_input_setting_changed c self sources).2
      = (sources_loop c self sources).effects
        ++ ((g_hash_table_get_keys_as_array self.osks).filter
            (fun k => decide (k ∉ (sources_loop c self sources).new))).map
              Effect.osks_remove := by
    rw [on_input_setting_changed_eq, hdef]
    simp only [List.append_nil]
    unfold drop_removed
    rw [drop_removed_effects]
    simp
  obtain ⟨E, hE, hEprop⟩ := sources_loop_effects c sources
    (⟨self, [], false, []⟩ : SourcesLoop R)
  have hE2 : (sources_loop c self sources).effects = E := by
    unfold sources_loop; rw [hE]; simp
  have hframe := sources_loop_frame c sources (⟨self, [], false, []⟩ : SourcesLoop R)
  have hdframe := drop_removed_frame (sources_loop c self sources).new
    (g_hash_table_get_keys_as_array self.osks) ((sources_loop c self sources).self, [])
  have hterm2 : (on_input_setting_changed c self sources).1.osk_terminal
      = self.osk_terminal := by
    rw [hstate]
    unfold drop_removed
    rw [hdframe.1]
    exact hframe.1
  refine ⟨?_, sources_loop_new_iff c self sources hnamed2, ?_, ?_, ?_, hterm2⟩
  · intro n
    rw [hstate]
    exact hkeys n
  · intro n
    unfold menu_layouts
    rw [List.mem_append, hstate, hkeys n, ← hstate, hterm2, hterm]
    simp
  · intro n hn hnn
    constructor
    · rw [lookup_eq_none_iff, hstate, hkeys n]
      exact hnn
    · rw [heff]
      apply List.mem_append_right
      apply List.mem_map.mpr
      exact ⟨n, List.mem_filter.mpr ⟨hn, by simpa using hnn⟩, rfl⟩
  · intro n hn hnn
    refine ⟨?_, ?_, ?_, ?_⟩
    · rw [hstate]
      unfold drop_removed
      rw [drop_removed_lookup _ _ _ _ (fun _ => hnn)]
      unfold sources_loop
      exact sources_loop_lookup c sources _ n hn
    · rw [heff, hE2]
      intro hmem
      rcases List.mem_append.mp hmem with h | h
      · exact ((hEprop _ h).2.1 n rfl).1 hn
      · simp at h
    · rw [heff, hE2]
      intro hmem
      rcases List.mem_append.mp hmem with h | h
      · exact (hEprop _ h).1 n rfl
      · simp only [List.mem_map, List.mem_filter, decide_eq_true_eq] at h
        obtain ⟨k, ⟨-, hk⟩, hkn⟩ := h
        simp only [Effect.osks_remove.injEq] at hkn
        exact hk (hkn ▸ hnn)
    · intro d l v hmem hname
      rw [heff, hE2] at hmem
      rcases List.mem_append.mp hmem with h | h
      · exact ((hEprop _ h).2.2 d l v rfl).1 (hname ▸ hn)
      · simp at h

end Reconcile

section Reconcile2

variable {R : Type}

theorem keys_eq_nil {α : Type} (t : List (String × α))
    (h : ∀ n, n ∉ g_hash_table_get_keys_as_array t) : t = [] := by
  cases t with
  | nil => rfl
  | cons e t =>
    exfalso
    apply h e.1
    simp [g_hash_table_get_keys_as_array]

theorem add_default_effects_selects (c : Collaborators) (self : PosInputSurface R) :
    (add_default c self).2.filter Effect.selects_child = []
    ∧ (add_default c self).1.visible_child = self.visible_child
    ∧ (add_default c self).1.osk_terminal = self.osk_terminal := by
  unfold add_default
  by_cases h0 : g_hash_table_size self.osks = 0
  · rw [if_pos h0]
    unfold insert_osk
    cases g_hash_table_lookup self.osks "us" with
    | some w => simp
    | none =>
      cases pos_osk_widget_set_layout c "English (USA)" "us" none with
      | none => simp [Effect.selects_child]
      | some w => simp [Effect.selects_child]
  · rw [if_neg h0]
    simp

/-- C3: when the loader can load `us`, a pass of `on_input_setting_changed` in which no
source resolves, such as a pass on the empty source list, leaves in `self->osks`
exactly the entry `us` with display name `English (USA)`, so that the layouts on offer
are `us` and the terminal layout; and after any pass the table is not empty. -/
theorem on_input_setting_changed_fallback (c : Collaborators) (self : PosInputSurface R)
    (sources : List (String × String))
    (hus : c.layout_loads "English (USA)" "us" none = true) :
    (first_resolved c self sources = none →
      (on_input_setting_changed c self sources).1.osks
        = [("us", ⟨"us", "English (USA)", "us", none⟩)]
      ∧ menu_layouts (on_input_setting_changed c self sources).1
        = ["us", pos_osk_widget_get_name self.osk_terminal])
    ∧ (on_input_setting_changed c self []).1.osks
        = [("us", ⟨"us", "English (USA)", "us", none⟩)]
    ∧ (well_formed self = true →
        menu_layouts (on_input_setting_changed c self []).1 = ["us", "terminal"])
    ∧ (on_input_setting_changed c self sources).1.osks ≠ [] := by
  have main : ∀ srcs : List (String × String), first_resolved c self srcs = none →
      (on_input_setting_changed c self srcs).1.osks
        = [("us", ⟨"us", "English (USA)", "us", none⟩)]
      ∧ menu_layouts (on_input_setting_changed c self srcs).1
        = ["us", pos_osk_widget_get_name self.osk_terminal] := by
    intro srcs hnone
    obtain ⟨h1, h2, -⟩ := sources_loop_of_first_resolved_none c srcs
      (⟨self, [], false, []⟩ : SourcesLoop R) hnone
    have hself : (sources_loop c self srcs).self = self := h1
    have hnew : (sources_loop c self srcs).new = [] := h2
    have hempty : (drop_removed (sources_loop c self srcs).new
        (g_hash_table_get_keys_as_array self.osks) (sources_loop c self srcs).self).1.osks
          = [] := by
      apply keys_eq_nil
      intro n hn
      unfold drop_removed at hn
      rw [drop_removed_keys, hnew, hself] at hn
      exact absurd (hn.2 hn.1) (by simp)
    have hterm : (drop_removed (sources_loop c self srcs).new
        (g_hash_table_get_keys_as_array self.osks)
        (sources_loop c self srcs).self).1.osk_terminal = self.osk_terminal := by
      unfold drop_removed
      rw [(drop_removed_frame (sources_loop c self srcs).new
        (g_hash_table_get_keys_as_array self.osks) ((sources_loop c self srcs).self, [])).1]
      exact congrArg PosInputSurface.osk_terminal hself
    rw [on_input_setting_changed_eq, add_default_empty c _ hempty hus]
    refine ⟨rfl, ?_⟩
    show g_hash_table_get_keys_as_array [("us", (⟨"us", "English (USA)", "us", none⟩ :
        PosOskWidget))]
      ++ [pos_osk_widget_get_name (drop_removed (sources_loop c self srcs).new
        (g_hash_table_get_keys_as_array self.osks)
        (sources_loop c self srcs).self).1.osk_terminal] = _
    rw [hterm]
    rfl
  refine ⟨main sources, (main [] rfl).1, ?_, ?_⟩
  · intro hwf
    obtain ⟨-, -, hterm⟩ := (well_formed_iff self).mp hwf
    rw [(main [] rfl).2, hterm]
  · rw [on_input_setting_changed_eq]
    by_cases h0 : (drop_removed (sources_loop c self sources).new
        (g_hash_table_get_keys_as_array self.osks) (sources_loop c self sources).self).1.osks
          = []
    · rw [add_default_empty c _ h0 hus]
      simp
    · rw [add_default_nonempty c _ h0]
      exact h0

theorem sources_loop_body_congr (c : Collaborators) (st st2 : SourcesLoop R)
    (src : String × String) (h1 : st.self = st2.self) (h2 : st.new = st2.new)
    (h3 : st.first_set = st2.first_set) :
    (sources_loop_body c st src).self = (sources_loop_body c st2 src).self
    ∧ (sources_loop_body c st src).new = (sources_loop_body c st2 src).new
    ∧ (sources_loop_body c st src).first_set = (sources_loop_body c st2 src).first_set := by
  obtain ⟨s, n, f, e⟩ := st
  obtain ⟨s2, n2, f2, e2⟩ := st2
  simp only at h1 h2 h3
  subst h1 h2 h3
  unfold sources_loop_body
  simp only
  rcases hr : insert_layout c s src.1 src.2 with ⟨self1, r, eff⟩
  cases r with
  | none => simp
  | some w => cases f <;> simp

theorem sources_loop_resolved_sources (c : Collaborators) (sources : List (String × String)) :
    ∀ (st st2 : SourcesLoop R), st.self = st2.self → st.new = st2.new →
      st.first_set = st2.first_set →
      (sources.foldl (sources_loop_body c) st).self
        = ((resolved_sources c st sources).foldl (sources_loop_body c) st2).self
      ∧ (sources.foldl (sources_loop_body c) st).new
        = ((resolved_sources c st sources).foldl (sources_loop_body c) st2).new
      ∧ (sources.foldl (sources_loop_body c) st).first_set
        = ((resolved_sources c st sources).foldl (sources_loop_body c) st2).first_set := by
  induction sources with
  | nil => intro st st2 h1 h2 h3; exact ⟨h1, h2, h3⟩
  | cons src rest ih =>
    intro st st2 h1 h2 h3
    rw [List.foldl_cons]
    cases hr : (insert_layout c st.self src.1 src.2).2.1 with
    | none =>
      obtain ⟨g1, g2, g3, -⟩ := sources_loop_body_skipped c st src hr
      have hrs : resolved_sources c st (src :: rest)
          = resolved_sources c (sources_loop_body c st src) rest := by
        simp [resolved_sources, hr]
      rw [hrs]
      exact ih _ st2 (g1.trans h1) (g2.trans h2) (g3.trans h3)
    | some w =>
      have hrs : resolved_sources c st (src :: rest)
          = src :: resolved_sources c (sources_loop_body c st src) rest := by
        simp [resolved_sources, hr]
      rw [hrs, List.foldl_cons]
      obtain ⟨g1, g2, g3⟩ := sources_loop_body_congr c st st2 src h1 h2 h3
      exact ih _ _ g1 g2 g3

/-- C5: a source that `insert_layout` skips (it is not an `xkb` source, or its layout
info is not found, or its layout is absent from the table and fails to load) changes
neither the surface nor NEW nor `first_set`, and the loop goes on: the surface after
`on_input_setting_changed`, table and visible child included, is the one the pass on
the list with the skipped sources deleted gives. -/
theorem on_input_setting_changed_skipped_sources (c : Collaborators)
    (self : PosInputSurface R) (sources : List (String × String)) :
    (∀ (st : SourcesLoop R) (src : String × String),
      (insert_layout c st.self src.1 src.2).2.1 = none →
        (sources_loop_body c st src).self = st.self
        ∧ (sources_loop_body c st src).new = st.new
        ∧ (sources_loop_body c st src).first_set = st.first_set)
    ∧ (∀ (s : PosInputSurface R) (type id : String),
      (insert_layout c s type id).2.1 = none ↔
        (type ≠ "xkb" ∨ c.xkb_info id = none
          ∨ ∃ info, c.xkb_info id = some info
              ∧ g_hash_table_lookup s.osks (layout_name info.layout info.variant) = none
              ∧ c.layout_loads info.display_name info.layout info.variant = false))
    ∧ (on_input_setting_changed c self sources).1
        = (on_input_setting_changed c self
            (resolved_sources c ⟨self, [], false, []⟩ sources)).1 := by
  refine ⟨?_, ?_, ?_⟩
  · intro st src h
    obtain ⟨h1, h2, h3, -⟩ := sources_loop_body_skipped c st src h
    exact ⟨h1, h2, h3⟩
  · intro s type id
    unfold insert_layout
    by_cases ht : type ≠ "xkb"
    · simp [ht]
    · cases hinfo : c.xkb_info id with
      | none => simp [ht]
      | some info =>
        unfold insert_osk
        cases hl : g_hash_table_lookup s.osks (layout_name info.layout info.variant) with
        | some w => simp [ht, hl]
        | none =>
          unfold pos_osk_widget_set_layout
          by_cases hload : c.layout_loads info.display_name info.layout info.variant = true
          · simp [ht, hl, hload]
          · simp [ht, hl, hload]
  · obtain ⟨h1, h2, -⟩ := sources_loop_resolved_sources c sources
      (⟨self, [], false, []⟩ : SourcesLoop R) ⟨self, [], false, []⟩ rfl rfl rfl
    have g1 : (sources_loop c self sources).self
        = (sources_loop c self (resolved_sources c ⟨self, [], false, []⟩ sources)).self := h1
    have g2 : (sources_loop c self sources).new
        = (sources_loop c self (resolved_sources c ⟨self, [], false, []⟩ sources)).new := h2
    rw [on_input_setting_changed_eq, on_input_setting_changed_eq, g1, g2]

end Reconcile2

section Reconcile3

variable {R : Type}

theorem filter_selects_map_remove (l : List String) :
    (l.map Effect.osks_remove).filter Effect.selects_child = [] := by
  induction l with
  | nil => rfl
  | cons k rest ih => simp [Effect.selects_child, ih]

/-- When a source resolves, the pass ends with the drop loop: no default is added. -/
theorem on_input_setting_changed_of_resolved (c : Collaborators) (self : PosInputSurface R)
    (sources : List (String × String)) (hnamed : ∀ e ∈ self.osks, e.2.name = e.1)
    (w : PosOskWidget) (hw : first_resolved c self sources = some w) :
    (on_input_setting_changed c self sources).1
      = (drop_removed (sources_loop c self sources).new
          (g_hash_table_get_keys_as_array self.osks) (sources_loop c self sources).self).1
    ∧ (on_input_setting_changed c self sources).2
      = (sources_loop c self sources).effects
        ++ (drop_removed (sources_loop c self sources).new
          (g_hash_table_get_keys_as_array self.osks) (sources_loop c self sources).self).2
    ∧ w.name ∈ (sources_loop c self sources).new := by
  have hwnew : w.name ∈ (sources_loop c self sources).new :=
    (sources_loop_of_first_resolved_some c sources w ⟨self, [], false, []⟩ hnamed hw).1
  have hne : (drop_removed (sources_loop c self sources).new
      (g_hash_table_get_keys_as_array self.osks) (sources_loop c self sources).self).1.osks
        ≠ [] := by
    intro h0
    have := (drop_removed_keys_eq_new c self sources hnamed w.name).mpr hwnew
    rw [h0] at this
    simp [g_hash_table_get_keys_as_array] at this
  rw [on_input_setting_changed_eq, add_default_nonempty c _ hne]
  simp [hwnew]

/-- C6: on a well-formed surface `on_input_setting_changed` makes the widget of the
first source that resolves the visible child of the deck, by exactly one call of
`hdy_deck_set_visible_child`; that widget is in the table under its name and is still
the visible child at the end of the pass.  When no source resolves the pass makes no
such call. -/
theorem on_input_setting_changed_selection (c : Collaborators) (self : PosInputSurface R)
    (sources : List (String × String)) (hwf : well_formed self = true) :
    (∀ w, first_resolved c self sources = some w →
      (on_input_setting_changed c self sources).1.visible_child = some (DeckChild.osk w)
      ∧ presented_layout (on_input_setting_changed c self sources).1 = some w.name
      ∧ g_hash_table_lookup (on_input_setting_changed c self sources).1.osks w.name = some w
      ∧ (on_input_setting_changed c self sources).2.filter Effect.selects_child
          = [Effect.deck_set_visible_child (DeckChild.osk w)])
    ∧ (first_resolved c self sources = none →
      (on_input_setting_changed c self sources).2.filter Effect.selects_child = []) := by
  obtain ⟨-, hnamed, -⟩ := (well_formed_iff self).mp hwf
  have hnamed2 : ∀ e ∈ self.osks, e.2.name = e.1 := hnamed
  obtain ⟨hsel1, hsel2⟩ := sources_loop_selection c sources
    (⟨self, [], false, []⟩ : SourcesLoop R) rfl
  have hdeff : (drop_removed (sources_loop c self sources).new
      (g_hash_table_get_keys_as_array self.osks)
      (sources_loop c self sources).self).2.filter Effect.selects_child = [] := by
    unfold drop_removed
    rw [drop_removed_effects]
    simp [filter_selects_map_remove]
  constructor
  · intro w hw
    obtain ⟨hstate, heff, hwnew⟩ := on_input_setting_changed_of_resolved c self sources hnamed2 w hw
    have hv : (sources_loop c self sources).self.visible_child = some (DeckChild.osk w) := by
      unfold sources_loop
      rw [hsel1]
      simp only [hw]
    have hfilter : (sources_loop c self sources).effects.filter Effect.selects_child
        = [Effect.deck_set_visible_child (DeckChild.osk w)] := by
      unfold sources_loop
      rw [hsel2]
      simp only [hw]
      rfl
    have hnamed3 : ∀ e ∈ (sources_loop c self sources).self.osks, e.2.name = e.1 :=
      sources_loop_named c sources _ hnamed2
    have hvis : (on_input_setting_changed c self sources).1.visible_child
        = some (DeckChild.osk w) := by
      rw [hstate]
      exact drop_removed_visible_child _ _ w hwnew ((sources_loop c self sources).self, [])
        hnamed3 hv
    refine ⟨hvis, ?_, ?_, ?_⟩
    · unfold presented_layout
      rw [hvis]
      rfl
    · rw [hstate]
      unfold drop_removed
      rw [drop_removed_lookup _ _ _ _ (fun _ => hwnew)]
      exact (sources_loop_of_first_resolved_some c sources w ⟨self, [], false, []⟩
        hnamed2 hw).2
    · rw [heff, List.filter_append, hfilter, hdeff]
      rfl
  · intro hnone
    have hfilter : (sources_loop c self sources).effects.filter Effect.selects_child = [] := by
      unfold sources_loop
      rw [hsel2]
      simp only [hnone]
      rfl
    rw [on_input_setting_changed_eq]
    simp only [List.filter_append, hfilter, hdeff, (add_default_effects_selects c _).1,
      List.append_nil]

/-- C4, amended: when at least one source resolves, a second run of
`on_input_setting_changed` on the same sources leaves the table as the first run left
it, calls neither `g_hash_table_insert` nor `g_hash_table_remove`, and every load it
requests is for a layout that is not in the table and fails to load. -/
theorem on_input_setting_changed_twice (c : Collaborators) (self : PosInputSurface R)
    (sources : List (String × String)) (hwf : well_formed self = true)
    (hres : (first_resolved c self sources).isSome = true) :
    (on_input_setting_changed c (on_input_setting_changed c self sources).1 sources).1.osks
      = (on_input_setting_changed c self sources).1.osks
    ∧ (∀ e ∈ (on_input_setting_changed c (on_input_setting_changed c self sources).1
          sources).2, e.mutates_osks = false)
    ∧ (∀ d l v, Effect.osk_load d l v
          ∈ (on_input_setting_changed c (on_input_setting_changed c self sources).1 sources).2 →
        c.layout_loads d l v = false
        ∧ layout_name l v
            ∉ g_hash_table_get_keys_as_array (on_input_setting_changed c self sources).1.osks) := by
  obtain ⟨-, hnamed, -⟩ := (well_formed_iff self).mp hwf
  have hnamed2 : ∀ e ∈ self.osks, e.2.name = e.1 := hnamed
  obtain ⟨w, hw⟩ := Option.isSome_iff_exists.mp hres
  obtain ⟨hstate, -, hwnew⟩ := on_input_setting_changed_of_resolved c self sources hnamed2 w hw
  -- the surface after the first run
  generalize hs1 : (on_input_setting_changed c self sources).1 = s1 at *
  have hkeys1 : ∀ n, n ∈ g_hash_table_get_keys_as_array s1.osks
      ↔ n ∈ (sources_loop c self sources).new := by
    intro n
    rw [hstate]
    exact drop_removed_keys_eq_new c self sources hnamed2 n
  have hnew1 := sources_loop_new_iff c self sources hnamed2
  have hnamed_s1 : ∀ e ∈ s1.osks, e.2.name = e.1 := by
    rw [hstate]
    unfold drop_removed
    exact drop_removed_named _ _ _ (sources_loop_named c sources _ hnamed2)
  have hne1 : s1.osks ≠ [] := by
    intro h0
    have := (hkeys1 w.name).mpr hwnew
    rw [h0] at this
    simp [g_hash_table_get_keys_as_array] at this
  -- every source whose layout loads stands for a key of the table
  have H : ∀ src ∈ sources, ∀ n, source_name c src = some n → source_loads c src = true →
      n ∈ g_hash_table_get_keys_as_array s1.osks := by
    intro src hsrc n hn hl
    exact (hkeys1 n).mpr ((hnew1 n).mpr ⟨⟨src, hsrc, hn⟩, Or.inr ⟨src, hsrc, hn, hl⟩⟩)
  have hosks2 : (sources_loop c s1 sources).self.osks = s1.osks := by
    unfold sources_loop
    exact sources_loop_osks_unchanged c sources _ H
  have hnew2 := sources_loop_new_iff c s1 sources hnamed_s1
  have hold : ∀ k ∈ g_hash_table_get_keys_as_array s1.osks,
      k ∈ (sources_loop c s1 sources).new := by
    intro k hk
    obtain ⟨h1, -⟩ := (hnew1 k).mp ((hkeys1 k).mp hk)
    exact (hnew2 k).mpr ⟨h1, Or.inl hk⟩
  have hdrop := drop_removed_nothing (sources_loop c s1 sources).new
    (g_hash_table_get_keys_as_array s1.osks) hold (sources_loop c s1 sources).self
  have hne2 : (sources_loop c s1 sources).self.osks ≠ [] := by rw [hosks2]; exact hne1
  have hrun2 : on_input_setting_changed c s1 sources
      = ((sources_loop c s1 sources).self, (sources_loop c s1 sources).effects) := by
    rw [on_input_setting_changed_eq, hdrop, add_default_nonempty c _ hne2]
    simp
  obtain ⟨E, hE, hEprop⟩ := sources_loop_effects c sources
    (⟨s1, [], false, []⟩ : SourcesLoop R)
  have hE2 : (sources_loop c s1 sources).effects = E := by
    unfold sources_loop; rw [hE]; simp
  rw [hrun2]
  refine ⟨hosks2, ?_, ?_⟩
  · intro e he
    simp only [hE2] at he
    obtain ⟨a1, a2, -⟩ := hEprop e he
    cases e with
    | osks_insert n =>
      obtain ⟨b1, src, hsrc, b2, b3⟩ := a2 n rfl
      exact absurd (H src hsrc n b2 b3) b1
    | osks_remove n => exact absurd rfl (a1 n)
    | _ => rfl
  · intro d l v he
    simp only [hE2] at he
    obtain ⟨b1, src, hsrc, b2, b3⟩ := (hEprop _ he).2.2 d l v rfl
    refine ⟨?_, b1⟩
    cases hl : c.layout_loads d l v with
    | false => rfl
    | true =>
      rw [hl] at b3
      exact absurd (H src hsrc _ b2 b3) b1

/-- C7: `select_layout_change_state` neither adds nor removes an entry of `self->osks`
and leaves the terminal widget alone.  For a key of the table the widget stored under
it becomes the visible child and the action state becomes the key; for `terminal`,
when it is no key, the terminal widget becomes the visible child and the action state
`terminal`; on a well-formed surface the visible child is then named by the id.  For
any other id the surface is unchanged and a warning is issued. -/
theorem select_layout_change_state_effect (self : PosInputSurface R) (layout : String) :
    (select_layout_change_state self layout).1.osks = self.osks
    ∧ (select_layout_change_state self layout).1.osk_terminal = self.osk_terminal
    ∧ (∀ e ∈ (select_layout_change_state self layout).2, e.mutates_osks = false)
    ∧ (∀ w, g_hash_table_lookup self.osks layout = some w →
        (select_layout_change_state self layout).1.visible_child = some (DeckChild.osk w)
        ∧ (select_layout_change_state self layout).1.select_layout_state = layout)
    ∧ (g_hash_table_lookup self.osks layout = none → layout = "terminal" →
        (select_layout_change_state self layout).1.visible_child = some DeckChild.terminal
        ∧ (select_layout_change_state self layout).1.select_layout_state = layout)
    ∧ (well_formed self = true →
        (layout ∈ g_hash_table_get_keys_as_array self.osks ∨ layout = "terminal") →
        presented_layout (select_layout_change_state self layout).1 = some layout
        ∧ (select_layout_change_state self layout).1.select_layout_state = layout)
    ∧ (layout ∉ g_hash_table_get_keys_as_array self.osks → layout ≠ "terminal" →
        (select_layout_change_state self layout).1 = self
        ∧ (select_layout_change_state self layout).2
            = [Effect.popover_popdown, Effect.warning layout]) := by
  cases hl : g_hash_table_lookup self.osks layout with
  | some w =>
    have hk := lookup_some_mem_keys _ _ _ hl
    refine ⟨?_, ?_, ?_, ?_, ?_, ?_, ?_⟩
    · simp [select_layout_change_state, hl, hdy_deck_set_visible_child]
    · simp [select_layout_change_state, hl, hdy_deck_set_visible_child]
    · simp [select_layout_change_state, hl, Effect.mutates_osks]
    · intro w2 hw2
      simp only [Option.some.injEq] at hw2
      subst hw2
      simp [select_layout_change_state, hl, hdy_deck_set_visible_child]
    · intro h; simp at h
    · intro hwf _
      obtain ⟨-, hnamed, -⟩ := (well_formed_iff self).mp hwf
      have hw : pos_osk_widget_get_name w = layout := hnamed _ (lookup_some_mem _ _ _ hl)
      simp [select_layout_change_state, hl, hdy_deck_set_visible_child, presented_layout, hw]
    · intro hnk; exact absurd hk hnk
  | none =>
    have hk := (lookup_eq_none_iff _ _).mp hl
    by_cases ht : layout = "terminal"
    · subst ht
      refine ⟨?_, ?_, ?_, ?_, ?_, ?_, ?_⟩
      · simp [select_layout_change_state, hl, hdy_deck_set_visible_child]
      · simp [select_layout_change_state, hl, hdy_deck_set_visible_child]
      · simp [select_layout_change_state, hl, Effect.mutates_osks]
      · intro w hw; simp at hw
      · intro _ _
        simp [select_layout_change_state, hl, hdy_deck_set_visible_child]
      · intro hwf _
        obtain ⟨-, -, hterm⟩ := (well_formed_iff self).mp hwf
        simp [select_layout_change_state, hl, hdy_deck_set_visible_child,
          presented_layout, hterm]
      · intro _ hnt; exact absurd rfl hnt
    · refine ⟨?_, ?_, ?_, ?_, ?_, ?_, ?_⟩
      · simp [select_layout_change_state, hl, ht]
      · simp [select_layout_change_state, hl, ht]
      · simp [select_layout_change_state, hl, ht, Effect.mutates_osks]
      · intro w hw; simp at hw
      · intro _ h; exact absurd h ht
      · intro _ h
        rcases h with h | h
        · exact absurd h hk
        · exact absurd h ht
      · intro _ _
        simp [select_layout_change_state, hl, ht]

end Reconcile3

/-! ## Reconciliation on sample inputs -/

/-- C2 on a sample: the table holds `us` and `de` and the only source resolves to `de`;
after the pass the layouts on offer are `de` and `terminal`. -/
theorem on_input_setting_changed_store_witness :
    menu_layouts (on_input_setting_changed sample_collaborators sample_surface_us_de
      [("xkb", "de")]).1 = ["de", "terminal"]
    ∧ ∀ n, n ∈ g_hash_table_get_keys_as_array (on_input_setting_changed sample_collaborators
          sample_surface_us_de [("xkb", "de")]).1.osks
        ↔ n ∈ (sources_loop sample_collaborators sample_surface_us_de [("xkb", "de")]).new :=
  ⟨by decide, (on_input_setting_changed_store sample_collaborators sample_surface_us_de
    [("xkb", "de")] (by decide) (by decide)).1⟩

/-- C3 on a sample: neither source resolves (one is not `xkb`, the layout of the other
fails to load), and the pass leaves `us` and `terminal`. -/
theorem on_input_setting_changed_fallback_witness :
    (on_input_setting_changed sample_collaborators sample_surface_us_de
      [("ibus", "anthy"), ("xkb", "fr")]).1.osks
      = [("us", ⟨"us", "English (USA)", "us", none⟩)]
    ∧ menu_layouts (on_input_setting_changed sample_collaborators sample_surface_us_de
      [("ibus", "anthy"), ("xkb", "fr")]).1 = ["us", "terminal"] :=
  (on_input_setting_changed_fallback sample_collaborators sample_surface_us_de
    [("ibus", "anthy"), ("xkb", "fr")] (by decide)).1 (by decide)

/-- C4, as the code has it: a second run on the same sources is not idle.  With no
source at all the second run removes the default layout `us` and loads and inserts it
again; with a source whose layout fails to load the second run requests that load
again. -/
theorem on_input_setting_changed_twice_not_idle :
    (on_input_setting_changed sample_collaborators
      (on_input_setting_changed sample_collaborators (init_surface : PosInputSurface ℚ) []).1
      []).2
      = [Effect.osks_remove "us", Effect.osk_load "English (USA)" "us" none,
         Effect.osks_insert "us"]
    ∧ Effect.osk_load "French" "fr" none ∈
      (on_input_setting_changed sample_collaborators
        (on_input_setting_changed sample_collaborators (init_surface : PosInputSurface ℚ)
          [("xkb", "fr"), ("xkb", "de")]).1
        [("xkb", "fr"), ("xkb", "de")]).2 := by
  decide

/-- C4, amended, on a sample: three sources, of which `fr` fails to load; the second
run leaves the table alone. -/
theorem on_input_setting_changed_twice_witness :
    (on_input_setting_changed sample_collaborators
      (on_input_setting_changed sample_collaborators sample_surface_us_de
        [("xkb", "fr"), ("xkb", "de+neo"), ("xkb", "de")]).1
      [("xkb", "fr"), ("xkb", "de+neo"), ("xkb", "de")]).1.osks
      = (on_input_setting_changed sample_collaborators sample_surface_us_de
        [("xkb", "fr"), ("xkb", "de+neo"), ("xkb", "de")]).1.osks :=
  (on_input_setting_changed_twice sample_collaborators sample_surface_us_de
    [("xkb", "fr"), ("xkb", "de+neo"), ("xkb", "de")] (by decide) (by decide)).1

/-- C6 on a sample: the sources `us` and `de+neo` on the empty table give the layouts
`de+neo`, `us` and `terminal`, with `us` presented. -/
theorem on_input_setting_changed_selection_witness :
    g_hash_table_get_keys_as_array (on_input_setting_changed sample_collaborators
      (init_surface : PosInputSurface ℚ) [("xkb", "us"), ("xkb", "de+neo")]).1.osks
      = ["de+neo", "us"]
    ∧ menu_layouts (on_input_setting_changed sample_collaborators
      (init_surface : PosInputSurface ℚ) [("xkb", "us"), ("xkb", "de+neo")]).1
      = ["de+neo", "us", "terminal"]
    ∧ presented_layout (on_input_setting_changed sample_collaborators
      (init_surface : PosInputSurface ℚ) [("xkb", "us"), ("xkb", "de+neo")]).1
      = some "us" :=
  ⟨by decide, by decide,
   ((on_input_setting_changed_selection sample_collaborators
      (init_surface : PosInputSurface ℚ) [("xkb", "us"), ("xkb", "de+neo")] (by decide)).1
      ⟨"us", "English (US)", "us", some ""⟩ (by decide)).2.1⟩

/-- C7 on a sample: selecting `de` presents it; selecting the unknown `fr` leaves the
action state at `terminal`. -/
theorem select_layout_change_state_witness :
    presented_layout (select_layout_change_state sample_surface_us_de "de").1 = some "de"
    ∧ (select_layout_change_state sample_surface_us_de "de").1.select_layout_state = "de"
    ∧ (select_layout_change_state sample_surface_us_de "fr").1.select_layout_state
        = "terminal" :=
  ⟨((select_layout_change_state_effect sample_surface_us_de "de").2.2.2.2.2.1
      (by decide) (by decide)).1,
   ((select_layout_change_state_effect sample_surface_us_de "de").2.2.2.2.2.1
      (by decide) (by decide)).2,
   by decide⟩

/-- C9 on a sample: the first request to show the surface clears the last frame time
and registers a tick callback. -/
theorem pos_input_surface_set_visible_request_witness :
    (pos_input_surface_set_visible (fun x : ℚ => x)
      (init_surface : PosInputSurface ℚ) 1).1.animation.last_frame
      = -1
    ∧ (pos_input_surface_set_visible (fun x : ℚ => x)
      (init_surface : PosInputSurface ℚ) 1).1.tick_callbacks = 1 :=
  ⟨((pos_input_surface_set_visible_request (fun x : ℚ => x)
      (init_surface : PosInputSurface ℚ) 1).2
      (by decide)).2.2.1,
   ((pos_input_surface_set_visible_request (fun x : ℚ => x)
      (init_surface : PosInputSurface ℚ) 1).2
      (by decide)).2.2.2.2.1⟩

/-- C10 on a sample: one frame of 16666 microseconds from progress 0. -/
theorem animate_cb_progress_witness :
    (animate_cb 200 sample_surface_showing 21666).1.animation.progress
      = min 1 (0 + 0.06666) :=
  (animate_cb_progress 200 sample_surface_showing 21666).2.2.1 (by decide) (by decide)

/-! ## The invariant is kept -/

/-- The initial surface is well-formed. -/
theorem init_surface_well_formed : well_formed (init_surface : PosInputSurface ℚ) = true := by
  decide

/-- Reconciliation keeps the surface well-formed. -/
theorem on_input_setting_changed_well_formed {R : Type} (c : Collaborators)
    (self : PosInputSurface R) (sources : List (String × String))
    (hwf : well_formed self = true) :
    well_formed (on_input_setting_changed c self sources).1 = true := by
  obtain ⟨hnodup, hnamed, hterm⟩ := (well_formed_iff self).mp hwf
  have hnamed2 : ∀ e ∈ self.osks, e.2.name = e.1 := hnamed
  have hterm2 : self.osk_terminal.name = "terminal" := hterm
  have h1 : (g_hash_table_get_keys_as_array (drop_removed (sources_loop c self sources).new
      (g_hash_table_get_keys_as_array self.osks)
      (sources_loop c self sources).self).1.osks).Nodup := by
    unfold drop_removed
    exact drop_removed_nodup _ _ _ (sources_loop_nodup c sources _ hnodup)
  have h2 : ∀ e ∈ (drop_removed (sources_loop c self sources).new
      (g_hash_table_get_keys_as_array self.osks) (sources_loop c self sources).self).1.osks,
      e.2.name = e.1 := by
    unfold drop_removed
    exact drop_removed_named _ _ _ (sources_loop_named c sources _ hnamed2)
  have h3 : (drop_removed (sources_loop c self sources).new
      (g_hash_table_get_keys_as_array self.osks)
      (sources_loop c self sources).self).1.osk_terminal = self.osk_terminal := by
    unfold drop_removed
    rw [(drop_removed_frame _ _ _).1]
    exact (sources_loop_frame c sources _).1
  rw [on_input_setting_changed_eq]
  generalize (drop_removed (sources_loop c self sources).new
      (g_hash_table_get_keys_as_array self.osks) (sources_loop c self sources).self).1 = s
    at h1 h2 h3
  rw [well_formed_iff]
  by_cases h0 : s.osks = []
  · unfold add_default g_hash_table_size insert_osk
    simp only [h0, List.length_nil, if_true, g_hash_table_lookup]
    unfold pos_osk_widget_set_layout
    by_cases hus : c.layout_loads "English (USA)" "us" none = true
    · have hname : layout_name "us" none = "us" := by decide
      simp [hus, g_hash_table_insert, g_hash_table_remove, g_hash_table_get_keys_as_array,
        pos_osk_widget_get_name, hname, h3, hterm2]
    · simp [hus, h0, g_hash_table_get_keys_as_array, h3, hterm2, pos_osk_widget_get_name]
  · rw [add_default_nonempty c _ h0]
    exact ⟨h1, h2, by rw [h3]; exact hterm⟩


/-! ## Animation: one tick -/

theorem one_lit {R : Type} [LinearOrderedField R] : (1.0 : R) = 1 := by norm_num

section Tick

variable {R : Type} [LinearOrderedField R] [FloorRing R]

/-- The elapsed time `animate_cb` uses is zero when the last frame time is cleared or
equal to the frame time. -/
theorem animate_cb_state (height : Int) (self : PosInputSurface R) (now : Int) :
    (animate_cb height self now).1.animation.progress
      = min 1 (self.animation.progress
          + 0.06666 * (((if self.animation.last_frame < 0 then 0
              else gint64_wrap (now - self.animation.last_frame) : Int)) : R) / 16666)
    ∧ (animate_cb height self now).1.animation.show_ = self.animation.show_
    ∧ (animate_cb height self now).1.animation.last_frame = now
    ∧ (animate_cb height self now).1.surface_visible = self.surface_visible
    ∧ (animate_cb height self now).1.tick_callbacks = self.tick_callbacks
    ∧ (animate_cb height self now).1.osks = self.osks
    ∧ (animate_cb height self now).1.osk_terminal = self.osk_terminal
    ∧ (animate_cb height self now).1.visible_child = self.visible_child
    ∧ (animate_cb height self now).1.select_layout_state = self.select_layout_state
    ∧ ((animate_cb height self now).2.1 = true
        ↔ (animate_cb height self now).1.animation.progress < 1)
    ∧ (animate_cb height self now).2.2
        = pos_input_surface_move height (animate_cb height self now).1 := by
  have key : ∀ x : R, (if x ≥ 1.0 then (1.0 : R) else x) = min 1 x := by
    intro x
    by_cases hx : (1 : R) ≤ x
    · have h1 : x ≥ (1.0 : R) := by norm_num; exact hx
      rw [if_pos h1, min_eq_left hx]; norm_num
    · have h1 : ¬ x ≥ (1.0 : R) := by norm_num; exact lt_of_not_le hx
      rw [if_neg h1, min_eq_right (le_of_lt (lt_of_not_le hx))]
  refine ⟨?_, rfl, rfl, rfl, rfl, rfl, rfl, rfl, rfl, ?_, rfl⟩
  · simp only [animate_cb, key]
    norm_num
  · simp only [animate_cb, key]
    generalize self.animation.progress + 0.06666 * (((if self.animation.last_frame < 0 then 0
      else gint64_wrap (now - self.animation.last_frame) : Int)) : R) / 16666.00 = x
    by_cases hx : (1 : R) ≤ x
    · have h1 : x ≥ (1.0 : R) := by norm_num; exact hx
      simp [h1, min_eq_left hx]
    · have h1 : ¬ x ≥ (1.0 : R) := by norm_num; exact lt_of_not_le hx
      have h2 : x < 1 := lt_of_not_le hx
      simp [h1, min_eq_right (le_of_lt h2), h2]

theorem animate_cb_le_one (height : Int) (self : PosInputSurface R) (now : Int) :
    (animate_cb height self now).1.animation.progress ≤ 1 := by
  rw [(animate_cb_state height self now).1]
  exact min_le_left _ _

/-- The calls of `pos_input_surface_move` other than the margins and the commit, by
direction and progress. -/
theorem pos_input_surface_move_cases (height : Int) (self : PosInputSurface R) :
    pos_input_surface_move height self
      = [Effect.set_margins (double_to_int (((-height : Int) : R) * offset_fraction self))]
        ++ (if self.animation.show_ ≠ 0 then
              (if 1 ≤ self.animation.progress then [Effect.set_exclusive_zone height] else [])
              ++ [Effect.widget_show]
            else
              (if self.animation.progress < 1 then [Effect.set_exclusive_zone 0]
               else [Effect.widget_hide, Effect.visible_child_set_layer_normal]))
        ++ [Effect.wl_surface_commit] := by
  unfold pos_input_surface_move offset_fraction
  simp only [one_lit, ge_iff_le]
  by_cases hs : self.animation.show_ = 0
  · by_cases hp : 1 ≤ self.animation.progress
    · have hp2 : ¬ self.animation.progress < 1 := not_lt.mpr hp
      simp [hs, hp, hp2]
    · have hp2 : self.animation.progress < 1 := lt_of_not_le hp
      simp [hs, hp, hp2]
  · by_cases hp : 1 ≤ self.animation.progress
    · simp [hs, hp]
    · simp [hs, hp]

/-- C18: a call of `animate_cb` returns `G_SOURCE_REMOVE` if and only if the progress
after its update is 1.0; it hides the surface, and resets the layer of the visible
child, if and only if the direction is hide and that progress is 1.0, so never when the
direction is show or the progress is below 1.0. -/
theorem animate_cb_end (height : Int) (self : PosInputSurface R) (now : Int) :
    ((animate_cb height self now).2.1 = false
      ↔ (animate_cb height self now).1.animation.progress = 1)
    ∧ (Effect.widget_hide ∈ (animate_cb height self now).2.2
      ↔ self.animation.show_ = 0 ∧ (animate_cb height self now).1.animation.progress = 1)
    ∧ (Effect.visible_child_set_layer_normal ∈ (animate_cb height self now).2.2
      ↔ self.animation.show_ = 0 ∧ (animate_cb height self now).1.animation.progress = 1)
    ∧ (self.animation.show_ ≠ 0 →
        Effect.widget_hide ∉ (animate_cb height self now).2.2
        ∧ Effect.visible_child_set_layer_normal ∉ (animate_cb height self now).2.2)
    ∧ ((animate_cb height self now).1.animation.progress < 1 →
        Effect.widget_hide ∉ (animate_cb height self now).2.2
        ∧ Effect.visible_child_set_layer_normal ∉ (animate_cb height self now).2.2) := by
  obtain ⟨-, hshow, -, -, -, -, -, -, -, hret, heff⟩ := animate_cb_state height self now
  have hle := animate_cb_le_one height self now
  have h1 : (animate_cb height self now).1.animation.progress = 1
      ↔ ¬ (animate_cb height self now).1.animation.progress < 1 := by
    constructor
    · intro h; rw [h]; exact lt_irrefl _
    · intro h; exact le_antisymm hle (not_lt.mp h)
  have hmem : ∀ e, (e = Effect.widget_hide ∨ e = Effect.visible_child_set_layer_normal) →
      (e ∈ (animate_cb height self now).2.2
        ↔ self.animation.show_ = 0
          ∧ (animate_cb height self now).1.animation.progress = 1) := by
    intro e he
    rw [heff, pos_input_surface_move_cases, hshow, h1]
    by_cases hs : self.animation.show_ = 0
    · by_cases hp : (animate_cb height self now).1.animation.progress < 1
      · rcases he with rfl | rfl <;> simp [hs, hp]
      · rcases he with rfl | rfl <;> simp [hs, hp]
    · by_cases hp : 1 ≤ (animate_cb height self now).1.animation.progress
      · rcases he with rfl | rfl <;> simp [hs, hp]
      · rcases he with rfl | rfl <;> simp [hs, hp]
  refine ⟨?_, hmem _ (Or.inl rfl), hmem _ (Or.inr rfl), ?_, ?_⟩
  · rw [h1, ← hret]
    simp
  · intro hs
    exact ⟨fun h => hs ((hmem _ (Or.inl rfl)).mp h).1,
      fun h => hs ((hmem _ (Or.inr rfl)).mp h).1⟩
  · intro hp
    exact ⟨fun h => absurd ((hmem _ (Or.inl rfl)).mp h).2 (ne_of_lt hp),
      fun h => absurd ((hmem _ (Or.inr rfl)).mp h).2 (ne_of_lt hp)⟩

/-- One tick with a frame time not before the last one does not lower the progress. -/
theorem animate_cb_monotone (height : Int) (self : PosInputSurface R) (now : Int)
    (hp : self.animation.progress ≤ 1)
    (ht : self.animation.last_frame < 0
      ∨ (self.animation.last_frame ≤ now ∧ now < 2 ^ 63)) :
    self.animation.progress ≤ (animate_cb height self now).1.animation.progress
    ∧ (animate_cb height self now).1.animation.progress ≤ 1
    ∧ (self.animation.progress = 1 →
        (animate_cb height self now).1.animation.progress = 1) := by
  have hle := animate_cb_le_one height self now
  have htime : (0 : Int) ≤ (if self.animation.last_frame < 0 then 0
      else gint64_wrap (now - self.animation.last_frame)) := by
    by_cases hl : self.animation.last_frame < 0
    · rw [if_pos hl]
    · rw [if_neg hl]
      rcases ht with ht | ⟨h1, h2⟩
      · exact absurd ht hl
      · rw [gint64_wrap_of_range _ (by omega) (by omega)]
        omega
  have hinc : self.animation.progress ≤ self.animation.progress
      + 0.06666 * (((if self.animation.last_frame < 0 then 0
          else gint64_wrap (now - self.animation.last_frame) : Int)) : R) / 16666 := by
    have h0 : (0 : R) ≤ (((if self.animation.last_frame < 0 then 0
        else gint64_wrap (now - self.animation.last_frame) : Int)) : R) := by
      exact_mod_cast htime
    have h1 : (0 : R) ≤ 0.06666 * (((if self.animation.last_frame < 0 then 0
        else gint64_wrap (now - self.animation.last_frame) : Int)) : R) / 16666 := by
      apply div_nonneg
      · apply mul_nonneg
        · norm_num
        · exact h0
      · norm_num
    linarith
  have hmono : self.animation.progress ≤ (animate_cb height self now).1.animation.progress := by
    rw [(animate_cb_state height self now).1]
    exact le_min hp hinc
  refine ⟨hmono, hle, ?_⟩
  intro h1
  exact le_antisymm hle (h1 ▸ hmono)

/-- C11: in a sequence of ticks of `animate_cb` with non-decreasing frame times (none
before the recorded last frame time, unless that is cleared) and no visibility request
in between, started with a progress of at most 1, each tick leaves the progress at
least as large as it was and at most 1, and a progress of 1 stays 1. -/
theorem animate_cb_run_monotone (height : Int) (times : List Int) :
    ∀ (self : PosInputSurface R), self.animation.progress ≤ 1 →
      (self.animation.last_frame < 0 ∨ ∀ t ∈ times, self.animation.last_frame ≤ t) →
      times.Pairwise (fun a b => a ≤ b) → (∀ t ∈ times, t < 2 ^ 63) →
      List.Chain
        (fun a b : PosInputSurface R =>
          a.animation.progress ≤ b.animation.progress ∧ b.animation.progress ≤ 1
          ∧ (a.animation.progress = 1 → b.animation.progress = 1))
        self (animate_cb_run height self times) := by
  induction times with
  | nil => intro self _ _ _ _; exact List.Chain.nil
  | cons t ts ih =>
    intro self hp hlast hsorted hrange
    have hstep := animate_cb_monotone height self t hp (by
      rcases hlast with h | h
      · exact Or.inl h
      · exact Or.inr ⟨h t (List.mem_cons_self _ _), hrange t (List.mem_cons_self _ _)⟩)
    unfold animate_cb_run
    refine List.Chain.cons hstep ?_
    apply ih _ hstep.2.1
    · right
      intro t2 ht2
      rw [(animate_cb_state height self t).2.2.1]
      exact (List.pairwise_cons.mp hsorted).1 t2 ht2
    · exact (List.pairwise_cons.mp hsorted).2
    · intro t2 ht2
      exact hrange t2 (List.mem_cons_of_mem _ ht2)

end Tick


/-! ## Animation: the margin -/

theorem hdy_ease_out_cubic_eq {R : Type} [LinearOrderedField R] (t : R) : hdy_ease_out_cubic t = (t - 1) ^ 3 + 1 := by
  unfold hdy_ease_out_cubic
  ring

theorem hdy_ease_out_cubic_range {R : Type} [LinearOrderedField R] (t : R) (h0 : 0 ≤ t) (h1 : t ≤ 1) :
    0 ≤ hdy_ease_out_cubic t ∧ hdy_ease_out_cubic t ≤ 1 := by
  rw [hdy_ease_out_cubic_eq]
  have ha : 0 ≤ 1 - t := by linarith
  have hb : 1 - t ≤ 1 := by linarith
  have hc : 0 ≤ (1 - t) ^ 3 := pow_nonneg ha 3
  have hd : (1 - t) ^ 3 ≤ 1 := pow_le_one₀ ha hb
  have he : (t - 1) ^ 3 = -((1 - t) ^ 3) := by ring
  rw [he]
  constructor <;> linarith

section Margin

variable {R : Type} [LinearOrderedField R] [FloorRing R]

/-- C12, as the code has it: at progress 1/2 and height 100 the margin is -12 when
unfolding and -87 when folding (the eased progress is 7/8), not -50, the value
`-h * (1 - p)` or `-h * p` for the progress itself. -/
theorem pos_input_surface_move_margin_not_linear :
    pos_input_surface_move 100 sample_surface_unfolding
      = [Effect.set_margins (-12), Effect.widget_show, Effect.wl_surface_commit]
    ∧ pos_input_surface_move 100 sample_surface_folding
      = [Effect.set_margins (-87), Effect.set_exclusive_zone 0, Effect.wl_surface_commit]
    ∧ double_to_int ((-100 : ℚ) * (1 - sample_surface_unfolding.animation.progress)) = -50
    ∧ double_to_int ((-100 : ℚ) * sample_surface_folding.animation.progress) = -50 := by
  have hceil : ∀ (x : ℚ) (z : Int), x < 0 → (z : ℚ) - 1 < x → x ≤ z → double_to_int x = z := by
    intro x z hx h1 h2
    unfold double_to_int
    rw [if_neg (not_le.mpr hx)]
    exact Int.ceil_eq_iff.mpr ⟨h1, h2⟩
  have hu : ((-100 : Int) : ℚ) * offset_fraction sample_surface_unfolding = -25 / 2 := by
    norm_num [offset_fraction, sample_surface_unfolding, hdy_ease_out_cubic]
  have hf : ((-100 : Int) : ℚ) * offset_fraction sample_surface_folding = -175 / 2 := by
    norm_num [offset_fraction, sample_surface_folding, hdy_ease_out_cubic]
  refine ⟨?_, ?_, ?_, ?_⟩
  · rw [pos_input_surface_move_cases, hu,
      hceil (-25 / 2) (-12) (by norm_num) (by norm_num) (by norm_num)]
    norm_num [sample_surface_unfolding]
  · rw [pos_input_surface_move_cases, hf,
      hceil (-175 / 2) (-87) (by norm_num) (by norm_num) (by norm_num)]
    norm_num [sample_surface_folding]
  · apply hceil <;> norm_num [sample_surface_unfolding]
  · apply hceil <;> norm_num [sample_surface_folding]

/-- C12, amended: the one margin call of `pos_input_surface_move` has the bottom margin
`-h * e` converted to `int` (the fraction is discarded), where `e` is the eased progress
`hdy_ease_out_cubic p = (p - 1) ^ 3 + 1` when the direction is hide and `1 - e` of it
when the direction is show; for a progress in [0, 1] that factor is in [0, 1], and at
progress 0 and 1 it is the progress itself (hide) and one minus it (show). -/
theorem pos_input_surface_move_bottom_margin (height : Int) (self : PosInputSurface R) :
    (pos_input_surface_move height self).filter Effect.sets_margins
      = [Effect.set_margins (double_to_int (((-height : Int) : R)
          * (if self.animation.show_ ≠ 0
              then 1 - ((self.animation.progress - 1) ^ 3 + 1)
              else (self.animation.progress - 1) ^ 3 + 1)))]
    ∧ (0 ≤ self.animation.progress → self.animation.progress ≤ 1 →
        0 ≤ offset_fraction self ∧ offset_fraction self ≤ 1)
    ∧ (self.animation.progress = 0 →
        offset_fraction self = if self.animation.show_ ≠ 0 then 1 else 0)
    ∧ (self.animation.progress = 1 →
        offset_fraction self = if self.animation.show_ ≠ 0 then 0 else 1) := by
  have hfrac : offset_fraction self
      = (if self.animation.show_ ≠ 0
          then 1 - ((self.animation.progress - 1) ^ 3 + 1)
          else (self.animation.progress - 1) ^ 3 + 1) := by
    unfold offset_fraction
    rw [hdy_ease_out_cubic_eq, one_lit]
  refine ⟨?_, ?_, ?_, ?_⟩
  · rw [pos_input_surface_move_cases, hfrac]
    by_cases hs : self.animation.show_ = 0
    · by_cases hp : self.animation.progress < 1
      · simp [hs, hp, Effect.sets_margins]
      · simp [hs, hp, Effect.sets_margins]
    · by_cases hp : 1 ≤ self.animation.progress
      · simp [hs, hp, Effect.sets_margins]
      · simp [hs, hp, Effect.sets_margins]
  · intro h0 h1
    obtain ⟨e0, e1⟩ := hdy_ease_out_cubic_range self.animation.progress h0 h1
    unfold offset_fraction
    rw [one_lit]
    by_cases hs : self.animation.show_ = 0
    · simp only [hs, ne_eq, not_true_eq_false, if_false]
      exact ⟨e0, e1⟩
    · simp only [hs, ne_eq, not_false_eq_true, if_true]
      constructor <;> linarith
  · intro h0
    rw [hfrac, h0]
    by_cases hs : self.animation.show_ = 0
    · simp [hs]; norm_num
    · simp [hs]; norm_num
  · intro h1
    rw [hfrac, h1]
    by_cases hs : self.animation.show_ = 0
    · simp [hs]
    · simp [hs]

end Margin

/-! ## Animation: reversal -/

/-- The function `reverse_ease_out_cubic` inverts `hdy_ease_out_cubic` when `cbrt` is a
cube root. -/
theorem hdy_ease_out_cubic_reverse {R : Type} [LinearOrderedField R] (cbrt : R → R)
    (hcbrt : ∀ x, cbrt x ^ 3 = x) (t : R) :
    hdy_ease_out_cubic (reverse_ease_out_cubic cbrt t) = t := by
  rw [hdy_ease_out_cubic_eq]
  unfold reverse_ease_out_cubic
  have h : cbrt (t - 1) + 1 - 1 = cbrt (t - 1) := by ring
  rw [h, hcbrt]
  ring

/-- The progress a visibility request computes, from a progress in [0, 1]. -/
theorem reverse_progress_range {R : Type} [LinearOrderedField R] (cbrt : R → R)
    (hcbrt : ∀ x, cbrt x ^ 3 = x) (p : R) (h0 : 0 ≤ p) (h1 : p ≤ 1) :
    0 ≤ reverse_ease_out_cubic cbrt (1.0 - hdy_ease_out_cubic p)
    ∧ reverse_ease_out_cubic cbrt (1.0 - hdy_ease_out_cubic p) ≤ 1
    ∧ (p < 1 → reverse_ease_out_cubic cbrt (1.0 - hdy_ease_out_cubic p) ≠ 0) := by
  obtain ⟨e0, e1⟩ := hdy_ease_out_cubic_range p h0 h1
  rw [one_lit]
  unfold reverse_ease_out_cubic
  generalize hc : cbrt (1 - hdy_ease_out_cubic p - 1) = c
  have hcube : c ^ 3 = 1 - hdy_ease_out_cubic p - 1 := by rw [← hc, hcbrt]
  have hle : c ≤ 0 := by
    by_contra hpos
    have hpos2 : 0 < c := lt_of_not_le hpos
    have : 0 < c ^ 3 := pow_pos hpos2 3
    linarith
  have hge : -1 ≤ c := by
    by_contra hlt
    have hlt2 : 1 < -c := by linarith [lt_of_not_le hlt]
    have h3 : 1 < (-c) ^ 3 := one_lt_pow₀ hlt2 (by norm_num)
    have h4 : (-c) ^ 3 = -(c ^ 3) := by ring
    linarith
  refine ⟨by linarith, by linarith, ?_⟩
  intro hp hzero
  have hc1 : c = -1 := by linarith
  rw [hc1] at hcube
  have he : hdy_ease_out_cubic p = 1 := by
    have : (-1 : R) ^ 3 = -1 := by norm_num
    linarith
  rw [hdy_ease_out_cubic_eq] at he
  have hz : (p - 1) ^ 3 = 0 := by linarith
  have : p - 1 = 0 := pow_eq_zero_iff (by norm_num) |>.mp hz
  linarith

/-- C14: a visibility request that changes the target, on a progress `p` in [0, 1],
sets the progress to a value in [0, 1] (with `cbrt` a cube root), and that value is not
0 when `p < 1`. -/
theorem pos_input_surface_set_visible_progress_range {R : Type} [LinearOrderedField R]
    (cbrt : R → R) (hcbrt : ∀ x, cbrt x ^ 3 = x) (self : PosInputSurface R) (visible : Int)
    (hv : visible ≠ self.surface_visible)
    (h0 : 0 ≤ self.animation.progress) (h1 : self.animation.progress ≤ 1) :
    0 ≤ (pos_input_surface_set_visible cbrt self visible).1.animation.progress
    ∧ (pos_input_surface_set_visible cbrt self visible).1.animation.progress ≤ 1
    ∧ (self.animation.progress < 1 →
        (pos_input_surface_set_visible cbrt self visible).1.animation.progress ≠ 0) := by
  have hp : (pos_input_surface_set_visible cbrt self visible).1.animation.progress
      = reverse_ease_out_cubic cbrt (1.0 - hdy_ease_out_cubic self.animation.progress) := by
    simp [pos_input_surface_set_visible, hv]
  rw [hp]
  exact reverse_progress_range cbrt hcbrt _ h0 h1

theorem pos_input_surface_move_margins {R : Type} [LinearOrderedField R] [FloorRing R]
    (height : Int) (self : PosInputSurface R) :
    (pos_input_surface_move height self).filter Effect.sets_margins
      = [Effect.set_margins (double_to_int (((-height : Int) : R) * offset_fraction self))] := by
  rw [pos_input_surface_move_cases]
  by_cases hs : self.animation.show_ = 0
  · by_cases hp : self.animation.progress < 1
    · simp [hs, hp, Effect.sets_margins]
    · simp [hs, hp, Effect.sets_margins]
  · by_cases hp : 1 ≤ self.animation.progress
    · simp [hs, hp, Effect.sets_margins]
    · simp [hs, hp, Effect.sets_margins]

/-- C16: after a visibility request that reverses the direction, on a progress in
[0, 1], the first tick (whatever its frame time) moves the surface by the same fraction
of its height, and so to the same margin, as `pos_input_surface_move` does just before
the request; `reverse_ease_out_cubic` inverts `hdy_ease_out_cubic`. -/
theorem pos_input_surface_set_visible_continuous {R : Type} [LinearOrderedField R]
    [FloorRing R] (cbrt : R → R) (hcbrt : ∀ x, cbrt x ^ 3 = x) (height : Int)
    (self : PosInputSurface R) (visible : Int) (now : Int)
    (hv : visible ≠ self.surface_visible)
    (hrev : self.animation.show_ ≠ 0 ↔ visible = 0)
    (h0 : 0 ≤ self.animation.progress) (h1 : self.animation.progress ≤ 1) :
    offset_fraction (animate_cb height (pos_input_surface_set_visible cbrt self visible).1
        now).1 = offset_fraction self
    ∧ (animate_cb height (pos_input_surface_set_visible cbrt self visible).1
        now).2.2.filter Effect.sets_margins
      = (pos_input_surface_move height self).filter Effect.sets_margins
    ∧ (∀ t : R, hdy_ease_out_cubic (reverse_ease_out_cubic cbrt t) = t) := by
  obtain ⟨r0, r1, -⟩ := reverse_progress_range cbrt hcbrt _ h0 h1
  have hreq : (pos_input_surface_set_visible cbrt self visible).1.animation
      = { show_ := visible, last_frame := -1,
          progress := reverse_ease_out_cubic cbrt
            (1.0 - hdy_ease_out_cubic self.animation.progress) } := by
    simp [pos_input_surface_set_visible, hv]
  obtain ⟨hp, hshow, -, -, -, -, -, -, -, -, heff⟩ := animate_cb_state height
    (pos_input_surface_set_visible cbrt self visible).1 now
  rw [hreq] at hp hshow
  simp only [show ((-1 : Int) < 0) from by decide, if_true, Int.cast_zero, mul_zero,
    zero_div, add_zero, min_eq_right r1] at hp
  have hfrac : offset_fraction (animate_cb height
      (pos_input_surface_set_visible cbrt self visible).1 now).1 = offset_fraction self := by
    unfold offset_fraction
    rw [hp, hshow, hdy_ease_out_cubic_reverse cbrt hcbrt]
    by_cases hs : self.animation.show_ = 0
    · have hvis : visible ≠ 0 := fun h => (hrev.mpr h) hs
      simp [hs, hvis, one_lit]
    · have hvis : visible = 0 := hrev.mp hs
      simp [hs, hvis]
  refine ⟨hfrac, ?_, hdy_ease_out_cubic_reverse cbrt hcbrt⟩
  rw [heff, pos_input_surface_move_margins, pos_input_surface_move_margins, hfrac]

/-- The real cube root, from the real power function, is a cube root. -/
theorem real_cbrt_cube (x : ℝ) :
    (if 0 ≤ x then x ^ ((3 : ℕ) : ℝ)⁻¹ else -((-x) ^ ((3 : ℕ) : ℝ)⁻¹)) ^ 3 = x := by
  by_cases hx : 0 ≤ x
  · rw [if_pos hx]
    exact Real.rpow_inv_natCast_pow hx (by norm_num)
  · rw [if_neg hx]
    have hx2 : 0 ≤ -x := by linarith [lt_of_not_le hx]
    have h := Real.rpow_inv_natCast_pow hx2 (show (3 : ℕ) ≠ 0 by norm_num)
    have h2 : (-((-x) ^ ((3 : ℕ) : ℝ)⁻¹)) ^ 3 = -(((-x) ^ ((3 : ℕ) : ℝ)⁻¹) ^ 3) := by ring
    rw [h2, h]
    ring

/-- C14 on the sample of the claim: at progress 0.4 while showing, a request to hide
gives a progress in [0, 1] that is not 0. -/
theorem pos_input_surface_set_visible_progress_range_witness :
    0 ≤ (pos_input_surface_set_visible
        (fun x : ℝ => if 0 ≤ x then x ^ ((3 : ℕ) : ℝ)⁻¹ else -((-x) ^ ((3 : ℕ) : ℝ)⁻¹))
        ({ (init_surface : PosInputSurface ℝ) with
            surface_visible := 1
            animation := { show_ := 1, progress := 0.4, last_frame := 5000 } })
        0).1.animation.progress
    ∧ (pos_input_surface_set_visible
        (fun x : ℝ => if 0 ≤ x then x ^ ((3 : ℕ) : ℝ)⁻¹ else -((-x) ^ ((3 : ℕ) : ℝ)⁻¹))
        ({ (init_surface : PosInputSurface ℝ) with
            surface_visible := 1
            animation := { show_ := 1, progress := 0.4, last_frame := 5000 } })
        0).1.animation.progress ≤ 1
    ∧ (pos_input_surface_set_visible
        (fun x : ℝ => if 0 ≤ x then x ^ ((3 : ℕ) : ℝ)⁻¹ else -((-x) ^ ((3 : ℕ) : ℝ)⁻¹))
        ({ (init_surface : PosInputSurface ℝ) with
            surface_visible := 1
            animation := { show_ := 1, progress := 0.4, last_frame := 5000 } })
        0).1.animation.progress ≠ 0 :=
  ⟨(pos_input_surface_set_visible_progress_range _ real_cbrt_cube _ 0
      (by decide) (by norm_num) (by norm_num)).1,
   (pos_input_surface_set_visible_progress_range _ real_cbrt_cube _ 0
      (by decide) (by norm_num) (by norm_num)).2.1,
   (pos_input_surface_set_visible_progress_range _ real_cbrt_cube _ 0
      (by decide) (by norm_num) (by norm_num)).2.2 (by norm_num)⟩

/-- C16 on a sample: at progress 0.4 while showing, a request to hide followed by a
tick moves the surface by the fraction it had before the request. -/
theorem pos_input_surface_set_visible_continuous_witness :
    offset_fraction (animate_cb 200 (pos_input_surface_set_visible
        (fun x : ℝ => if 0 ≤ x then x ^ ((3 : ℕ) : ℝ)⁻¹ else -((-x) ^ ((3 : ℕ) : ℝ)⁻¹))
        ({ (init_surface : PosInputSurface ℝ) with
            surface_visible := 1
            animation := { show_ := 1, progress := 0.4, last_frame := 5000 } })
        0).1 21666).1
      = offset_fraction (({ (init_surface : PosInputSurface ℝ) with
            surface_visible := 1
            animation := { show_ := 1, progress := 0.4, last_frame := 5000 } }) :
          PosInputSurface ℝ) :=
  (pos_input_surface_set_visible_continuous _ real_cbrt_cube 200 _ 0 21666
    (by decide) (by decide) (by norm_num) (by norm_num)).1


/-! ## Animation: frames -/

section Frame

variable {R : Type} [LinearOrderedField R] [FloorRing R]

theorem gint64_wrap_zero : gint64_wrap 0 = 0 := by decide

/-- A second call of `animate_cb` in the same frame sees no elapsed time and changes
nothing: it repeats the calls of `pos_input_surface_move`. -/
theorem animate_cb_settled (height : Int) (self : PosInputSurface R) (now : Int)
    (hlast : self.animation.last_frame = now) (hp : self.animation.progress ≤ 1) :
    animate_cb height self now
      = (self, decide (self.animation.progress < 1), pos_input_surface_move height self) := by
  obtain ⟨h1, h2, h3, h4, h5, h6, h7, h8, h9, h10, h11⟩ := animate_cb_state height self now
  have htime : (if self.animation.last_frame < 0 then 0
      else gint64_wrap (now - self.animation.last_frame)) = 0 := by
    by_cases hl : self.animation.last_frame < 0
    · rw [if_pos hl]
    · rw [if_neg hl, hlast, sub_self, gint64_wrap_zero]
  rw [htime] at h1
  simp only [Int.cast_zero, mul_zero, zero_div, add_zero, min_eq_right hp] at h1
  have hstate : (animate_cb height self now).1 = self := by
    generalize (animate_cb height self now).1 = s1 at h1 h2 h3 h4 h5 h6 h7 h8 h9
    obtain ⟨sv, ⟨sh, pr, lf⟩, osks, term, vc, sl, tc⟩ := self
    obtain ⟨sv1, ⟨sh1, pr1, lf1⟩, osks1, term1, vc1, sl1, tc1⟩ := s1
    simp only at hlast hp h1 h2 h3 h4 h5 h6 h7 h8 h9
    subst h1 h2 h3 h4 h5 h6 h7 h8 h9
    rw [hlast]
  have hret : (animate_cb height self now).2.1 = decide (self.animation.progress < 1) := by
    rw [Bool.eq_iff_iff, h10, hstate]
    simp
  rw [hstate] at h11
  exact Prod.ext hstate (Prod.ext hret h11)

theorem pos_input_surface_move_tick_callbacks (height : Int) (self : PosInputSurface R)
    (k : Nat) :
    pos_input_surface_move height { self with tick_callbacks := k }
      = pos_input_surface_move height self := rfl

/-- The callbacks of a frame after the first: each repeats the calls of
`pos_input_surface_move`, and each is unregistered when the progress is 1. -/
theorem run_tick_callbacks_settled (height : Int) (now : Int) :
    ∀ (n : Nat) (self : PosInputSurface R) (log : List Effect),
      self.animation.last_frame = now → self.animation.progress ≤ 1 →
      run_tick_callbacks height now n (self, log)
        = ({ self with
             tick_callbacks :=
               if self.animation.progress < 1 then self.tick_callbacks
               else self.tick_callbacks - n },
           log ++ (List.replicate n (pos_input_surface_move height self)).flatten) := by
  intro n
  induction n with
  | zero =>
    intro self log _ _
    simp [run_tick_callbacks]
  | succ n ih =>
    intro self log hlast hp
    unfold run_tick_callbacks run_tick_callback
    rw [animate_cb_settled height self now hlast hp]
    by_cases hlt : self.animation.progress < 1
    · simp only [hlt, decide_True, if_true]
      rw [ih self _ hlast hp]
      simp [hlt, List.replicate_succ]
    · simp only [hlt, decide_False, if_false]
      rw [ih { self with tick_callbacks := self.tick_callbacks - 1 } _ hlast hp]
      simp [hlt, List.replicate_succ, pos_input_surface_move_tick_callbacks, Nat.sub_sub,
        Nat.add_comm]

/-- A frame with at least one registered callback: the first callback updates the
progress, every callback makes the calls of `pos_input_surface_move` on the updated
surface, and all callbacks are unregistered when the progress is 1, none otherwise. -/
theorem frame_clock_update_eq (height : Int) (self : PosInputSurface R) (now : Int)
    (hn : 0 < self.tick_callbacks) :
    frame_clock_update height self now
      = ({ (animate_cb height self now).1 with
           tick_callbacks :=
             if (animate_cb height self now).1.animation.progress < 1
             then self.tick_callbacks else 0 },
         (List.replicate self.tick_callbacks
           (pos_input_surface_move height (animate_cb height self now).1)).flatten) := by
  obtain ⟨h1, h2, h3, h4, h5, h6, h7, h8, h9, h10, h11⟩ := animate_cb_state height self now
  have hle := animate_cb_le_one height self now
  unfold frame_clock_update
  obtain ⟨m, hm⟩ : ∃ m, self.tick_callbacks = m + 1 := ⟨self.tick_callbacks - 1, by omega⟩
  rw [hm]
  unfold run_tick_callbacks run_tick_callback
  generalize hr : animate_cb height self now = r at h1 h2 h3 h4 h5 h6 h7 h8 h9 h10 h11 hle
  obtain ⟨s1, ret, eff⟩ := r
  simp only at h1 h2 h3 h4 h5 h6 h7 h8 h9 h10 h11 hle
  subst h11
  cases ret with
  | true =>
    have hlt : s1.animation.progress < 1 := h10.mp rfl
    simp only [List.nil_append]
    rw [run_tick_callbacks_settled height now m s1 _ h3 hle]
    simp [hlt, h5, hm, List.replicate_succ]
  | false =>
    have hlt : ¬ s1.animation.progress < 1 := fun h => by simpa using h10.mpr h
    simp only [List.nil_append]
    rw [run_tick_callbacks_settled height now m
      { s1 with tick_callbacks := s1.tick_callbacks - 1 } _ h3 hle]
    simp [hlt, h5, hm, List.replicate_succ, pos_input_surface_move_tick_callbacks]

theorem frame_clock_update_idle (height : Int) (self : PosInputSurface R) (now : Int)
    (hn : self.tick_callbacks = 0) : frame_clock_update height self now = (self, []) := by
  unfold frame_clock_update
  rw [hn]
  rfl

end Frame


/-! ## Animation: subscriptions -/

theorem count_flatten_replicate (e : Effect) (l : List Effect) (n : Nat) :
    (List.replicate n l).flatten.count e = n * l.count e := by
  induction n with
  | zero => simp
  | succ n ih =>
    rw [List.replicate_succ, List.flatten_cons, List.count_append, ih]
    ring

theorem filter_flatten_replicate_length (f : Effect → Bool) (l : List Effect) (n : Nat) :
    ((List.replicate n l).flatten.filter f).length = n * (l.filter f).length := by
  induction n with
  | zero => simp
  | succ n ih =>
    rw [List.replicate_succ, List.flatten_cons, List.filter_append, List.length_append, ih]
    ring

section Subscriptions

variable {R : Type} [LinearOrderedField R] [FloorRing R]

/-- The calls of `pos_input_surface_move` counted: no tick callback is added, and the
exclusive zone is set to a non-zero height exactly when the direction is show and the
progress is 1. -/
theorem pos_input_surface_move_counts (height : Int) (hh : height ≠ 0)
    (self : PosInputSurface R) :
    (pos_input_surface_move height self).count Effect.add_tick_callback = 0
    ∧ (pos_input_surface_move height self).count (Effect.set_exclusive_zone height)
        = (if self.animation.show_ ≠ 0 ∧ 1 ≤ self.animation.progress then 1 else 0) := by
  rw [pos_input_surface_move_cases]
  have hz : ¬ (0 : Int) = height := fun h => hh h.symm
  by_cases hs : self.animation.show_ = 0
  · by_cases hp : self.animation.progress < 1
    · simp [hs, hp, List.count_cons, hz]
    · simp [hs, hp, List.count_cons]
  · by_cases hp : 1 ≤ self.animation.progress
    · simp [hs, hp, List.count_cons]
    · simp [hs, hp, List.count_cons]

/-- C15, as the code has it: a request to hide made while the unfold animation is
running leaves two tick callbacks registered, and in the next frame
`pos_input_surface_move` runs twice. -/
theorem tick_callbacks_two_after_reversal :
    (surface_run sample_cbrt 200 (init_surface : PosInputSurface ℚ)
      [SurfaceEvent.set_visible true, SurfaceEvent.frame_tick 1000,
       SurfaceEvent.set_visible false]).1.tick_callbacks = 2
    ∧ ((frame_clock_update 200
        (surface_run sample_cbrt 200 (init_surface : PosInputSurface ℚ)
          [SurfaceEvent.set_visible true, SurfaceEvent.frame_tick 1000,
           SurfaceEvent.set_visible false]).1 2000).2.filter Effect.sets_margins).length
      = 2 := by
  decide!

/-- C15, amended: every visibility request that changes the target registers one more
tick callback, whatever number is registered already; in a frame
`pos_input_surface_move` runs once for each registered callback, only the first of
these runs updates the animation, and the frame unregisters all callbacks when the
progress has reached 1 and none otherwise. -/
theorem tick_callbacks_per_frame (cbrt : R → R) (height : Int) (self : PosInputSurface R)
    (visible : Int) (now : Int) :
    (visible ≠ self.surface_visible →
      (pos_input_surface_set_visible cbrt self visible).1.tick_callbacks
        = self.tick_callbacks + 1)
    ∧ ((frame_clock_update height self now).2.filter Effect.sets_margins).length
        = self.tick_callbacks
    ∧ (frame_clock_update height self now).1.tick_callbacks
        = (if (animate_cb height self now).1.animation.progress < 1
            then self.tick_callbacks else 0)
    ∧ (0 < self.tick_callbacks →
        (frame_clock_update height self now).1.animation
          = (animate_cb height self now).1.animation) := by
  refine ⟨?_, ?_, ?_, ?_⟩
  · intro hv
    simp [pos_input_surface_set_visible, hv]
  · by_cases hn : self.tick_callbacks = 0
    · rw [frame_clock_update_idle height self now hn, hn]
      rfl
    · rw [frame_clock_update_eq height self now (Nat.pos_of_ne_zero hn),
        filter_flatten_replicate_length, pos_input_surface_move_margins]
      simp
  · by_cases hn : self.tick_callbacks = 0
    · rw [frame_clock_update_idle height self now hn, hn]
      simp
    · rw [frame_clock_update_eq height self now (Nat.pos_of_ne_zero hn)]
  · intro hn
    rw [frame_clock_update_eq height self now hn]

/-- One event does not let the number of full-height settings of the exclusive zone
outgrow the callbacks it unregisters. -/
theorem surface_event_zone_count (cbrt : R → R) (height : Int) (hh : height ≠ 0)
    (acc : PosInputSurface R × List Effect) (ev : SurfaceEvent) :
    (surface_event cbrt height acc ev).2.count (Effect.set_exclusive_zone height)
        + (surface_event cbrt height acc ev).1.tick_callbacks
        + acc.2.count Effect.add_tick_callback
      ≤ acc.2.count (Effect.set_exclusive_zone height) + acc.1.tick_callbacks
        + (surface_event cbrt height acc ev).2.count Effect.add_tick_callback := by
  cases ev with
  | set_visible b =>
    unfold surface_event
    by_cases hv : gboolean b = acc.1.surface_visible
    · simp [pos_input_surface_set_visible, hv]
    · simp [pos_input_surface_set_visible, hv, List.count_append, List.count_cons]
      omega
  | frame_tick now =>
    simp only [surface_event]
    by_cases hn : acc.1.tick_callbacks = 0
    · rw [frame_clock_update_idle height acc.1 now hn]
      simp
    · rw [frame_clock_update_eq height acc.1 now (Nat.pos_of_ne_zero hn)]
      obtain ⟨c1, c2⟩ := pos_input_surface_move_counts height hh (animate_cb height acc.1 now).1
      simp only [List.count_append, count_flatten_replicate, c1, c2, Nat.mul_zero]
      by_cases hp : (animate_cb height acc.1 now).1.animation.progress < 1
      · have hp2 : ¬ 1 ≤ (animate_cb height acc.1 now).1.animation.progress := not_le.mpr hp
        simp [hp, hp2]
      · have hp2 : 1 ≤ (animate_cb height acc.1 now).1.animation.progress := not_lt.mp hp
        by_cases hs : (animate_cb height acc.1 now).1.animation.show_ = 0
        · simp [hp, hp2, hs]
        · simp [hp, hp2, hs]

theorem surface_run_zone_count (cbrt : R → R) (height : Int) (hh : height ≠ 0)
    (events : List SurfaceEvent) :
    ∀ acc : PosInputSurface R × List Effect,
      (events.foldl (surface_event cbrt height) acc).2.count (Effect.set_exclusive_zone height)
          + (events.foldl (surface_event cbrt height) acc).1.tick_callbacks
          + acc.2.count Effect.add_tick_callback
        ≤ acc.2.count (Effect.set_exclusive_zone height) + acc.1.tick_callbacks
          + (events.foldl (surface_event cbrt height) acc).2.count Effect.add_tick_callback := by
  induction events with
  | nil => intro acc; simp
  | cons ev rest ih =>
    intro acc
    rw [List.foldl_cons]
    have h1 := ih (surface_event cbrt height acc ev)
    have h2 := surface_event_zone_count cbrt height hh acc ev
    omega

end Subscriptions


section ZoneFull

variable {R : Type} [LinearOrderedField R] [FloorRing R]

theorem frames_add_count (cbrt : R → R) (height : Int) (frames : List Int) :
    ∀ acc : PosInputSurface R × List Effect,
      ((frames.map SurfaceEvent.frame_tick).foldl (surface_event cbrt height) acc).2.count
          Effect.add_tick_callback
        = acc.2.count Effect.add_tick_callback := by
  induction frames with
  | nil => intro acc; rfl
  | cons t rest ih =>
    intro acc
    rw [List.map_cons, List.foldl_cons, ih]
    simp only [surface_event]
    by_cases hn : acc.1.tick_callbacks = 0
    · rw [frame_clock_update_idle height acc.1 t hn]
      simp
    · rw [frame_clock_update_eq height acc.1 t (Nat.pos_of_ne_zero hn)]
      have hm : ∀ s : PosInputSurface R,
          (pos_input_surface_move height s).count Effect.add_tick_callback = 0 := by
        intro s
        rw [pos_input_surface_move_cases]
        by_cases hs : s.animation.show_ = 0
        · by_cases hp : s.animation.progress < 1
          · simp [hs, hp, List.count_cons]
          · simp [hs, hp, List.count_cons]
        · by_cases hp : 1 ≤ s.animation.progress
          · simp [hs, hp, List.count_cons]
          · simp [hs, hp, List.count_cons]
      simp only [List.count_append, count_flatten_replicate, hm, Nat.mul_zero, Nat.add_zero]

/-- C13, as the code has it: two reversals before the first frame leave three tick
callbacks registered, and the frame that completes the unfolding sets the exclusive
zone to the full height three times in the one show cycle. -/
theorem exclusive_zone_thrice_in_show_cycle :
    (surface_run sample_cbrt 200
      (surface_run sample_cbrt 200 (init_surface : PosInputSurface ℚ)
        [SurfaceEvent.set_visible true, SurfaceEvent.set_visible false]).1
      [SurfaceEvent.set_visible true, SurfaceEvent.frame_tick 1000,
       SurfaceEvent.frame_tick 334320]).2.count (Effect.set_exclusive_zone 200) = 3 := by
  decide!

/-- C13, amended: for a non-zero height, a tick of `animate_cb` sets the exclusive zone
to the full height only when the direction is show and the progress after the update
is 1, and that tick returns `G_SOURCE_REMOVE`; a visibility request sets no zone.  So
over every sequence of requests and frames the full-height settings are at most as many
as the tick callbacks unregistered, and a show cycle whose request found no callback
registered sets the full height at most once. -/
theorem exclusive_zone_full_height (cbrt : R → R) (height : Int) (hh : height ≠ 0)
    (self : PosInputSurface R) (events : List SurfaceEvent) (now : Int) :
    (∀ z, Effect.set_exclusive_zone z ∈ (animate_cb height self now).2.2 →
      (z = height ∧ self.animation.show_ ≠ 0
        ∧ (animate_cb height self now).1.animation.progress = 1
        ∧ (animate_cb height self now).2.1 = false)
      ∨ (z = 0 ∧ self.animation.show_ = 0
        ∧ (animate_cb height self now).1.animation.progress < 1))
    ∧ (∀ visible z,
        Effect.set_exclusive_zone z ∉ (pos_input_surface_set_visible cbrt self visible).2)
    ∧ (surface_run cbrt height self events).2.count (Effect.set_exclusive_zone height)
        + (surface_run cbrt height self events).1.tick_callbacks
      ≤ self.tick_callbacks
        + (surface_run cbrt height self events).2.count Effect.add_tick_callback
    ∧ (self.tick_callbacks = 0 → ∀ frames : List Int,
        (surface_run cbrt height self
          (SurfaceEvent.set_visible true :: frames.map SurfaceEvent.frame_tick)).2.count
            (Effect.set_exclusive_zone height) ≤ 1) := by
  refine ⟨?_, ?_, ?_, ?_⟩
  · intro z hz
    obtain ⟨-, hshow, -, -, -, -, -, -, -, hret, heff⟩ := animate_cb_state height self now
    have hle := animate_cb_le_one height self now
    rw [heff, pos_input_surface_move_cases, hshow] at hz
    by_cases hs : self.animation.show_ = 0
    · by_cases hp : (animate_cb height self now).1.animation.progress < 1
      · right
        simp [hs, hp] at hz
        exact ⟨hz, hs, hp⟩
      · simp [hs, hp] at hz
    · by_cases hp : 1 ≤ (animate_cb height self now).1.animation.progress
      · left
        simp [hs, hp] at hz
        refine ⟨hz, hs, le_antisymm hle hp, ?_⟩
        cases hr : (animate_cb height self now).2.1 with
        | false => rfl
        | true => exact absurd (hret.mp hr) (not_lt.mpr hp)
      · simp [hs, hp] at hz
  · intro visible z
    by_cases hv : visible = self.surface_visible
    · simp [pos_input_surface_set_visible, hv]
    · simp [pos_input_surface_set_visible, hv]
  · have h := surface_run_zone_count cbrt height hh events (self, [])
    unfold surface_run
    simp only [List.count_nil, Nat.add_zero, Nat.zero_add] at h
    exact h
  · intro h0 frames
    have h := surface_run_zone_count cbrt height hh
      (SurfaceEvent.set_visible true :: frames.map SurfaceEvent.frame_tick) (self, [])
    have hadd := frames_add_count cbrt height frames
      (surface_event cbrt height (self, []) (SurfaceEvent.set_visible true))
    have hone : (surface_event cbrt height (self, [])
        (SurfaceEvent.set_visible true)).2.count Effect.add_tick_callback ≤ 1 := by
      simp only [surface_event]
      by_cases hv : gboolean true = self.surface_visible
      · simp [pos_input_surface_set_visible, hv]
      · simp [pos_input_surface_set_visible, hv, List.count_cons]
    unfold surface_run
    rw [List.foldl_cons] at h ⊢
    rw [hadd] at h
    simp only [List.count_nil, Nat.add_zero, Nat.zero_add, h0] at h
    omega

/-- C13, amended, on a sample: an unfolding with one subscription sets the full height
once. -/
theorem exclusive_zone_full_height_witness :
    (surface_run sample_cbrt 200 (init_surface : PosInputSurface ℚ)
      (SurfaceEvent.set_visible true
        :: [1000, 17666, 334320].map SurfaceEvent.frame_tick)).2.count
          (Effect.set_exclusive_zone 200) ≤ 1 :=
  (exclusive_zone_full_height sample_cbrt 200 (by decide) (init_surface : PosInputSurface ℚ)
    [] 0).2.2.2 rfl [1000, 17666, 334320]

end ZoneFull


/-! ## Animation: the exclusive zone when hiding -/

theorem zone_after_nil (zone : Option Int) : zone_after zone [] = zone := rfl

theorem zone_after_cons (zone : Option Int) (e : Effect) (rest : List Effect) :
    zone_after zone (e :: rest)
      = zone_after (match e with
          | Effect.set_exclusive_zone z => some z
          | _ => zone) rest := by
  unfold zone_after
  cases e with
  | set_exclusive_zone z =>
    simp only [last_exclusive_zone]
    cases last_exclusive_zone rest <;> rfl
  | _ => simp only [last_exclusive_zone]

theorem zone_after_append (zone : Option Int) (a b : List Effect) :
    zone_after zone (a ++ b) = zone_after (zone_after zone a) b := by
  induction a generalizing zone with
  | nil => rfl
  | cons e rest ih =>
    rw [List.cons_append, zone_after_cons, zone_after_cons, ih]

theorem last_exclusive_zone_eq (log : List Effect) :
    last_exclusive_zone log = zone_after none log := by
  unfold zone_after
  cases last_exclusive_zone log <;> rfl

theorem hides_released_cons (zone : Option Int) (e : Effect) (rest : List Effect) :
    hides_released zone (e :: rest)
      = ((match e with
          | Effect.widget_hide => decide (zone = none) || decide (zone = some 0)
          | _ => true)
        && hides_released (zone_after zone [e]) rest) := by
  cases e <;> simp [hides_released, zone_after, last_exclusive_zone]

theorem hides_released_append (zone : Option Int) (a b : List Effect) :
    hides_released zone (a ++ b)
      = (hides_released zone a && hides_released (zone_after zone a) b) := by
  induction a generalizing zone with
  | nil => simp [hides_released, zone_after_nil]
  | cons e rest ih =>
    rw [List.cons_append, hides_released_cons, hides_released_cons zone e rest, ih,
      show e :: rest = [e] ++ rest from rfl, zone_after_append, Bool.and_assoc]

/-- The checker says what it should: at every `gtk_widget_hide` the zone set last
before it is 0 or none. -/
theorem hides_released_split (log : List Effect) (h : hides_released none log = true)
    (pre post : List Effect) (hsplit : log = pre ++ Effect.widget_hide :: post) :
    last_exclusive_zone pre = none ∨ last_exclusive_zone pre = some 0 := by
  rw [hsplit, hides_released_append, Bool.and_eq_true, hides_released_cons,
    Bool.and_eq_true] at h
  rw [last_exclusive_zone_eq]
  simpa using h.2.1

theorem hides_released_flatten_replicate (zone : Option Int) (l : List Effect) (n : Nat)
    (h1 : hides_released zone l = true) (h2 : hides_released (zone_after zone l) l = true)
    (h3 : zone_after (zone_after zone l) l = zone_after zone l) :
    hides_released zone (List.replicate n l).flatten = true
    ∧ zone_after zone (List.replicate n l).flatten = (if n = 0 then zone else zone_after zone l) := by
  induction n with
  | zero => simp [hides_released, zone_after_nil]
  | succ n ih =>
    have key : ∀ m : Nat, hides_released (zone_after zone l) (List.replicate m l).flatten = true
        ∧ zone_after (zone_after zone l) (List.replicate m l).flatten = zone_after zone l := by
      intro m
      induction m with
      | zero => simp [hides_released, zone_after_nil]
      | succ m ihm =>
        rw [List.replicate_succ, List.flatten_cons, hides_released_append, zone_after_append,
          h3, h2, ihm.1, ihm.2]
        exact ⟨rfl, rfl⟩
    rw [List.replicate_succ, List.flatten_cons, hides_released_append, zone_after_append,
      h1, (key n).1, (key n).2]
    simp

theorem reverse_of_one {R : Type} [LinearOrderedField R] (cbrt : R → R) (hm1 : cbrt (-1) = -1) :
    reverse_ease_out_cubic cbrt (1.0 - hdy_ease_out_cubic (1 : R)) = 0 := by
  have h : (1.0 : R) - hdy_ease_out_cubic (1 : R) - 1 = -1 := by
    rw [hdy_ease_out_cubic_eq]; norm_num
  unfold reverse_ease_out_cubic
  rw [h, hm1]
  norm_num

theorem reverse_of_zero {R : Type} [LinearOrderedField R] (cbrt : R → R)
    (h0 : cbrt 0 = 0) :
    reverse_ease_out_cubic cbrt (1.0 - hdy_ease_out_cubic (0 : R)) = 1 := by
  have h : (1.0 : R) - hdy_ease_out_cubic (0 : R) - 1 = 0 := by
    rw [hdy_ease_out_cubic_eq]; norm_num
  unfold reverse_ease_out_cubic
  rw [h, h0]
  norm_num

/-- A visibility request keeps the invariant and makes no call on the surface
geometry. -/
theorem set_visible_zone_invariant {R : Type} [LinearOrderedField R] (cbrt : R → R) (hm1 : cbrt (-1) = -1) (h0 : cbrt 0 = 0)
    (self : PosInputSurface R) (zone : Option Int) (b : Bool)
    (hinv : zone_invariant self zone) :
    hides_released zone (pos_input_surface_set_visible cbrt self (gboolean b)).2 = true
    ∧ zone_after zone (pos_input_surface_set_visible cbrt self (gboolean b)).2 = zone
    ∧ zone_invariant (pos_input_surface_set_visible cbrt self (gboolean b)).1 zone := by
  by_cases hv : gboolean b = self.surface_visible
  · have hr : pos_input_surface_set_visible cbrt self (gboolean b) = (self, []) := by
      simp [pos_input_surface_set_visible, hv]
    rw [hr]
    exact ⟨rfl, rfl, hinv⟩
  · have hs : (pos_input_surface_set_visible cbrt self (gboolean b)).1
        = { self with
            surface_visible := gboolean b
            animation :=
              { show_ := gboolean b, last_frame := -1,
                progress := reverse_ease_out_cubic cbrt
                  (1.0 - hdy_ease_out_cubic self.animation.progress) }
            tick_callbacks := self.tick_callbacks + 1 } := by
      simp [pos_input_surface_set_visible, hv]
    have he : (pos_input_surface_set_visible cbrt self (gboolean b)).2
        = [Effect.notify_surface_visible, Effect.add_tick_callback] := by
      simp [pos_input_surface_set_visible, hv]
    rw [hs, he]
    refine ⟨rfl, rfl, ?_, ?_⟩
    · cases b
      · left; rfl
      · right; exact ⟨rfl, rfl⟩
    · intro z hz hz0
      obtain ⟨hsv, hbr⟩ := hinv.2 z hz hz0
      refine ⟨rfl, ?_⟩
      rcases hbr with ⟨h1, h2, -⟩ | ⟨h1, h2, -⟩
      · -- fully unfolded: the request is to fold
        have hb : gboolean b = 0 := by
          cases b
          · rfl
          · exact absurd (by rw [hsv, h1]; rfl) hv
        right
        refine ⟨hb, ?_, show (-1 : Int) < 0 by decide⟩
        show reverse_ease_out_cubic cbrt (1.0 - hdy_ease_out_cubic self.animation.progress) = 0
        rw [h2]
        exact reverse_of_one cbrt hm1
      · -- a request to fold was just made: the request is to unfold
        have hb : gboolean b = 1 := by
          cases b
          · exact absurd (by rw [hsv, h1]; rfl) hv
          · rfl
        left
        refine ⟨hb, ?_, Or.inr (show (-1 : Int) < 0 by decide)⟩
        show reverse_ease_out_cubic cbrt (1.0 - hdy_ease_out_cubic self.animation.progress) = 1
        rw [h2]
        exact reverse_of_zero cbrt h0

section ZoneReleased

variable {R : Type} [LinearOrderedField R] [FloorRing R]

/-- A frame keeps the invariant, and hides the surface only when the zone set last is 0
or none. -/
theorem frame_zone_invariant (height : Int) (self : PosInputSurface R) (zone : Option Int)
    (now : Int) (hinv : zone_invariant self zone) :
    hides_released zone (frame_clock_update height self now).2 = true
    ∧ zone_invariant (frame_clock_update height self now).1
        (zone_after zone (frame_clock_update height self now).2) := by
  by_cases hn : self.tick_callbacks = 0
  · rw [frame_clock_update_idle height self now hn]
    exact ⟨rfl, hinv⟩
  have hpos : 0 < self.tick_callbacks := Nat.pos_of_ne_zero hn
  rw [frame_clock_update_eq height self now hpos]
  obtain ⟨hp, hshow, hlast, hsv, -, -, -, -, -, -, -⟩ := animate_cb_state height self now
  have hle := animate_cb_le_one height self now
  -- with the last frame time cleared the first callback sees no elapsed time
  have hcleared : self.animation.last_frame < 0 →
      (animate_cb height self now).1.animation.progress = min 1 self.animation.progress := by
    intro hl
    rw [hp, if_pos hl]
    simp
  -- when the zone set last is not 0, the frame cannot end a folding
  have hfull : ∀ z, zone = some z → z ≠ 0 →
      (self.animation.show_ = 1
          ∧ (animate_cb height self now).1.animation.progress = 1)
        ∨ (self.animation.show_ = 0
          ∧ (animate_cb height self now).1.animation.progress = 0) := by
    intro z hz hz0
    obtain ⟨-, hbr⟩ := hinv.2 z hz hz0
    rcases hbr with ⟨h1, h2, h3 | h3⟩ | ⟨h1, h2, h3⟩
    · exact absurd h3 hn
    · left
      refine ⟨h1, ?_⟩
      rw [hcleared h3, h2]
      simp
    · right
      refine ⟨h1, ?_⟩
      rw [hcleared h3, h2]
      simp
  generalize hs1 : (animate_cb height self now).1 = s1 at hp hshow hlast hsv hle hcleared hfull
  have hrep := hides_released_flatten_replicate zone (pos_input_surface_move height s1)
    self.tick_callbacks
  have hJ : s1.animation.show_ = 0 ∨ (s1.animation.show_ = 1 ∧ s1.surface_visible = 1) := by
    rw [hshow, hsv]; exact hinv.1
  rw [pos_input_surface_move_cases] at hrep ⊢
  by_cases hs : s1.animation.show_ = 0
  · by_cases hlt : s1.animation.progress < 1
    · -- folding, not yet folded: the zone is set to 0
      simp only [hs, hlt, ne_eq, not_true_eq_false, if_false, if_true] at hrep ⊢
      obtain ⟨r1, r2⟩ := hrep (by simp [hides_released]) (by simp [hides_released])
        (by simp [zone_after, last_exclusive_zone])
      refine ⟨r1, Or.inl hs, ?_⟩
      intro z hz hz0
      rw [r2, if_neg hn] at hz
      simp [zone_after, last_exclusive_zone] at hz
      exact absurd hz.symm hz0
    · -- folded: the surface is hidden, the zone set last must be 0 or none
      have hzone : zone = none ∨ zone = some 0 := by
        cases hz : zone with
        | none => exact Or.inl rfl
        | some z =>
          right
          by_cases hz0 : z = 0
          · rw [hz0]
          · exfalso
            rcases hfull z hz hz0 with ⟨h1, -⟩ | ⟨-, h2⟩
            · rw [← hshow, hs] at h1
              exact absurd h1 (by decide)
            · rw [h2] at hlt
              exact hlt (by norm_num)
      simp only [hs, hlt, ne_eq, not_true_eq_false, if_false] at hrep ⊢
      obtain ⟨r1, r2⟩ := hrep
        (by rcases hzone with h | h <;> simp [hides_released, h])
        (by rcases hzone with h | h <;> simp [hides_released, zone_after, last_exclusive_zone, h])
        (by simp [zone_after, last_exclusive_zone])
      refine ⟨r1, Or.inl hs, ?_⟩
      intro z hz hz0
      rw [r2, if_neg hn] at hz
      simp only [zone_after, last_exclusive_zone] at hz
      rcases hzone with h | h
      · rw [h] at hz; exact absurd hz (by simp)
      · rw [h] at hz
        simp only [Option.some.injEq] at hz
        exact absurd hz.symm hz0
  · have hshow1 : s1.animation.show_ = 1 ∧ s1.surface_visible = 1 := by
      rcases hJ with h | h
      · exact absurd h hs
      · exact h
    by_cases hge : 1 ≤ s1.animation.progress
    · -- unfolded: the zone is set to the height and every callback is unregistered
      have hnlt : ¬ s1.animation.progress < 1 := not_lt.mpr hge
      simp only [hs, hge, hnlt, ne_eq, not_false_eq_true, if_true, if_false] at hrep ⊢
      obtain ⟨r1, r2⟩ := hrep (by simp [hides_released]) (by simp [hides_released])
        (by simp [zone_after, last_exclusive_zone])
      refine ⟨r1, Or.inr hshow1, ?_⟩
      intro z _ _
      refine ⟨by rw [hshow1.1, hshow1.2], Or.inl ⟨hshow1.1, le_antisymm hle hge, Or.inl rfl⟩⟩
    · -- unfolding, not yet unfolded: no zone is set
      have hlt : s1.animation.progress < 1 := lt_of_not_le hge
      simp only [hs, hge, hlt, ne_eq, not_false_eq_true, if_true, if_false] at hrep ⊢
      obtain ⟨r1, r2⟩ := hrep (by simp [hides_released]) (by simp [hides_released, zone_after,
        last_exclusive_zone]) (by simp [zone_after, last_exclusive_zone])
      refine ⟨r1, Or.inr hshow1, ?_⟩
      intro z hz hz0
      rw [r2, if_neg hn] at hz
      simp only [zone_after, last_exclusive_zone, List.append_eq, List.nil_append,
        List.cons_append] at hz
      exfalso
      rcases hfull z hz hz0 with ⟨-, h2⟩ | ⟨h1, -⟩
      · rw [h2] at hlt
        exact lt_irrefl _ hlt
      · rw [← hshow, hshow1.1] at h1
        exact absurd h1 (by decide)

theorem surface_run_zone_invariant (cbrt : R → R) (hm1 : cbrt (-1) = -1) (h0 : cbrt 0 = 0)
    (height : Int) (events : List SurfaceEvent) :
    ∀ acc : PosInputSurface R × List Effect,
      hides_released none acc.2 = true → zone_invariant acc.1 (zone_after none acc.2) →
      hides_released none (events.foldl (surface_event cbrt height) acc).2 = true
      ∧ zone_invariant (events.foldl (surface_event cbrt height) acc).1
          (zone_after none (events.foldl (surface_event cbrt height) acc).2) := by
  induction events with
  | nil => intro acc h1 h2; exact ⟨h1, h2⟩
  | cons ev rest ih =>
    intro acc h1 h2
    rw [List.foldl_cons]
    cases ev with
    | set_visible b =>
      obtain ⟨g1, g2, g3⟩ := set_visible_zone_invariant cbrt hm1 h0 acc.1 _ b h2
      apply ih
      · simp only [surface_event]
        rw [hides_released_append, h1, g1]
        rfl
      · simp only [surface_event]
        rw [zone_after_append, g2]
        exact g3
    | frame_tick now =>
      obtain ⟨g1, g2⟩ := frame_zone_invariant height acc.1 _ now h2
      apply ih
      · simp only [surface_event]
        rw [hides_released_append, h1, g1]
        rfl
      · simp only [surface_event]
        rw [zone_after_append]
        exact g2

/-- C19: with `cbrt` exact at -1 and at 0, over every sequence of visibility requests
and frames from the initial surface, at every `gtk_widget_hide` the exclusive zone set
last, if any was set, is 0; and after a request to hide made in the fully unfolded
state, the first tick sets the exclusive zone to 0. -/
theorem exclusive_zone_released (cbrt : R → R) (hm1 : cbrt (-1) = -1) (h0 : cbrt 0 = 0)
    (height : Int) (events : List SurfaceEvent) :
    (∀ pre post : List Effect,
      (surface_run cbrt height (init_surface : PosInputSurface R) events).2
          = pre ++ Effect.widget_hide :: post →
        last_exclusive_zone pre = none ∨ last_exclusive_zone pre = some 0)
    ∧ (∀ (self : PosInputSurface R) (now : Int),
        self.animation.show_ ≠ 0 → self.animation.progress = 1 → self.surface_visible ≠ 0 →
        Effect.set_exclusive_zone 0
          ∈ (animate_cb height (pos_input_surface_set_visible cbrt self 0).1 now).2.2) := by
  constructor
  · intro pre post hsplit
    have hinit : zone_invariant (init_surface : PosInputSurface R) (zone_after none []) := by
      refine ⟨Or.inl rfl, ?_⟩
      intro z hz
      simp [zone_after, last_exclusive_zone] at hz
    have h := (surface_run_zone_invariant cbrt hm1 h0 height events
      ((init_surface : PosInputSurface R), []) rfl hinit).1
    exact hides_released_split _ h pre post hsplit
  · intro self now hshow hp hsv
    have hv : (0 : Int) ≠ self.surface_visible := fun h => hsv h.symm
    have hs : (pos_input_surface_set_visible cbrt self 0).1.animation
        = { show_ := 0, last_frame := -1,
            progress := reverse_ease_out_cubic cbrt
              (1.0 - hdy_ease_out_cubic self.animation.progress) } := by
      simp [pos_input_surface_set_visible, hv]
    obtain ⟨hp1, hshow1, -, -, -, -, -, -, -, -, heff⟩ := animate_cb_state height
      (pos_input_surface_set_visible cbrt self 0).1 now
    rw [hs] at hp1 hshow1
    rw [hp] at hp1
    simp only [show ((-1 : Int) < 0) from by decide, if_true, Int.cast_zero, mul_zero,
      zero_div, add_zero, reverse_of_one cbrt hm1] at hp1
    have hlt : (animate_cb height (pos_input_surface_set_visible cbrt self 0).1
        now).1.animation.progress < 1 := by
      rw [hp1]; simp
    rw [heff, pos_input_surface_move_cases]
    simp [hshow1, hlt]

/-- C19 on a sample: the surface is unfolded, folded and hidden; at the hide, the
sixteenth call of the log, the zone set last is 0; and the first tick after the request
to hide sets the zone to 0. -/
theorem exclusive_zone_released_witness :
    (last_exclusive_zone
        ((surface_run sample_cbrt 200 (init_surface : PosInputSurface ℚ)
          [SurfaceEvent.set_visible true, SurfaceEvent.frame_tick 1000,
           SurfaceEvent.frame_tick 334320, SurfaceEvent.set_visible false,
           SurfaceEvent.frame_tick 400000, SurfaceEvent.frame_tick 800000]).2.take 15)
        = none
      ∨ last_exclusive_zone
        ((surface_run sample_cbrt 200 (init_surface : PosInputSurface ℚ)
          [SurfaceEvent.set_visible true, SurfaceEvent.frame_tick 1000,
           SurfaceEvent.frame_tick 334320, SurfaceEvent.set_visible false,
           SurfaceEvent.frame_tick 400000, SurfaceEvent.frame_tick 800000]).2.take 15)
        = some 0)
    ∧ Effect.set_exclusive_zone 0
        ∈ (animate_cb 200 (pos_input_surface_set_visible sample_cbrt
            (surface_run sample_cbrt 200 (init_surface : PosInputSurface ℚ)
              [SurfaceEvent.set_visible true, SurfaceEvent.frame_tick 1000,
               SurfaceEvent.frame_tick 334320]).1 0).1 400000).2.2 :=
  ⟨(exclusive_zone_released sample_cbrt rfl rfl 200
      [SurfaceEvent.set_visible true, SurfaceEvent.frame_tick 1000,
       SurfaceEvent.frame_tick 334320, SurfaceEvent.set_visible false,
       SurfaceEvent.frame_tick 400000, SurfaceEvent.frame_tick 800000]).1 _
      ((surface_run sample_cbrt 200 (init_surface : PosInputSurface ℚ)
          [SurfaceEvent.set_visible true, SurfaceEvent.frame_tick 1000,
           SurfaceEvent.frame_tick 334320, SurfaceEvent.set_visible false,
           SurfaceEvent.frame_tick 400000, SurfaceEvent.frame_tick 800000]).2.drop 16)
      (by decide!),
   (exclusive_zone_released sample_cbrt rfl rfl 200 []).2 _ 400000
      (by decide!) (by decide!) (by decide!)⟩

end ZoneReleased


/-! ## Reconciliation and the presented layout -/

/-- C11 on a sample: four ticks from progress 0, two of them in the same frame. -/
theorem animate_cb_run_monotone_witness :
    List.Chain
      (fun a b : PosInputSurface ℚ =>
        a.animation.progress ≤ b.animation.progress ∧ b.animation.progress ≤ 1
        ∧ (a.animation.progress = 1 → b.animation.progress = 1))
      sample_surface_showing
      (animate_cb_run 200 sample_surface_showing [5000, 21666, 21666, 400000]) :=
  animate_cb_run_monotone 200 [5000, 21666, 21666, 400000] sample_surface_showing
    (by decide!) (by decide!) (by decide!) (by decide!)

/-- The visible child after a pass in which a source resolves: the widget of the first
source that resolves. -/
theorem on_input_setting_changed_visible_child {R : Type} (c : Collaborators)
    (self : PosInputSurface R) (sources : List (String × String))
    (hnamed : ∀ e ∈ self.osks, e.2.name = e.1) (w : PosOskWidget)
    (hw : first_resolved c self sources = some w) :
    (on_input_setting_changed c self sources).1.visible_child = some (DeckChild.osk w) := by
  obtain ⟨hstate, -, hwnew⟩ := on_input_setting_changed_of_resolved c self sources hnamed w hw
  obtain ⟨hsel1, -⟩ := sources_loop_selection c sources
    (⟨self, [], false, []⟩ : SourcesLoop R) rfl
  have hv : (sources_loop c self sources).self.visible_child = some (DeckChild.osk w) := by
    unfold sources_loop
    rw [hsel1]
    simp only [hw]
  rw [hstate]
  exact drop_removed_visible_child _ _ w hwnew ((sources_loop c self sources).self, [])
    (sources_loop_named c sources _ hnamed) hv

/-- C17, as the code has it: with `de` presented and the sources `us`, `de`, the layout
`de` is in NEW after the pass, and the pass presents `us`. -/
theorem on_input_setting_changed_drops_presented :
    presented_layout sample_surface_de_presented = some "de"
    ∧ "de" ∈ (sources_loop sample_collaborators sample_surface_de_presented
        [("xkb", "us"), ("xkb", "de")]).new
    ∧ presented_layout (on_input_setting_changed sample_collaborators
        sample_surface_de_presented [("xkb", "us"), ("xkb", "de")]).1 = some "us" := by
  decide

/-- C17, amended: on a well-formed surface, when a source resolves, the layout presented
after `on_input_setting_changed` is the layout of the first source that resolves,
whatever was presented before and whether or not that is in NEW; the layout presented
before is still presented exactly when it is the layout of that first source.  When no
source resolves, NEW is empty. -/
theorem on_input_setting_changed_presented {R : Type} (c : Collaborators)
    (self : PosInputSurface R) (sources : List (String × String))
    (hwf : well_formed self = true) :
    (∀ w, first_resolved c self sources = some w →
      presented_layout (on_input_setting_changed c self sources).1 = some w.name
      ∧ w.name ∈ (sources_loop c self sources).new
      ∧ ∀ a, presented_layout self = some a →
          (presented_layout (on_input_setting_changed c self sources).1 = some a
            ↔ a = w.name))
    ∧ (first_resolved c self sources = none → (sources_loop c self sources).new = []) := by
  obtain ⟨-, hnamed, -⟩ := (well_formed_iff self).mp hwf
  have hnamed2 : ∀ e ∈ self.osks, e.2.name = e.1 := hnamed
  constructor
  · intro w hw
    have hv := on_input_setting_changed_visible_child c self sources hnamed2 w hw
    have hp : presented_layout (on_input_setting_changed c self sources).1 = some w.name := by
      unfold presented_layout
      rw [hv]
      rfl
    refine ⟨hp, (on_input_setting_changed_of_resolved c self sources hnamed2 w hw).2.2, ?_⟩
    intro a _
    rw [hp]
    constructor
    · intro h; exact (Option.some.inj h).symm
    · intro h; rw [h]
  · intro hnone
    exact (sources_loop_of_first_resolved_none c sources
      (⟨self, [], false, []⟩ : SourcesLoop R) hnone).2.1

/-- C17, amended, on a sample: `de` was presented, `us` is the first source, `us` is
presented after the pass. -/
theorem on_input_setting_changed_presented_witness :
    presented_layout (on_input_setting_changed sample_collaborators
      sample_surface_de_presented [("xkb", "us"), ("xkb", "de")]).1 = some "us" :=
  ((on_input_setting_changed_presented sample_collaborators sample_surface_de_presented
    [("xkb", "us"), ("xkb", "de")] (by decide)).1
    ⟨"us", "English (US)", "us", some ""⟩ (by decide)).1


/-! ## Style manager: theorems -/

/-- What `on_accent_color_changed` does to the fields on an Adwaita theme: the new
accent provider is stored in `css_provider`, and `accent_css_provider` stays as it
was. -/
theorem on_accent_color_changed_fields (self : PosStyleManager) (screen : GtkScreen)
    (accent : GDesktopAccentColor)
    (htheme : self.theme_name = some "Adwaita" ∨ self.theme_name = some "adw-gtk3") :
    (on_accent_color_changed self screen accent).1.accent_css_provider
      = self.accent_css_provider
    ∧ (on_accent_color_changed self screen accent).1.css_provider
      = some { id := screen.created,
               source := CssSource.data ("@define-color theme_selected_bg_color "
                 ++ accent_color accent ++ ";\n"
                 ++ "@define-color theme_selected_fg_color " ++ "#ffffff" ++ ";") } := by
  unfold on_accent_color_changed
  rcases htheme with h | h <;> simp [h]

/-- C20, the code at the failing input: on the theme `Adwaita`, after the initial theme
setting and one change of the accent colour, `accent_css_provider` is still `NULL`,
`css_provider` holds the second accent provider (not the theme provider), two accent
providers are installed on the screen; after a later theme change the first theme
provider is still installed next to the new one, and so is the first accent
provider. -/
theorem on_accent_color_changed_loses_theme_provider :
    sample_style_init.1.accent_css_provider = none
    ∧ sample_style_accent.1.accent_css_provider = none
    ∧ sample_style_accent.1.css_provider
      = some { id := 2,
               source := CssSource.data
                 "@define-color theme_selected_bg_color #2190a4;\n@define-color theme_selected_fg_color #ffffff;" }
    ∧ (accent_providers sample_style_accent.2).map GtkCssProvider.id = [1, 2]
    ∧ (theme_providers sample_style_accent.2).map GtkCssProvider.id = [0]
    ∧ (theme_providers sample_style_theme.2).map GtkCssProvider.id = [0, 3]
    ∧ (accent_providers sample_style_theme.2).map GtkCssProvider.id = [1] := by
  decide


end PhoshOsk
